import Mathlib

set_option maxRecDepth 100000

/-!
Verification of the S-box cryptanalysis engine (`analyzer.js`, `script.js`)
and the spec's AES-128 round-trip property.

The JavaScript source is embedded shallowly:
* `for`-loops accumulating a sum / count / max / min become the structural
  fuel loops `sumTo`, `isumTo`, `qsumTo`, `countTo`, `maxTo`, `minTo`, `anyTo`
  (iterating `i = 0 .. n-1` exactly as the source loops do);
* the S-box array `this.sbox` becomes a `List Nat` read through `List.getD`
  (JavaScript indexing `sbox[x]` for `x` inside bounds);
* machine numbers are `Nat` / `Int` / `Rat` (all the JavaScript arithmetic
  involved is exact on IEEE doubles in the ranges reached: integers below
  2^31 and dyadic fractions with denominator at most 2^9, so `Rat` models
  the float results exactly).
-/

/-! ### Loop combinators -/

/-- `sumTo n f = f 0 + ... + f (n-1)`: a `for`-loop accumulating a sum. -/
def sumTo : Nat → (Nat → Nat) → Nat
  | 0, _ => 0
  | n+1, f => sumTo n f + f n

/-- Integer-valued summing loop. -/
def isumTo : Nat → (Nat → Int) → Int
  | 0, _ => 0
  | n+1, f => isumTo n f + f n

/-- Rational-valued summing loop. -/
def qsumTo : Nat → (Nat → Rat) → Rat
  | 0, _ => 0
  | n+1, f => qsumTo n f + f n

/-- `countTo n p`: a `for`-loop counting the `i < n` with `p i = true`. -/
def countTo : Nat → (Nat → Bool) → Nat
  | 0, _ => 0
  | n+1, p => countTo n p + (if p n then 1 else 0)

/-- `maxTo n f`: a `for`-loop `m = max(m, f i)` starting from `m = 0`. -/
def maxTo : Nat → (Nat → Nat) → Nat
  | 0, _ => 0
  | n+1, f => max (maxTo n f) (f n)

/-- `minTo n f`: a `for`-loop `m = min(m, f i)` starting from `m = Infinity`.
The value 256 stands in for `Infinity`: every comparand fed to it in this
development is at most 128, so any start value above 128 gives the same
result. -/
def minTo : Nat → (Nat → Nat) → Nat
  | 0, _ => 256
  | n+1, f => min (minTo n f) (f n)

/-- `anyTo n p`: a scanning loop with early exit (`Array.any` / `break`). -/
def anyTo : Nat → (Nat → Bool) → Bool
  | 0, _ => false
  | n+1, p => anyTo n p || p n

/-! ### Bridges from the loops to `Finset` -/

theorem sumTo_eq_sum (n : Nat) (f : Nat → Nat) :
    sumTo n f = ∑ i ∈ Finset.range n, f i := by
  induction n with
  | zero => rfl
  | succ n ih => rw [sumTo, Finset.sum_range_succ, ih]

theorem isumTo_eq_sum (n : Nat) (f : Nat → Int) :
    isumTo n f = ∑ i ∈ Finset.range n, f i := by
  induction n with
  | zero => rfl
  | succ n ih => rw [isumTo, Finset.sum_range_succ, ih]

theorem countTo_eq_card (n : Nat) (p : Nat → Bool) :
    countTo n p = ((Finset.range n).filter (fun i => p i = true)).card := by
  induction n with
  | zero => rfl
  | succ n ih =>
    rw [countTo, Finset.range_succ, Finset.filter_insert]
    by_cases h : p n = true
    · rw [if_pos h, if_pos h, Finset.card_insert_of_not_mem (by simp), ih]
    · rw [if_neg h, if_neg (by simpa using h), ih]
      simpa using h

theorem maxTo_eq_sup (n : Nat) (f : Nat → Nat) :
    maxTo n f = (Finset.range n).sup f := by
  induction n with
  | zero => rfl
  | succ n ih =>
    rw [maxTo, Finset.range_succ, Finset.sup_insert, ih, Nat.max_comm]

theorem anyTo_eq_any (n : Nat) (p : Nat → Bool) :
    anyTo n p = true ↔ ∃ i < n, p i = true := by
  induction n with
  | zero => simp [anyTo]
  | succ n ih =>
    rw [anyTo, Bool.or_eq_true, ih]
    constructor
    · rintro (⟨i, hi, hp⟩ | hp)
      · exact ⟨i, Nat.lt_succ_of_lt hi, hp⟩
      · exact ⟨n, Nat.lt_succ_self n, hp⟩
    · rintro ⟨i, hi, hp⟩
      rcases Nat.lt_succ_iff_lt_or_eq.mp hi with h | rfl
      · exact Or.inl ⟨i, h, hp⟩
      · exact Or.inr hp

theorem sumTo_congr {n : Nat} {f g : Nat → Nat} (h : ∀ i < n, f i = g i) :
    sumTo n f = sumTo n g := by
  induction n with
  | zero => rfl
  | succ n ih =>
    rw [sumTo, sumTo, ih (fun i hi => h i (Nat.lt_succ_of_lt hi)),
      h n (Nat.lt_succ_self n)]

theorem maxTo_congr {n : Nat} {f g : Nat → Nat} (h : ∀ i < n, f i = g i) :
    maxTo n f = maxTo n g := by
  induction n with
  | zero => rfl
  | succ n ih =>
    rw [maxTo, maxTo, ih (fun i hi => h i (Nat.lt_succ_of_lt hi)),
      h n (Nat.lt_succ_self n)]

theorem maxTo_le {n : Nat} {f : Nat → Nat} {b : Nat}
    (h : ∀ i < n, f i ≤ b) : maxTo n f ≤ b := by
  induction n with
  | zero => exact Nat.zero_le b
  | succ n ih =>
    rw [maxTo]
    exact Nat.max_le.mpr
      ⟨ih (fun i hi => h i (Nat.lt_succ_of_lt hi)), h n (Nat.lt_succ_self n)⟩

theorem le_maxTo {n : Nat} (f : Nat → Nat) {i : Nat} (hi : i < n) :
    f i ≤ maxTo n f := by
  induction n with
  | zero => exact absurd hi (Nat.not_lt_zero i)
  | succ n ih =>
    rw [maxTo]
    rcases Nat.lt_succ_iff_lt_or_eq.mp hi with h | rfl
    · exact le_trans (ih h) (Nat.le_max_left _ _)
    · exact Nat.le_max_right _ _

theorem minTo_le {n : Nat} (f : Nat → Nat) {i : Nat} (hi : i < n) :
    minTo n f ≤ f i := by
  induction n with
  | zero => exact absurd hi (Nat.not_lt_zero i)
  | succ n ih =>
    rw [minTo]
    rcases Nat.lt_succ_iff_lt_or_eq.mp hi with h | rfl
    · exact le_trans (Nat.min_le_left _ _) (ih h)
    · exact Nat.min_le_right _ _

/-! ### Bit utilities (analyzer.js `hammingWeight`, `precomputeHammingWeights`)

`hammingWeight` in the source is a `while (n) { weight += n & 1; n >>= 1 }`
loop; on the 8-bit values it is applied to it makes at most 8 iterations,
so it is embedded with fuel 8. -/

/-- The source's Hamming-weight loop, with explicit fuel. -/
def pcGo : Nat → Nat → Nat
  | 0, _ => 0
  | k+1, n => (n &&& 1) + pcGo k (n >>> 1)

/-- `hammingWeight n`: number of 1 bits of an 8-bit value
(analyzer.js lines 31-38; the precomputed table `hammingWeights[i]`
is this function applied to `i < 256`). -/
def hammingWeight (n : Nat) : Nat := pcGo 8 n

theorem pcGo_eq_bitsum (k : Nat) : ∀ n : Nat,
    pcGo k n = ∑ i ∈ Finset.range k, (n / 2 ^ i) % 2 := by
  induction k with
  | zero => intro n; rfl
  | succ k ih =>
    intro n
    rw [pcGo, ih, Finset.sum_range_succ']
    simp only [Nat.shiftRight_eq_div_pow, Nat.and_one_is_mod, Nat.pow_zero,
      Nat.div_one, Nat.pow_succ]
    rw [Nat.add_comm]
    congr 1
    refine Finset.sum_congr rfl fun i _ => ?_
    rw [Nat.div_div_eq_div_mul, Nat.mul_comm]

theorem pcGo_eq_card (k n : Nat) :
    pcGo k n = ((Finset.range k).filter (fun i => n.testBit i)).card := by
  rw [pcGo_eq_bitsum, Finset.card_filter]
  refine Finset.sum_congr rfl fun i _ => ?_
  rcases Nat.mod_two_eq_zero_or_one (n / 2 ^ i) with h | h <;>
    rw [h, Nat.testBit_to_div_mod] <;> simp [h]

/-! ### The analyzer (analyzer.js `SBoxAnalyzer`)

An analyzer instance is determined by its copied S-box array (`this.sbox`);
`this.n = 8` and `this.size = 256` are fixed.  Each method below is one
method of the class, specialised to those constants. -/

/-- `sbox[x]` — array read at an in-bounds index. -/
def sboxLk (sbox : List Nat) (x : Nat) : Nat := sbox.getD x 0

/-- `getBooleanFunction(outputBit)` (lines 41-55): truth table of output bit
`outputBit`, `truthTable[i] = (sbox[i] >> outputBit) & 1`. -/
def getBooleanFunction (sbox : List Nat) (outputBit : Nat) : Nat → Nat :=
  fun i => (sboxLk sbox i >>> outputBit) &&& 1

/-- The GF(2) dot product `hammingWeights[x & w] & 1` (line 66). -/
def dotParity (w x : Nat) : Nat := hammingWeight (x &&& w) &&& 1

/-- `walshHadamardTransform(truthTable)[w]` (lines 58-73):
`Σ_x (-1)^(truthTable[x] XOR parity(w AND x))`. -/
def walshAt (f : Nat → Nat) (w : Nat) : Int :=
  isumTo 256 (fun x => (-1) ^ (f x ^^^ dotParity w x))

/-- The `maxWalsh` loop of `calculateNonlinearity` (lines 84-87):
maximum of `|walsh[i]|` over `i = 1 .. 255`. -/
def walshMaxAbs (f : Nat → Nat) : Nat :=
  maxTo 255 (fun i => (walshAt f (i + 1)).natAbs)

/-- `calculateNonlinearity()` (lines 76-95): minimum over the eight output
bits of `2^7 - maxWalsh/2`. -/
def calculateNonlinearity (sbox : List Nat) : Nat :=
  minTo 8 (fun bit => 128 - walshMaxAbs (getBooleanFunction sbox bit) / 2)

/-- The `flipCount` loop of `calculateSAC` (lines 103-113). -/
def sacFlipCount (sbox : List Nat) (inputBit outputBit : Nat) : Nat :=
  countTo 256 (fun x =>
    ((sboxLk sbox x ^^^ sboxLk sbox (x ^^^ (1 <<< inputBit))) >>> outputBit) &&& 1 == 1)

/-- `calculateSAC().score` (lines 119-129): mean of `|P_ij - 0.5|` over the
8×8 matrix, where `P_ij = flipCount/256`. -/
def sacScore (sbox : List Nat) : Rat :=
  qsumTo 8 (fun i => qsumTo 8 (fun j =>
    |((sacFlipCount sbox i j : Rat) / 256) - (1 : Rat) / 2|)) / 64

/-- One entry of `buildLinearApproximationTable` before the bias shift
(lines 227-236): the number of `x` with matching input/output parities. -/
def latCount (sbox : List Nat) (a b : Nat) : Nat :=
  countTo 256 (fun x => dotParity a x == dotParity b (sboxLk sbox x))

/-- `linearApproxTable[a][b]` (line 238): `count - 128`. -/
def latEntry (sbox : List Nat) (a b : Nat) : Int :=
  (latCount sbox a b : Int) - 128

/-- The `maxBias` loop of `calculateLAP` (lines 200-209): maximum of
`|LAT[a][b]|` over all `(a, b) ≠ (0, 0)` (the skipped pair contributes
nothing to the running maximum, so it is replaced by 0 here). -/
def lapMaxBias (sbox : List Nat) : Nat :=
  maxTo 256 (fun a => maxTo 256 (fun b =>
    if a = 0 ∧ b = 0 then 0 else (latEntry sbox a b).natAbs))

/-- `calculateLAP().maxLAP` (line 212): `(maxBias / 128)^2`. -/
def lapValue (sbox : List Nat) : Rat :=
  ((lapMaxBias sbox : Rat) / 128) ^ 2

/-- `differenceTable[i][j]` as built by the double loop of
`buildDifferenceDistributionTable` (lines 272-278): the number of ordered
pairs `(x1, x2)` with `x1 XOR x2 = i` and `sbox[x1] XOR sbox[x2] = j`. -/
def ddtEntry (sbox : List Nat) (i j : Nat) : Nat :=
  sumTo 256 (fun x1 => countTo 256 (fun x2 =>
    (x1 ^^^ x2 == i) && (sboxLk sbox x1 ^^^ sboxLk sbox x2 == j)))

/-- The `maxDiff` loop of `calculateDAP` (lines 252-256): maximum entry over
rows `i = 1 .. 255` and all columns `j`. -/
def dapMaxDiff (sbox : List Nat) : Nat :=
  maxTo 255 (fun i => maxTo 256 (fun j => ddtEntry sbox (i + 1) j))

/-- `calculateDifferentialUniformity()` (lines 282-285). -/
def differentialUniformity (sbox : List Nat) : Nat := dapMaxDiff sbox

/-- `calculateDAP().maxDAP` (line 259): `maxDiff / 256`. -/
def dapValue (sbox : List Nat) : Rat := (dapMaxDiff sbox : Rat) / 256

/-- One pass `i` of the Möbius-transform loop of `computeANF`
(lines 319-325).  The in-place update only writes cells whose bit `i` is
set, reading cells whose bit `i` is clear, so it equals this functional
update. -/
def mobiusRound (i : Nat) (f : Nat → Nat) : Nat → Nat :=
  fun m => if m.testBit i then f m ^^^ f (m ^^^ (1 <<< i)) else f m

/-- The first `rounds` passes of `computeANF`'s outer loop. -/
def mobiusSteps : Nat → (Nat → Nat) → (Nat → Nat)
  | 0, f => f
  | i+1, f => mobiusRound i (mobiusSteps i f)

/-- `computeANF(truthTable)` (lines 316-328): all 8 passes. -/
def computeANF (f : Nat → Nat) : Nat → Nat := mobiusSteps 8 f

/-- `calculateBooleanFunctionDegree(truthTable)` (lines 301-313): maximum
Hamming weight of a term index with ANF coefficient 1 (indices with
coefficient ≠ 1 contribute nothing to the running maximum). -/
def booleanFunctionDegree (f : Nat → Nat) : Nat :=
  maxTo 256 (fun term => if computeANF f term == 1 then hammingWeight term else 0)

/-- `calculateAlgebraicDegree()` (lines 288-298). -/
def calculateAlgebraicDegree (sbox : List Nat) : Nat :=
  maxTo 8 (fun bit => booleanFunctionDegree (getBooleanFunction sbox bit))

/-- The inner mask scan of `calculateCorrelationImmunity` (lines 395-400):
is there a mask of the given Hamming weight with a zero Walsh coefficient? -/
def ciHasZero (f : Nat → Nat) (weight : Nat) : Bool :=
  anyTo 256 (fun mask => hammingWeight mask == weight && walshAt f mask == 0)

/-- The `weight = 1 .. 8` loop of `calculateCorrelationImmunity`
(lines 391-407): `ci := weight` while a zero coefficient of that weight
exists, stopping at the first weight without one. -/
def ciGo (f : Nat → Nat) : Nat → Nat → Nat → Nat
  | 0, _, ci => ci
  | fuel+1, weight, ci =>
    if ciHasZero f weight then ciGo f fuel (weight + 1) weight else ci

/-- Per-bit correlation immunity as the source computes it. -/
def ciBit (f : Nat → Nat) : Nat := ciGo f 8 1 0

/-- `calculateCorrelationImmunity()` (lines 383-413): maximum over bits. -/
def calculateCorrelationImmunity (sbox : List Nat) : Nat :=
  maxTo 8 (fun bit => ciBit (getBooleanFunction sbox bit))

/-- `isBalanced()` (lines 416-422): every value in `0..255` occurs exactly
once in the array. -/
def isBalanced (sbox : List Nat) : Bool :=
  (List.range 256).all (fun v => sbox.count v == 1)

/-- `isBijection()` (lines 425-428): the set of values has size 256. -/
def isBijection (sbox : List Nat) : Bool := sbox.dedup.length == 256

/-! ### Transparency order (analyzer.js lines 331-380)

The source reports `Math.sqrt(chiSquared)` and maximises over `(i, j, mask)`;
since `sqrt` is monotone, the reported value is `sqrt` of the maximum
chi-squared statistic.  The chi-squared statistic itself is rational and is
embedded exactly; the final square root (an irrational real) is left
symbolic by working with the squared value throughout. -/

/-- One cell of the 4×2 contingency table of
`computeTransparencyOrderForMask` (lines 350-362). -/
def toCell (sbox : List Nat) (inputBit1 inputBit2 outputMask idx mo : Nat) : Nat :=
  countTo 256 (fun x =>
    ((((x >>> inputBit1) &&& 1) <<< 1 ||| ((x >>> inputBit2) &&& 1)) == idx)
      && ((hammingWeight (sboxLk sbox x &&& outputMask) &&& 1) == mo))

/-- The chi-squared statistic of `computeTransparencyOrderForMask`
(lines 365-375), with expected frequency `256/8 = 32` per cell. -/
def toChiSq (sbox : List Nat) (i j outputMask : Nat) : Rat :=
  qsumTo 4 (fun idx => qsumTo 2 (fun mo =>
    ((toCell sbox i j outputMask idx mo : Rat) - 32) ^ 2 / 32))

/-- `calculateTransparencyOrder()` (lines 331-346) squared: the maximum
chi-squared over input-bit pairs `i < j` and non-zero output masks.  The
source's return value is the square root of this rational. -/
def transparencyOrderSq (sbox : List Nat) : Rat :=
  ((List.range 8).flatMap (fun i => (List.range 8).map (fun j => (i, j)))).foldl
    (fun acc p => if p.1 < p.2 then
        (List.range 255).foldl
          (fun acc2 m => max acc2 (toChiSq sbox p.1 p.2 (m + 1))) acc
      else acc) 0

/-! ### Security summary (analyzer.js `generateSummary`, lines 511-554) -/

/-- The qualitative security level. -/
inductive SecurityLevel where
  | high | medium | low | unknown
deriving DecidableEq, Repr

/-- Tags for the strength/weakness strings pushed by `generateSummary`;
each constructor stands for one of the eight template strings (the numeric
interpolations carry no extra information). -/
inductive SummaryItem where
  | highNonlinearity
  | lowNonlinearity
  | goodDifferentialUniformity
  | highDifferentialUniformity
  | goodLinearResistance
  | vulnerableToLinearCryptanalysis
  | satisfiesSAC
  | poorAvalancheProperties
deriving DecidableEq, Repr

structure SecuritySummary where
  securityLevel : SecurityLevel
  strengths : List SummaryItem
  weaknesses : List SummaryItem
deriving DecidableEq, Repr

/-- `generateSummary(results)` (lines 511-554), as a function of the four
metric values it reads. -/
def generateSummary (nl du maxBias : Nat) (sac : Rat) : SecuritySummary :=
  let s1 : List SummaryItem := if 100 ≤ nl then [.highNonlinearity] else []
  let w1 : List SummaryItem := if 100 ≤ nl then [] else [.lowNonlinearity]
  let s2 : List SummaryItem := if du ≤ 4 then [.goodDifferentialUniformity] else []
  let w2 : List SummaryItem := if du ≤ 4 then [] else [.highDifferentialUniformity]
  let s3 : List SummaryItem := if maxBias ≤ 32 then [.goodLinearResistance] else []
  let w3 : List SummaryItem := if maxBias ≤ 32 then [] else [.vulnerableToLinearCryptanalysis]
  let s4 : List SummaryItem := if sac ≤ (1 : Rat) / 10 then [.satisfiesSAC] else []
  let w4 : List SummaryItem := if sac ≤ (1 : Rat) / 10 then [] else [.poorAvalancheProperties]
  let weaknesses := w1 ++ w2 ++ w3 ++ w4
  { securityLevel :=
      if weaknesses.length = 0 then .high
      else if weaknesses.length ≤ 2 then .medium
      else .low
    strengths := s1 ++ s2 ++ s3 ++ s4
    weaknesses := weaknesses }

/-! ### The full analysis (analyzer.js `runFullAnalysis`, lines 431-492) -/

/-- The metric fields assembled by `runFullAnalysis` (the fields of the
`results` object that the dashboard and `generateSummary` read). -/
structure AnalysisReport where
  isBalanced : Bool
  isBijection : Bool
  nonlinearity : Nat
  sacScore : Rat
  differentialUniformity : Nat
  algebraicDegree : Nat
  lapMaxBias : Nat
  lapValue : Rat
  dapMaxDiff : Nat
  dapValue : Rat
  correlationImmunity : Nat
  transparencyOrderSq : Rat
deriving DecidableEq, Repr

/-- `runFullAnalysis()`: every metric evaluator, applied to the stored
S-box (total functions in this embedding; the JavaScript loop bodies
likewise never throw on a 256-element array of bytes). -/
def runFullAnalysis (sbox : List Nat) : AnalysisReport :=
  { isBalanced := isBalanced sbox
    isBijection := isBijection sbox
    nonlinearity := calculateNonlinearity sbox
    sacScore := sacScore sbox
    differentialUniformity := differentialUniformity sbox
    algebraicDegree := calculateAlgebraicDegree sbox
    lapMaxBias := lapMaxBias sbox
    lapValue := lapValue sbox
    dapMaxDiff := dapMaxDiff sbox
    dapValue := dapValue sbox
    correlationImmunity := calculateCorrelationImmunity sbox
    transparencyOrderSq := transparencyOrderSq sbox }

/-! ### Input validation (script.js `validateSBoxValues`, lines 211-253) -/

/-- The errors `validateSBoxValues` can throw.  The spec's error kinds map
onto the constructors as: `InvalidSBoxLength` ↔ `invalidLength`,
`InvalidSBoxValue` ↔ `invalidValue`, `NotAPermutation` ↔ `duplicateValue`
or `missingValues`. -/
inductive ValidationError where
  | invalidLength (found : Nat)
  | invalidValue (index value : Nat)
  | duplicateValue (index value : Nat)
  | missingValues (missing : List Nat)
deriving DecidableEq, Repr

/-- The spec's `NotAPermutation` error kind. -/
def ValidationError.isNotAPermutation : ValidationError → Bool
  | .duplicateValue _ _ => true
  | .missingValues _ => true
  | _ => false

/-- The spec's `InvalidSBoxLength` error kind. -/
def ValidationError.isInvalidLength : ValidationError → Bool
  | .invalidLength _ => true
  | _ => false

/-- The range-and-uniqueness scan of `validateSBoxValues` (lines 222-237):
`seen` is the set of previously accepted values, `idx` the current index. -/
def validateScan (seen : List Nat) (idx : Nat) : List Nat → Option ValidationError
  | [] => none
  | v :: rest =>
    if 255 < v then some (.invalidValue idx v)
    else if seen.contains v then some (.duplicateValue idx v)
    else validateScan (v :: seen) (idx + 1) rest

/-- `validateSBoxValues(values)` (lines 211-253): length check, then the
range/duplicate scan, then the missing-value check; the first failing check
throws. -/
def validateSBoxValues (values : List Nat) : Except ValidationError Unit :=
  if h : values.length = 256 then
    match validateScan [] 0 values with
    | some e => .error e
    | none =>
      let missing := (List.range 256).filter (fun i => ¬ values.contains i)
      if missing.length = 0 then .ok () else .error (.missingValues missing)
  else .error (.invalidLength values.length)

/-- Modelled from the spec: the façade operation
`analyze(sbox) → Report` of §6 ("All errors surface synchronously at the
façade; no partial Report is ever delivered").  The repository has no
single function for it — the upload path runs `validateSBoxValues` and the
dashboard then runs `runFullAnalysis` — so the façade is their composition:
validation first, a report only when validation passes. -/
def analyze (values : List Nat) : Except ValidationError AnalysisReport :=
  match validateSBoxValues values with
  | .error e => .error e
  | .ok _ => .ok (runFullAnalysis values)

/-! ### Packed bit-vector toolbox

The quadratic-size counting loops of the analyzer are evaluated, inside
proofs, on 0/1 data packed into natural numbers (bit `x` of a pattern
holds the value at index `x`).  This section builds the generic theory:
positional digit lists (`valL`), aligned extraction, and a halving
popcount network on packed vectors. -/

/-- Number of set bits among the low `k` bits. -/
def bitCard (k n : Nat) : Nat :=
  ((Finset.range k).filter (fun i => n.testBit i)).card

theorem pcGo_eq_bitCard (k n : Nat) : pcGo k n = bitCard k n :=
  pcGo_eq_card k n

theorem hammingWeight_eq_bitCard (n : Nat) (h : n < 256) :
    hammingWeight n = bitCard 8 n := pcGo_eq_card 8 n

/-- Bit `i` of an aligned composition `u + 2^t * U` with `u < 2^t`. -/
theorem testBit_split {t : Nat} (u U i : Nat) (hu : u < 2 ^ t) :
    (u + 2 ^ t * U).testBit i =
      if i < t then u.testBit i else U.testBit (i - t) := by
  by_cases h : i < t
  · rw [if_pos h, Nat.testBit_to_div_mod, Nat.testBit_to_div_mod]
    have h1 : (u + 2 ^ t * U) / 2 ^ i = u / 2 ^ i + 2 ^ (t - i) * U := by
      have ht : 2 ^ t * U = 2 ^ (t - i) * U * 2 ^ i := by
        rw [Nat.mul_comm (2 ^ (t - i)) U, Nat.mul_assoc, ← Nat.pow_add]
        rw [Nat.mul_comm (2 ^ t) U]
        congr 2
        omega
      rw [ht, Nat.add_mul_div_right u _ (Nat.two_pow_pos i)]
    rw [h1]
    have h2 : 2 ^ (t - i) * U = 2 * (2 ^ (t - i - 1) * U) := by
      rw [← Nat.mul_assoc]
      congr 1
      rw [← Nat.pow_succ']
      congr 1
      omega
    rw [h2, Nat.add_mul_mod_self_left]
  · rw [if_neg h, Nat.testBit_to_div_mod, Nat.testBit_to_div_mod]
    have h1 : (u + 2 ^ t * U) / 2 ^ i = U / 2 ^ (i - t) := by
      have hsplit : 2 ^ i = 2 ^ t * 2 ^ (i - t) := by
        rw [← Nat.pow_add]
        congr 1
        omega
      rw [hsplit, ← Nat.div_div_eq_div_mul]
      congr 1
      rw [Nat.mul_comm (2 ^ t) U, Nat.add_mul_div_right u U (Nat.two_pow_pos t),
        Nat.div_eq_of_lt hu, Nat.zero_add]
    rw [h1]

/-- Aligned AND: `&&&` acts independently on the two parts. -/
theorem land_split {t : Nat} (u1 u2 U V : Nat) (h1 : u1 < 2 ^ t) (h2 : u2 < 2 ^ t) :
    (u1 + 2 ^ t * U) &&& (u2 + 2 ^ t * V) = (u1 &&& u2) + 2 ^ t * (U &&& V) := by
  have hlt : u1 &&& u2 < 2 ^ t :=
    Nat.lt_of_le_of_lt (Nat.and_le_left) h1
  apply Nat.eq_of_testBit_eq
  intro i
  rw [Nat.testBit_and, testBit_split u1 U i h1, testBit_split u2 V i h2,
    testBit_split (u1 &&& u2) (U &&& V) i hlt]
  by_cases h : i < t
  · simp [h, Nat.testBit_and]
  · simp [h, Nat.testBit_and]

/-- Aligned XOR. -/
theorem lxor_split {t : Nat} (u1 u2 U V : Nat) (h1 : u1 < 2 ^ t) (h2 : u2 < 2 ^ t) :
    (u1 + 2 ^ t * U) ^^^ (u2 + 2 ^ t * V) = (u1 ^^^ u2) + 2 ^ t * (U ^^^ V) := by
  have hlt : u1 ^^^ u2 < 2 ^ t := Nat.xor_lt_two_pow h1 h2
  apply Nat.eq_of_testBit_eq
  intro i
  rw [Nat.testBit_xor, testBit_split u1 U i h1, testBit_split u2 V i h2,
    testBit_split (u1 ^^^ u2) (U ^^^ V) i hlt]
  by_cases h : i < t
  · simp [h, Nat.testBit_xor]
  · simp [h, Nat.testBit_xor]

/-- Aligned right shift drops the low part. -/
theorem shiftRight_split {t : Nat} (u U : Nat) (hu : u < 2 ^ t) :
    (u + 2 ^ t * U) >>> t = U := by
  rw [Nat.shiftRight_eq_div_pow, Nat.mul_comm,
    Nat.add_mul_div_right _ _ (Nat.two_pow_pos t), Nat.div_eq_of_lt hu,
    Nat.zero_add]

/-- Aligned mask keeps the low part. -/
theorem mask_split {t : Nat} (u U : Nat) (hu : u < 2 ^ t) :
    (u + 2 ^ t * U) &&& (2 ^ t - 1) = u := by
  rw [Nat.and_pow_two_sub_one_eq_mod, Nat.mul_comm, Nat.add_mul_mod_self_right,
    Nat.mod_eq_of_lt hu]

/-! #### Positional digit lists -/

/-- `valL s l`: the number whose base-`2^s` digits are `l` (low first). -/
def valL (s : Nat) : List Nat → Nat
  | [] => 0
  | d :: rest => d + 2 ^ s * valL s rest

theorem valL_lt (s : Nat) : ∀ l : List Nat, (∀ d ∈ l, d < 2 ^ s) →
    valL s l < 2 ^ (s * l.length) := by
  intro l
  induction l with
  | nil => intro _; simp [valL]
  | cons d rest ih =>
    intro h
    have hd : d < 2 ^ s := h d (List.mem_cons_self d rest)
    have hr := ih (fun x hx => h x (List.mem_cons_of_mem d hx))
    rw [valL, List.length_cons,
      show s * (rest.length + 1) = s + s * rest.length by ring, Nat.pow_add]
    calc d + 2 ^ s * valL s rest
        < 2 ^ s * (1 + valL s rest) := by
          rw [Nat.mul_add, Nat.mul_one]
          omega
      _ ≤ 2 ^ s * 2 ^ (s * rest.length) := Nat.mul_le_mul_left _ (by omega)

theorem valL_shiftRight (s : Nat) (d : Nat) (rest : List Nat) (hd : d < 2 ^ s) :
    valL s (d :: rest) >>> s = valL s rest := by
  rw [valL]
  exact shiftRight_split d (valL s rest) hd

/-- Drop `j` digits by shifting. -/
theorem valL_drop (s : Nat) : ∀ (j : Nat) (l : List Nat), (∀ d ∈ l, d < 2 ^ s) →
    valL s l >>> (s * j) = valL s (l.drop j) := by
  intro j
  induction j with
  | zero => intro l _; simp
  | succ j ih =>
    intro l h
    cases l with
    | nil => simp [valL]
    | cons d rest =>
      have hd : d < 2 ^ s := h d (List.mem_cons_self d rest)
      have : s * (j + 1) = s + s * j := by ring
      rw [this, Nat.shiftRight_add, valL_shiftRight s d rest hd,
        ih rest (fun x hx => h x (List.mem_cons_of_mem d hx))]
      simp

/-- Keep `c` digits by masking. -/
theorem valL_take (s : Nat) : ∀ (c : Nat) (l : List Nat), (∀ d ∈ l, d < 2 ^ s) →
    valL s l &&& (2 ^ (s * c) - 1) = valL s (l.take c) := by
  intro c
  induction c with
  | zero => intro l _; simp [valL]
  | succ c ih =>
    intro l h
    cases l with
    | nil => simp [valL]
    | cons d rest =>
      have hd : d < 2 ^ s := h d (List.mem_cons_self d rest)
      have hr := ih rest (fun x hx => h x (List.mem_cons_of_mem d hx))
      have hsplit : 2 ^ (s * (c + 1)) = 2 ^ s * 2 ^ (s * c) := by
        rw [← Nat.pow_add]
        congr 1
        ring
      rw [List.take_succ_cons, valL, valL, Nat.and_pow_two_sub_one_eq_mod, hsplit]
      set R := valL s rest with hR
      have hdecomp : d + 2 ^ s * R
          = d + 2 ^ s * (R % 2 ^ (s * c)) + (2 ^ s * 2 ^ (s * c)) * (R / 2 ^ (s * c)) := by
        conv_lhs => rw [← Nat.mod_add_div R (2 ^ (s * c))]
        ring
      have hlt2 : d + 2 ^ s * (R % 2 ^ (s * c)) < 2 ^ s * 2 ^ (s * c) := by
        have h1 : R % 2 ^ (s * c) ≤ 2 ^ (s * c) - 1 :=
          Nat.le_sub_one_of_lt (Nat.mod_lt _ (Nat.two_pow_pos _))
        have h2 : 2 ^ s * (R % 2 ^ (s * c)) ≤ 2 ^ s * (2 ^ (s * c) - 1) :=
          Nat.mul_le_mul_left _ h1
        have h4 := Nat.two_pow_pos (s * c)
        have h5 : 2 ^ s ≤ 2 ^ s * 2 ^ (s * c) :=
          Nat.le_mul_of_pos_right _ (Nat.two_pow_pos (s * c))
        rw [Nat.mul_sub_one] at h2
        omega
      rw [hdecomp, Nat.add_mul_mod_self_left, Nat.mod_eq_of_lt hlt2]
      have hmask : R % 2 ^ (s * c) = R &&& (2 ^ (s * c) - 1) :=
        (Nat.and_pow_two_sub_one_eq_mod R (s * c)).symm
      rw [hmask, hr]

/-! #### Halving popcount network

`swarStages` sums adjacent bit fields in eight doubling passes, turning a
65536-bit vector (256 blocks of 256 bits) into 256 fields that each hold
the popcount of one block.  Everything is proved through the digit-list
view `valL`. -/

/-- Sum adjacent pairs of digits. -/
def pairSums : List Nat → List Nat
  | x :: y :: rest => (x + y) :: pairSums rest
  | l => l

/-- Every second digit, starting with the first. -/
def evens : List Nat → List Nat
  | x :: _ :: rest => x :: evens rest
  | l => l

/-- Every second digit, starting with the second. -/
def odds : List Nat → List Nat
  | _ :: y :: rest => y :: odds rest
  | _ => []

/-- The repeating field mask: `n` fields of width `2s`, each holding the
low-`s`-bits-set pattern. -/
def maskRep (s n : Nat) : Nat := valL (2 * s) (List.replicate n (2 ^ s - 1))

/-- One halving pass at field width `s`. -/
def stageOp (s m v : Nat) : Nat := (v &&& m) + ((v >>> s) &&& m)

theorem pair_lt {s x y : Nat} (hx : x < 2 ^ s) (hy : y < 2 ^ s) :
    x + 2 ^ s * y < 2 ^ (2 * s) := by
  calc x + 2 ^ s * y < 2 ^ s + 2 ^ s * y := by omega
    _ = 2 ^ s * (y + 1) := by ring
    _ ≤ 2 ^ s * 2 ^ s := Nat.mul_le_mul_left _ hy
    _ = 2 ^ (2 * s) := by
        rw [← Nat.pow_add]
        congr 1
        ring

theorem maskRep_succ (s n : Nat) :
    maskRep s (n + 1) = (2 ^ s - 1) + 2 ^ (2 * s) * maskRep s n := by
  rw [maskRep, List.replicate_succ, valL, maskRep]

theorem valL_two_step (s x y : Nat) (rest : List Nat) :
    valL s (x :: y :: rest) = (x + 2 ^ s * y) + 2 ^ (2 * s) * valL s rest := by
  rw [valL, valL, show 2 * s = s + s by ring, Nat.pow_add]
  ring

theorem sub_one_lt_two_pow (s : Nat) : 2 ^ s - 1 < 2 ^ (2 * s) := by
  have h1 : (2 : Nat) ^ s ≤ 2 ^ (2 * s) := Nat.pow_le_pow_right (by norm_num) (by omega)
  have h2 := Nat.two_pow_pos s
  omega

theorem evens_and (s : Nat) : ∀ (n : Nat) (l : List Nat),
    l.length = 2 * n → (∀ d ∈ l, d < 2 ^ s) →
    valL s l &&& maskRep s n = valL (2 * s) (evens l) := by
  intro n
  induction n with
  | zero =>
    intro l hlen _
    have : l = [] := List.eq_nil_of_length_eq_zero (by omega)
    subst this
    simp [valL, evens, maskRep, valL]
  | succ n ih =>
    intro l hlen hd
    match l, hlen with
    | x :: y :: rest, hlen =>
      have hx : x < 2 ^ s := hd x (by simp)
      have hy : y < 2 ^ s := hd y (by simp)
      have hrest : ∀ d ∈ rest, d < 2 ^ s := fun d hdm => hd d (by simp [hdm])
      have hlen2 : rest.length = 2 * n := by
        simp only [List.length_cons] at hlen
        omega
      rw [valL_two_step, maskRep_succ,
        land_split _ _ _ _ (pair_lt hx hy) (sub_one_lt_two_pow s),
        mask_split x y hx, ih rest hlen2 hrest]
      show x + 2 ^ (2 * s) * valL (2 * s) (evens rest) = valL (2 * s) (evens (x :: y :: rest))
      rw [show evens (x :: y :: rest) = x :: evens rest from rfl, valL]

theorem odds_and (s : Nat) : ∀ (n : Nat) (l : List Nat),
    l.length = 2 * n → (∀ d ∈ l, d < 2 ^ s) →
    (valL s l >>> s) &&& maskRep s n = valL (2 * s) (odds l) := by
  intro n
  induction n with
  | zero =>
    intro l hlen _
    have : l = [] := List.eq_nil_of_length_eq_zero (by omega)
    subst this
    simp [valL, odds, maskRep]
  | succ n ih =>
    intro l hlen hd
    match l, hlen with
    | x :: y :: rest, hlen =>
      have hx : x < 2 ^ s := hd x (by simp)
      have hy : y < 2 ^ s := hd y (by simp)
      have hrest : ∀ d ∈ rest, d < 2 ^ s := fun d hdm => hd d (by simp [hdm])
      have hlen2 : rest.length = 2 * n := by
        simp only [List.length_cons] at hlen
        omega
      have hshift : valL s (x :: y :: rest) >>> s = valL s (y :: rest) :=
        valL_shiftRight s x (y :: rest) hx
      rw [hshift]
      show valL s (y :: rest) &&& maskRep s (n + 1) = valL (2 * s) (odds (x :: y :: rest))
      rw [show odds (x :: y :: rest) = y :: odds rest from rfl]
      cases rest with
      | nil =>
        have hn : n = 0 := by
          simp only [List.length_nil] at hlen2
          omega
        subst hn
        have h1 : valL s [y] = y := by simp [valL]
        have h2 : valL (2 * s) (y :: odds []) = y := by simp [valL, odds]
        have h3 : maskRep s 1 = 2 ^ s - 1 := by
          simp [maskRep, List.replicate, valL]
        rw [h1, h2, h3, Nat.and_pow_two_sub_one_of_lt_two_pow hy]
      | cons z rest2 =>
        have hz : z < 2 ^ s := hrest z (by simp)
        have hrest2 : ∀ d ∈ rest2, d < 2 ^ s := fun d hdm => hrest d (by simp [hdm])
        rw [valL_two_step, maskRep_succ,
          land_split _ _ _ _ (pair_lt hy hz) (sub_one_lt_two_pow s),
          mask_split y z hy]
        have hlen3 : (z :: rest2).length = 2 * n := hlen2
        have hih := ih (z :: rest2) hlen3 hrest
        have hshift2 : valL s (z :: rest2) >>> s = valL s rest2 :=
          valL_shiftRight s z rest2 hz
        rw [hshift2] at hih
        rw [hih, valL]

theorem valL_zipAdd (s : Nat) : ∀ (l1 l2 : List Nat), l1.length = l2.length →
    valL s l1 + valL s l2 = valL s (List.zipWith (· + ·) l1 l2) := by
  intro l1
  induction l1 with
  | nil =>
    intro l2 hlen
    have : l2 = [] := List.eq_nil_of_length_eq_zero (by simp at hlen; omega)
    subst this
    rfl
  | cons x r1 ih =>
    intro l2 hlen
    cases l2 with
    | nil => simp at hlen
    | cons y r2 =>
      have hlen2 : r1.length = r2.length := by
        simp only [List.length_cons] at hlen
        omega
      rw [List.zipWith_cons_cons, valL, valL, valL, ← ih r2 hlen2]
      ring

theorem pairSums_eq_zip : ∀ (n : Nat) (l : List Nat), l.length = 2 * n →
    pairSums l = List.zipWith (· + ·) (evens l) (odds l) := by
  intro n
  induction n with
  | zero =>
    intro l hlen
    have : l = [] := List.eq_nil_of_length_eq_zero (by omega)
    subst this
    rfl
  | succ n ih =>
    intro l hlen
    match l, hlen with
    | x :: y :: rest, hlen =>
      have hlen2 : rest.length = 2 * n := by
        simp only [List.length_cons] at hlen
        omega
      show (x + y) :: pairSums rest = List.zipWith (· + ·) (x :: evens rest) (y :: odds rest)
      rw [List.zipWith_cons_cons, ih rest hlen2]

theorem evens_length : ∀ (n : Nat) (l : List Nat), l.length = 2 * n →
    (evens l).length = n := by
  intro n
  induction n with
  | zero =>
    intro l hlen
    have : l = [] := List.eq_nil_of_length_eq_zero (by omega)
    subst this
    rfl
  | succ n ih =>
    intro l hlen
    match l, hlen with
    | x :: y :: rest, hlen =>
      have hlen2 : rest.length = 2 * n := by
        simp only [List.length_cons] at hlen
        omega
      show (x :: evens rest).length = n + 1
      rw [List.length_cons, ih rest hlen2]

theorem odds_length : ∀ (n : Nat) (l : List Nat), l.length = 2 * n →
    (odds l).length = n := by
  intro n
  induction n with
  | zero =>
    intro l hlen
    have : l = [] := List.eq_nil_of_length_eq_zero (by omega)
    subst this
    rfl
  | succ n ih =>
    intro l hlen
    match l, hlen with
    | x :: y :: rest, hlen =>
      have hlen2 : rest.length = 2 * n := by
        simp only [List.length_cons] at hlen
        omega
      show (y :: odds rest).length = n + 1
      rw [List.length_cons, ih rest hlen2]

/-- One halving pass, on the digit view. -/
theorem stage_eq (s n : Nat) (l : List Nat) (hlen : l.length = 2 * n)
    (hd : ∀ d ∈ l, d < 2 ^ s) :
    stageOp s (maskRep s n) (valL s l) = valL (2 * s) (pairSums l) := by
  rw [stageOp, evens_and s n l hlen hd, odds_and s n l hlen hd,
    valL_zipAdd (2 * s) (evens l) (odds l)
      (by rw [evens_length n l hlen, odds_length n l hlen]),
    pairSums_eq_zip n l hlen]

theorem pairSums_length : ∀ (n : Nat) (l : List Nat), l.length = 2 * n →
    (pairSums l).length = n := by
  intro n
  induction n with
  | zero =>
    intro l hlen
    have : l = [] := List.eq_nil_of_length_eq_zero (by omega)
    subst this
    rfl
  | succ n ih =>
    intro n2 hlen
    match n2, hlen with
    | x :: y :: rest, hlen =>
      have hlen2 : rest.length = 2 * n := by
        simp only [List.length_cons] at hlen
        omega
      show ((x + y) :: pairSums rest).length = n + 1
      rw [List.length_cons, ih rest hlen2]

theorem pairSums_bound (s : Nat) (hs : 1 ≤ s) : ∀ l : List Nat,
    (∀ d ∈ l, d < 2 ^ s) → ∀ d ∈ pairSums l, d < 2 ^ (2 * s) := by
  intro l
  induction l using pairSums.induct with
  | case1 x y rest ih =>
    intro hd d hmem
    rcases List.mem_cons.mp hmem with rfl | hmem2
    · have hx : x < 2 ^ s := hd x (by simp)
      have hy : y < 2 ^ s := hd y (by simp)
      have h1 : (2 : Nat) ^ (s + 1) ≤ 2 ^ (2 * s) :=
        Nat.pow_le_pow_right (by norm_num) (by omega)
      have h2 : x + y < 2 ^ (s + 1) := by
        rw [Nat.pow_succ]
        omega
      omega
    · exact ih (fun e he => hd e (by simp [he])) d hmem2
  | case2 l hl =>
    intro hd d hmem
    have h1 : (2 : Nat) ^ s ≤ 2 ^ (2 * s) :=
      Nat.pow_le_pow_right (by norm_num) (by omega)
    have := hd d (by
      cases l with
      | nil => cases hmem
      | cons a rest =>
        cases rest with
        | nil => exact hmem
        | cons b r2 => exact absurd rfl (hl a b r2))
    omega

/-- `getD` through `pairSums`. -/
theorem pairSums_getD : ∀ (l : List Nat) (k : Nat),
    (pairSums l).getD k 0 = l.getD (2 * k) 0 + l.getD (2 * k + 1) 0 := by
  intro l
  induction l using pairSums.induct with
  | case1 x y rest ih =>
    intro k
    cases k with
    | zero => rfl
    | succ k =>
      show (pairSums rest).getD k 0 = _
      rw [ih k]
      congr 1 <;> (congr 1 <;> omega) 
  | case2 l hl =>
    intro k
    cases l with
    | nil => simp [pairSums]
    | cons a rest =>
      cases rest with
      | nil =>
        cases k with
        | zero => simp [pairSums]
        | succ k =>
          show ([a] : List Nat).getD (k + 1) 0
              = [a].getD (2 * (k + 1)) 0 + [a].getD (2 * (k + 1) + 1) 0
          rw [List.getD_eq_default, List.getD_eq_default, List.getD_eq_default]
          all_goals (simp only [List.length_singleton]; omega)
      | cons b r2 => exact absurd rfl (hl a b r2)

/-- Iterated pair-summing: `iterPS j l` sums disjoint chunks of `2^j`. -/
def iterPS : Nat → List Nat → List Nat
  | 0, l => l
  | j+1, l => pairSums (iterPS j l)

theorem sumTo_add (a b : Nat) (f : Nat → Nat) :
    sumTo (a + b) f = sumTo a f + sumTo b (fun i => f (a + i)) := by
  induction b with
  | zero => rfl
  | succ b ih => rw [show a + (b+1) = (a+b) + 1 by ring, sumTo, ih, sumTo, Nat.add_assoc]

theorem iterPS_getD : ∀ (j : Nat) (l : List Nat) (k : Nat),
    (iterPS j l).getD k 0 = sumTo (2 ^ j) (fun i => l.getD (2 ^ j * k + i) 0) := by
  intro j
  induction j with
  | zero =>
    intro l k
    show l.getD k 0 = sumTo 1 (fun i => l.getD (1 * k + i) 0)
    rw [show sumTo 1 (fun i => l.getD (1 * k + i) 0)
      = l.getD (1 * k + 0) 0 from Nat.zero_add _]
    congr 1
    omega
  | succ j ih =>
    intro l k
    show (pairSums (iterPS j l)).getD k 0 = _
    rw [pairSums_getD, ih, ih,
      show (2:Nat) ^ (j+1) = 2 ^ j + 2 ^ j by rw [Nat.pow_succ]; ring,
      sumTo_add]
    congr 1
    · exact sumTo_congr fun i _ => by congr 1; ring
    · exact sumTo_congr fun i _ => by congr 1; ring

theorem iterPS_length : ∀ (j : Nat) (l : List Nat) (n : Nat),
    l.length = 2 ^ j * n → (iterPS j l).length = n := by
  intro j
  induction j with
  | zero =>
    intro l n h
    simpa using h
  | succ j ih =>
    intro l n h
    show (pairSums (iterPS j l)).length = n
    have h1 : (iterPS j l).length = 2 * n := by
      refine ih l (2 * n) ?_
      rw [h, Nat.pow_succ]
      ring
    exact pairSums_length n _ h1

theorem iterPS_bound : ∀ (j : Nat) (l : List Nat),
    (∀ d ∈ l, d < 2) → ∀ d ∈ iterPS j l, d < 2 ^ (2 ^ j) := by
  intro j
  induction j with
  | zero =>
    intro l h d hd
    simpa using h d hd
  | succ j ih =>
    intro l h d hd
    have h1 := pairSums_bound (2 ^ j) Nat.one_le_two_pow (iterPS j l) (ih l h)
    have := h1 d hd
    rwa [show 2 * 2 ^ j = 2 ^ (j + 1) by rw [Nat.pow_succ]; ring] at this

/-- The repeating mask, evaluably: `(2^65536 - 1) / (2^s + 1)`. -/
def swarMask (s : Nat) : Nat := (2 ^ 65536 - 1) / (2 ^ s + 1)

/-- The first `j` halving passes (widths `1, 2, 4, …, 2^(j-1)`). -/
def swarChain : Nat → Nat → Nat
  | 0, v => v
  | j+1, v => stageOp (2 ^ j) (swarMask (2 ^ j)) (swarChain j v)

/-- All eight halving passes: each 256-bit block of the 65536-bit input
ends as one 256-bit field holding the block's popcount. -/
def swarStages (v : Nat) : Nat := swarChain 8 v

theorem geom_repl (w c q : Nat) (h : c * q + 1 = 2 ^ w) :
    ∀ n : Nat, q * valL w (List.replicate n c) + 1 = 2 ^ (w * n) := by
  intro n
  induction n with
  | zero => simp [valL]
  | succ n ih =>
    rw [List.replicate_succ, valL, show w * (n+1) = w + w * n by ring, Nat.pow_add]
    calc q * (c + 2 ^ w * valL w (List.replicate n c)) + 1
        = (c * q + 1) + 2 ^ w * (q * valL w (List.replicate n c)) := by ring
      _ = 2 ^ w + 2 ^ w * (q * valL w (List.replicate n c)) := by rw [h]
      _ = 2 ^ w * (q * valL w (List.replicate n c) + 1) := by ring
      _ = 2 ^ w * 2 ^ (w * n) := by rw [ih]

theorem pred_succ_mul (s : Nat) : (2 ^ s - 1) * (2 ^ s + 1) + 1 = 2 ^ (2 * s) := by
  obtain ⟨a, ha⟩ : ∃ a, 2 ^ s = a + 1 := ⟨2 ^ s - 1, by
    have := Nat.two_pow_pos s
    omega⟩
  rw [show (2:Nat) ^ (2 * s) = 2 ^ s * 2 ^ s by rw [Nat.two_mul, Nat.pow_add], ha]
  simp only [Nat.add_sub_cancel]
  ring

theorem swarMask_eq (s n : Nat) (h : 2 * s * n = 65536) :
    swarMask s = maskRep s n := by
  have hg := geom_repl (2 * s) (2 ^ s - 1) (2 ^ s + 1) (pred_succ_mul s) n
  rw [h] at hg
  have hq : (2 ^ s + 1) * maskRep s n = 2 ^ 65536 - 1 := by
    rw [maskRep]
    omega
  rw [swarMask, ← hq, Nat.mul_comm,
    Nat.mul_div_cancel _ (by positivity)]

/-- `getD` from a `valL` digit list, by shift and mask. -/
theorem valL_getD (w : Nat) (l : List Nat) (hd : ∀ d ∈ l, d < 2 ^ w)
    (k : Nat) (hk : k < l.length) :
    (valL w l >>> (w * k)) &&& (2 ^ w - 1) = l.getD k 0 := by
  rw [valL_drop w k l hd,
    show (2:Nat) ^ w - 1 = 2 ^ (w * 1) - 1 by rw [Nat.mul_one],
    valL_take w 1 (l.drop k) (fun d hdm => hd d (List.mem_of_mem_drop hdm))]
  rw [List.drop_eq_getElem_cons (by omega), List.take_succ_cons, List.take_zero]
  have hgd : l.getD k 0 = l[k] := by
    rw [List.getD_eq_getElem?_getD, List.getElem?_eq_getElem hk]
    rfl
  rw [hgd]
  simp [valL]

theorem bitCard_succ (k n : Nat) :
    bitCard (k + 1) n = (n &&& 1) + bitCard k (n >>> 1) := by
  rw [← pcGo_eq_bitCard, ← pcGo_eq_bitCard]
  rfl

theorem bitCard_valL1 : ∀ l : List Nat, (∀ d ∈ l, d < 2) →
    bitCard l.length (valL 1 l) = l.sum := by
  intro l
  induction l with
  | nil =>
    intro _
    simp [bitCard, valL]
  | cons d rest ih =>
    intro h
    have hd : d < 2 := h d (by simp)
    have hrest := ih (fun e he => h e (by simp [he]))
    rw [List.length_cons, bitCard_succ, valL]
    have h1 : (d + 2 ^ 1 * valL 1 rest) &&& 1 = d := by
      rw [Nat.and_one_is_mod, Nat.pow_one, Nat.add_mul_mod_self_left,
        Nat.mod_eq_of_lt hd]
    have h2 : (d + 2 ^ 1 * valL 1 rest) >>> 1 = valL 1 rest :=
      shiftRight_split d (valL 1 rest) (by omega)
    rw [h1, h2, hrest, List.sum_cons]

/-- `bitCard` of a packed 256-chunk is the chunk sum. -/
theorem bitCard_chunk (l2 : List Nat) (h : ∀ d ∈ l2, d < 2)
    (hlen : l2.length = 256) : bitCard 256 (valL 1 l2) = l2.sum := by
  rw [← hlen]
  exact bitCard_valL1 l2 h

/-- Digits of a number, low first. -/
def toDigits (s : Nat) : Nat → Nat → List Nat
  | 0, _ => []
  | c+1, v => (v &&& (2 ^ s - 1)) :: toDigits s c (v >>> s)

theorem toDigits_length (s : Nat) : ∀ (c v : Nat), (toDigits s c v).length = c := by
  intro c
  induction c with
  | zero => intro v; rfl
  | succ c ih => intro v; rw [toDigits, List.length_cons, ih]

theorem toDigits_lt (s : Nat) : ∀ (c v : Nat), ∀ d ∈ toDigits s c v, d < 2 ^ s := by
  intro c
  induction c with
  | zero => intro v d hd; cases hd
  | succ c ih =>
    intro v d hd
    rcases List.mem_cons.mp hd with rfl | hd2
    · rw [Nat.and_pow_two_sub_one_eq_mod]
      exact Nat.mod_lt _ (Nat.two_pow_pos s)
    · exact ih (v >>> s) d hd2

theorem toDigits_val (s : Nat) : ∀ (c v : Nat), v < 2 ^ (s * c) →
    valL s (toDigits s c v) = v := by
  intro c
  induction c with
  | zero =>
    intro v hv
    have : v = 0 := by simpa using hv
    simp [toDigits, valL, this]
  | succ c ih =>
    intro v hv
    rw [toDigits, valL, Nat.and_pow_two_sub_one_eq_mod, Nat.shiftRight_eq_div_pow,
      ih (v / 2 ^ s) (by
        have h1 : 2 ^ (s * (c+1)) = 2 ^ s * 2 ^ (s * c) := by
          rw [← Nat.pow_add]
          congr 1
          ring
        rw [h1] at hv
        exact Nat.div_lt_of_lt_mul (by rw [Nat.mul_comm] at hv ⊢; omega)),
      Nat.mod_add_div]

theorem swarChain_val : ∀ (j : Nat), j ≤ 8 → ∀ l : List Nat,
    l.length = 65536 → (∀ d ∈ l, d < 2) →
    swarChain j (valL 1 l) = valL (2 ^ j) (iterPS j l) := by
  intro j
  induction j with
  | zero => intro _ l _ _; rfl
  | succ j ih =>
    intro hj l hlen hd
    show stageOp (2 ^ j) (swarMask (2 ^ j)) (swarChain j (valL 1 l)) = _
    rw [ih (by omega) l hlen hd]
    have hlen1 : (iterPS j l).length = 2 * 2 ^ (15 - j) := by
      refine iterPS_length j l _ ?_
      rw [hlen, ← Nat.pow_succ', ← Nat.pow_add,
        show j + (15 - j + 1) = 16 by omega]
    have hmask : swarMask (2 ^ j) = maskRep (2 ^ j) (2 ^ (15 - j)) := by
      refine swarMask_eq _ _ ?_
      rw [← Nat.pow_succ', ← Nat.pow_add,
        show j + 1 + (15 - j) = 16 by omega]
    rw [hmask, stage_eq (2 ^ j) (2 ^ (15 - j)) (iterPS j l) hlen1
      (iterPS_bound j l hd),
      show 2 * 2 ^ j = 2 ^ (j + 1) by rw [Nat.pow_succ]; ring]
    rfl

theorem sum_take_drop : ∀ (c a : Nat) (l : List Nat),
    ((l.drop a).take c).sum = sumTo c (fun i => l.getD (a + i) 0) := by
  intro c
  induction c with
  | zero => intro a l; rfl
  | succ c ih =>
    intro a l
    rw [List.take_succ, List.sum_append, ih a l, sumTo]
    congr 1
    rw [List.getElem?_drop, List.getD_eq_getElem?_getD]
    cases h : l[a + c]? with
    | none => simp
    | some x => simp

/-- Field `k` of the halving network output is the popcount of block `k`
of the input. -/
theorem swar_block_count (v k : Nat) (hv : v < 2 ^ 65536) (hk : k < 256) :
    (swarStages v >>> (256 * k)) &&& (2 ^ 256 - 1)
      = bitCard 256 ((v >>> (256 * k)) &&& (2 ^ 256 - 1)) := by
  set l := toDigits 1 65536 v with hl
  have hlen : l.length = 65536 := toDigits_length 1 65536 v
  have hd : ∀ d ∈ l, d < 2 := by
    intro d hdm
    simpa using toDigits_lt 1 65536 v d hdm
  have hval : valL 1 l = v := toDigits_val 1 65536 v (by simpa using hv)
  have hL8len : (iterPS 8 l).length = 256 :=
    iterPS_length 8 l 256 (by rw [hlen]; norm_num)
  have hL8d : ∀ d ∈ iterPS 8 l, d < 2 ^ 256 := by
    intro d hdm
    simpa using iterPS_bound 8 l hd d hdm
  have hchain : swarStages v = valL 256 (iterPS 8 l) := by
    rw [swarStages, ← hval, swarChain_val 8 (by omega) l hlen hd]
    norm_num
  have hleft : (swarStages v >>> (256 * k)) &&& (2 ^ 256 - 1)
      = sumTo 256 (fun i => l.getD (256 * k + i) 0) := by
    rw [hchain, valL_getD 256 (iterPS 8 l) hL8d k (by omega),
      iterPS_getD 8 l k]
    refine sumTo_congr fun i _ => ?_
    norm_num
  have hdrop : valL 1 l >>> (256 * k) = valL 1 (l.drop (256 * k)) := by
    have := valL_drop 1 (256 * k) l hd
    rwa [Nat.one_mul] at this
  have htake : valL 1 (l.drop (256 * k)) &&& (2 ^ 256 - 1)
      = valL 1 ((l.drop (256 * k)).take 256) := by
    have := valL_take 1 256 (l.drop (256 * k))
      (fun d hdm => hd d (List.mem_of_mem_drop hdm))
    rwa [Nat.one_mul] at this
  have htlen : ((l.drop (256 * k)).take 256).length = 256 := by
    rw [List.length_take, List.length_drop, hlen]
    omega
  have hright : bitCard 256 ((v >>> (256 * k)) &&& (2 ^ 256 - 1))
      = sumTo 256 (fun i => l.getD (256 * k + i) 0) := by
    rw [← hval, hdrop, htake,
      bitCard_chunk _ (fun d hdm =>
        hd d (List.mem_of_mem_drop (List.mem_of_mem_take hdm))) htlen,
      sum_take_drop]
  exact hleft.trans hright.symm

/-! #### Replicating one 256-bit value across all 256 blocks -/

/-- `Q * repMul` has `Q` in every 256-bit block (for `Q < 2^256`). -/
def repMul : Nat := (2 ^ 65536 - 1) / (2 ^ 256 - 1)

theorem valL_replicate_smul (w Q : Nat) : ∀ n : Nat,
    Q * valL w (List.replicate n 1) = valL w (List.replicate n Q) := by
  intro n
  induction n with
  | zero => simp [valL]
  | succ n ih =>
    rw [List.replicate_succ, List.replicate_succ, valL, valL, ← ih]
    ring

theorem repMul_eq : repMul = valL 256 (List.replicate 256 1) := by
  have hg := geom_repl 256 1 (2 ^ 256 - 1)
    (by
      have := Nat.two_pow_pos 256
      omega) 256
  rw [show (256 : Nat) * 256 = 65536 by norm_num] at hg
  have hq : (2 ^ 256 - 1) * valL 256 (List.replicate 256 1) = 2 ^ 65536 - 1 := by
    omega
  rw [repMul, ← hq, Nat.mul_comm, Nat.mul_div_cancel _ (by positivity)]

theorem repl_block (Q k : Nat) (hQ : Q < 2 ^ 256) (hk : k < 256) :
    ((Q * repMul) >>> (256 * k)) &&& (2 ^ 256 - 1) = Q := by
  rw [repMul_eq, valL_replicate_smul,
    valL_getD 256 (List.replicate 256 Q)
      (by
        intro d hd
        rw [List.eq_of_mem_replicate hd]
        exact hQ)
      k (by rw [List.length_replicate]; exact hk)]
  rw [List.getD_eq_getElem?_getD, List.getElem?_replicate, if_pos hk]
  rfl

/-- Blocks of an XOR are XORs of blocks. -/
theorem block_xor (A B s : Nat) (M : Nat) :
    ((A ^^^ B) >>> s) &&& M = (((A >>> s) &&& M) ^^^ ((B >>> s) &&& M)) := by
  have h1 : (A ^^^ B) >>> s = (A >>> s) ^^^ (B >>> s) := by
    apply Nat.eq_of_testBit_eq
    intro i
    simp [Nat.testBit_shiftRight, Nat.testBit_xor]
  rw [h1, Nat.and_xor_distrib_right]

/-! #### Packed threshold tests

Adding `2^w - c` to every width-`(w+1)` digit of a `valL` list pushes
exactly the digits `≥ c` past bit `w` of their field, so a single AND
against the replicated high-bit mask compares every digit against the
threshold at once. -/

theorem sumTo_le_bound (n : Nat) (f : Nat → Nat) (h : ∀ i, i < n → f i ≤ 1) :
    sumTo n f ≤ n := by
  induction n with
  | zero => exact Nat.le_refl 0
  | succ n ih =>
    rw [sumTo]
    have h1 := h n (Nat.lt_succ_self n)
    have h2 := ih (fun i hi => h i (Nat.lt_succ_of_lt hi))
    omega

theorem land_hi_of_lt (w x : Nat) (h : x < 2 ^ w) : x &&& 2 ^ w = 0 := by
  rw [Nat.and_two_pow, Nat.testBit_lt_two_pow h]
  simp

theorem land_hi_of_ge (w x : Nat) (h1 : 2 ^ w ≤ x) (h2 : x < 2 ^ (w + 1)) :
    x &&& 2 ^ w = 2 ^ w := by
  have h4 : (2 : Nat) ^ (w + 1) = 2 ^ w * 2 := by rw [Nat.pow_succ]
  have hdiv : x / 2 ^ w = 1 := Nat.div_eq_of_lt_le (by omega) (by omega)
  rw [Nat.and_two_pow, Nat.testBit_to_div_mod, hdiv]
  norm_num

theorem hi_digit_lt (w c d : Nat) (hc : c ≤ 2 ^ w)
    (hd : d + (2 ^ w - c) < 2 ^ (w + 1)) :
    ((d + (2 ^ w - c)) &&& 2 ^ w = 0) ↔ d < c := by
  constructor
  · intro h
    by_contra hlt
    push_neg at hlt
    rw [land_hi_of_ge w _ (by omega) hd] at h
    have := Nat.two_pow_pos w
    omega
  · intro h
    exact land_hi_of_lt w _ (by omega)

theorem hi_digit_ge (w c d : Nat) (hc : c ≤ 2 ^ w)
    (hd : d + (2 ^ w - c) < 2 ^ (w + 1)) :
    ((d + (2 ^ w - c)) &&& 2 ^ w = 2 ^ w) ↔ c ≤ d := by
  constructor
  · intro h
    by_contra hlt
    push_neg at hlt
    rw [land_hi_of_lt w _ (by omega)] at h
    have := Nat.two_pow_pos w
    omega
  · intro h
    exact land_hi_of_ge w _ (by omega) hd

theorem packed_all_lt (w c : Nat) (hc : c ≤ 2 ^ w) :
    ∀ l : List Nat, (∀ d ∈ l, d + (2 ^ w - c) < 2 ^ (w + 1)) →
    (((valL (w + 1) l
        + valL (w + 1) (List.replicate l.length (2 ^ w - c)))
        &&& valL (w + 1) (List.replicate l.length (2 ^ w))) = 0
      ↔ ∀ d ∈ l, d < c) := by
  intro l
  induction l with
  | nil =>
    intro _
    constructor
    · intro _ d hd
      cases hd
    · intro _
      simp [valL]
  | cons d rest ih =>
    intro hb
    have hdb : d + (2 ^ w - c) < 2 ^ (w + 1) := hb d (List.mem_cons_self d rest)
    have hrb : ∀ x ∈ rest, x + (2 ^ w - c) < 2 ^ (w + 1) :=
      fun x hx => hb x (List.mem_cons_of_mem d hx)
    have h2w : (2 : Nat) ^ w < 2 ^ (w + 1) := by
      have h1 := Nat.two_pow_pos w
      rw [Nat.pow_succ]
      omega
    rw [List.length_cons, List.replicate_succ, List.replicate_succ,
      show valL (w + 1) (d :: rest) = d + 2 ^ (w + 1) * valL (w + 1) rest from rfl,
      show valL (w + 1) ((2 ^ w - c) :: List.replicate rest.length (2 ^ w - c))
        = (2 ^ w - c)
          + 2 ^ (w + 1) * valL (w + 1) (List.replicate rest.length (2 ^ w - c)) from rfl,
      show valL (w + 1) (2 ^ w :: List.replicate rest.length (2 ^ w))
        = 2 ^ w + 2 ^ (w + 1) * valL (w + 1) (List.replicate rest.length (2 ^ w)) from rfl,
      show d + 2 ^ (w + 1) * valL (w + 1) rest
          + ((2 ^ w - c)
            + 2 ^ (w + 1) * valL (w + 1) (List.replicate rest.length (2 ^ w - c)))
        = (d + (2 ^ w - c)) + 2 ^ (w + 1) * (valL (w + 1) rest
          + valL (w + 1) (List.replicate rest.length (2 ^ w - c))) by ring,
      land_split _ _ _ _ hdb h2w]
    constructor
    · intro h
      have h1 : (d + (2 ^ w - c)) &&& 2 ^ w = 0 :=
        Nat.eq_zero_of_add_eq_zero_right h
      have h2m : 2 ^ (w + 1) * ((valL (w + 1) rest
          + valL (w + 1) (List.replicate rest.length (2 ^ w - c)))
          &&& valL (w + 1) (List.replicate rest.length (2 ^ w))) = 0 :=
        Nat.eq_zero_of_add_eq_zero_left h
      have h2 := (Nat.mul_eq_zero.mp h2m).resolve_left (Nat.two_pow_pos (w + 1)).ne'
      intro x hx
      rcases List.mem_cons.mp hx with rfl | hxr
      · exact (hi_digit_lt w c _ hc hdb).mp h1
      · exact ((ih hrb).mp h2) x hxr
    · intro hall
      have h1 : (d + (2 ^ w - c)) &&& 2 ^ w = 0 :=
        (hi_digit_lt w c d hc hdb).mpr (hall d (List.mem_cons_self d rest))
      have h2 : ((valL (w + 1) rest
          + valL (w + 1) (List.replicate rest.length (2 ^ w - c)))
          &&& valL (w + 1) (List.replicate rest.length (2 ^ w))) = 0 :=
        (ih hrb).mpr (fun x hx => hall x (List.mem_cons_of_mem d hx))
      rw [h1, h2, Nat.mul_zero]

theorem packed_all_ge (w c : Nat) (hc : c ≤ 2 ^ w) :
    ∀ l : List Nat, (∀ d ∈ l, d + (2 ^ w - c) < 2 ^ (w + 1)) →
    ((((valL (w + 1) l
        + valL (w + 1) (List.replicate l.length (2 ^ w - c)))
        &&& valL (w + 1) (List.replicate l.length (2 ^ w)))
        ^^^ valL (w + 1) (List.replicate l.length (2 ^ w))) = 0
      ↔ ∀ d ∈ l, c ≤ d) := by
  intro l
  induction l with
  | nil =>
    intro _
    constructor
    · intro _ d hd
      cases hd
    · intro _
      simp [valL]
  | cons d rest ih =>
    intro hb
    have hdb : d + (2 ^ w - c) < 2 ^ (w + 1) := hb d (List.mem_cons_self d rest)
    have hrb : ∀ x ∈ rest, x + (2 ^ w - c) < 2 ^ (w + 1) :=
      fun x hx => hb x (List.mem_cons_of_mem d hx)
    have h2w : (2 : Nat) ^ w < 2 ^ (w + 1) := by
      have h1 := Nat.two_pow_pos w
      rw [Nat.pow_succ]
      omega
    have hlow : (d + (2 ^ w - c)) &&& 2 ^ w < 2 ^ (w + 1) :=
      Nat.lt_of_le_of_lt Nat.and_le_right h2w
    rw [List.length_cons, List.replicate_succ, List.replicate_succ,
      show valL (w + 1) (d :: rest) = d + 2 ^ (w + 1) * valL (w + 1) rest from rfl,
      show valL (w + 1) ((2 ^ w - c) :: List.replicate rest.length (2 ^ w - c))
        = (2 ^ w - c)
          + 2 ^ (w + 1) * valL (w + 1) (List.replicate rest.length (2 ^ w - c)) from rfl,
      show valL (w + 1) (2 ^ w :: List.replicate rest.length (2 ^ w))
        = 2 ^ w + 2 ^ (w + 1) * valL (w + 1) (List.replicate rest.length (2 ^ w)) from rfl,
      show d + 2 ^ (w + 1) * valL (w + 1) rest
          + ((2 ^ w - c)
            + 2 ^ (w + 1) * valL (w + 1) (List.replicate rest.length (2 ^ w - c)))
        = (d + (2 ^ w - c)) + 2 ^ (w + 1) * (valL (w + 1) rest
          + valL (w + 1) (List.replicate rest.length (2 ^ w - c))) by ring,
      land_split _ _ _ _ hdb h2w,
      lxor_split _ _ _ _ hlow h2w]
    constructor
    · intro h
      have h1 : ((d + (2 ^ w - c)) &&& 2 ^ w) ^^^ 2 ^ w = 0 :=
        Nat.eq_zero_of_add_eq_zero_right h
      have h2m : 2 ^ (w + 1) * (((valL (w + 1) rest
          + valL (w + 1) (List.replicate rest.length (2 ^ w - c)))
          &&& valL (w + 1) (List.replicate rest.length (2 ^ w)))
          ^^^ valL (w + 1) (List.replicate rest.length (2 ^ w))) = 0 :=
        Nat.eq_zero_of_add_eq_zero_left h
      have h2 := (Nat.mul_eq_zero.mp h2m).resolve_left (Nat.two_pow_pos (w + 1)).ne'
      intro x hx
      rcases List.mem_cons.mp hx with rfl | hxr
      · exact (hi_digit_ge w c _ hc hdb).mp (Nat.xor_eq_zero.mp h1)
      · exact ((ih hrb).mp h2) x hxr
    · intro hall
      have h1 : (d + (2 ^ w - c)) &&& 2 ^ w = 2 ^ w :=
        (hi_digit_ge w c d hc hdb).mpr (hall d (List.mem_cons_self d rest))
      have h2 : (((valL (w + 1) rest
          + valL (w + 1) (List.replicate rest.length (2 ^ w - c)))
          &&& valL (w + 1) (List.replicate rest.length (2 ^ w)))
          ^^^ valL (w + 1) (List.replicate rest.length (2 ^ w))) = 0 :=
        (ih hrb).mpr (fun x hx => hall x (List.mem_cons_of_mem d hx))
      rw [h1, h2, Nat.mul_zero, Nat.xor_self]

/-- The popcount network output as a base-`2^256` digit list. -/
theorem swarStages_valL (V : Nat) (hv : V < 2 ^ 65536) :
    swarStages V = valL 256 (iterPS 8 (toDigits 1 65536 V)) := by
  have hlen : (toDigits 1 65536 V).length = 65536 := toDigits_length 1 65536 V
  have hd : ∀ d ∈ toDigits 1 65536 V, d < 2 := by
    intro d hdm
    simpa using toDigits_lt 1 65536 V d hdm
  have hval : valL 1 (toDigits 1 65536 V) = V :=
    toDigits_val 1 65536 V (by simpa using hv)
  have hch := swarChain_val 8 (by omega) _ hlen hd
  rw [hval] at hch
  rw [swarStages, hch]
  norm_num

theorem countsList_length (V : Nat) :
    (iterPS 8 (toDigits 1 65536 V)).length = 256 :=
  iterPS_length 8 _ 256 (by rw [toDigits_length]; norm_num)

theorem countsList_lt (V : Nat) :
    ∀ d ∈ iterPS 8 (toDigits 1 65536 V), d < 2 ^ 256 := by
  intro d hd
  have h := iterPS_bound 8 (toDigits 1 65536 V)
    (fun x hx => by simpa using toDigits_lt 1 65536 V x hx) d hd
  have he : (2 : Nat) ^ (2 ^ 8) = 2 ^ 256 := by norm_num
  omega

theorem countsList_le (V : Nat) :
    ∀ d ∈ iterPS 8 (toDigits 1 65536 V), d ≤ 256 := by
  intro d hd
  obtain ⟨k, hk, hget⟩ : ∃ k, k < (iterPS 8 (toDigits 1 65536 V)).length
      ∧ (iterPS 8 (toDigits 1 65536 V)).getD k 0 = d := by
    obtain ⟨k, hk, hget⟩ := List.mem_iff_getElem.mp hd
    refine ⟨k, hk, ?_⟩
    rw [List.getD_eq_getElem?_getD, List.getElem?_eq_getElem hk]
    exact hget
  rw [← hget, iterPS_getD 8 _ k]
  have hb := sumTo_le_bound (2 ^ 8)
    (fun i => (toDigits 1 65536 V).getD (2 ^ 8 * k + i) 0)
    (fun i _ => by
      show (toDigits 1 65536 V).getD (2 ^ 8 * k + i) 0 ≤ 1
      by_cases hm : 2 ^ 8 * k + i < (toDigits 1 65536 V).length
      · have hmem : (toDigits 1 65536 V).getD (2 ^ 8 * k + i) 0
            ∈ toDigits 1 65536 V := by
          rw [List.getD_eq_getElem?_getD, List.getElem?_eq_getElem hm]
          exact List.getElem_mem hm
        have h2 := toDigits_lt 1 65536 V _ hmem
        have h3 : (2 : Nat) ^ 1 = 2 := by norm_num
        omega
      · rw [List.getD_eq_getElem?_getD, List.getElem?_eq_none (by omega)]
        exact Nat.zero_le 1)
  have he : (2 : Nat) ^ 8 = 256 := by norm_num
  omega

/-! #### Parity patterns

For a byte-valued map `g` on `0..255` and mask `a`, the parity pattern
packs `parity(a AND g x)` into bit `x`.  It is assembled by XOR-ing basis
patterns (one per mask bit), because the AND-parity is GF(2)-linear in the
mask. -/

/-- XOR the basis patterns selected by the low `k` bits of `a`. -/
def patFold (G : Nat → Nat) : Nat → Nat → Nat
  | 0, _ => 0
  | k+1, a => patFold G k a ^^^ (if a.testBit k then G k else 0)

theorem bitCard_range_succ (k v : Nat) :
    bitCard (k + 1) v = bitCard k v + (if v.testBit k then 1 else 0) := by
  rw [bitCard, bitCard, Finset.range_succ, Finset.filter_insert]
  by_cases h : v.testBit k
  · rw [if_pos h, if_pos h, Finset.card_insert_of_not_mem (by simp)]
  · rw [if_neg h, if_neg (by simpa using h), Nat.add_zero]

theorem patFold_testBit (G : Nat → Nat) (g : Nat → Nat)
    (HG : ∀ i < 8, ∀ x < 256, (G i).testBit x = (g x).testBit i) :
    ∀ (k : Nat), k ≤ 8 → ∀ (a x : Nat), a < 256 → x < 256 →
    ((patFold G k a).testBit x) = ((bitCard k ((g x) &&& a)) % 2 == 1) := by
  intro k
  induction k with
  | zero =>
    intro _ a x _ _
    simp [patFold, bitCard]
  | succ k ih =>
    intro hk a x ha hx
    rw [patFold, Nat.testBit_xor, ih (by omega) a x ha hx, bitCard_range_succ,
      Nat.testBit_and]
    by_cases hab : a.testBit k
    · rw [if_pos hab, HG k (by omega) x hx]
      by_cases hgb : (g x).testBit k
      · simp only [hgb, hab, Bool.and_true, if_pos]
        rcases Nat.mod_two_eq_zero_or_one (bitCard k (g x &&& a)) with h | h <;>
          simp [h, Nat.add_mod]
      · simp only [hgb, Bool.false_and, if_false, Nat.add_zero]
        simp
    · have hab2 : a.testBit k = false := by simpa using hab
      simp [hab2]

theorem patFold_lt (G : Nat → Nat) (HGlt : ∀ i < 8, G i < 2 ^ 256) :
    ∀ k, k ≤ 8 → ∀ a, patFold G k a < 2 ^ 256 := by
  intro k
  induction k with
  | zero => intro _ a; exact Nat.two_pow_pos 256
  | succ k ih =>
    intro hk a
    rw [patFold]
    refine Nat.xor_lt_two_pow (ih (by omega) a) ?_
    by_cases h : a.testBit k
    · rw [if_pos h]
      exact HGlt k (by omega)
    · rw [if_neg h]
      exact Nat.two_pow_pos 256

/-- The assembled pattern holds the AND-parities of `g` against mask `a`:
bit `x` is `hammingWeight(g x AND a) AND 1`. -/
theorem patFold_dotParity (G : Nat → Nat) (g : Nat → Nat)
    (HG : ∀ i < 8, ∀ x < 256, (G i).testBit x = (g x).testBit i)
    (hg : ∀ x < 256, g x < 256) :
    ∀ (a x : Nat), a < 256 → x < 256 →
    ((patFold G 8 a).testBit x) = (dotParity a (g x) == 1) := by
  intro a x ha hx
  rw [patFold_testBit G g HG 8 (by omega) a x ha hx, dotParity,
    Nat.and_one_is_mod, hammingWeight, pcGo_eq_bitCard]

/-! ### Concrete S-boxes and their packed patterns

`aesSBox` is the standard AES S-box (FIPS-197).  `scriptStandardSBox` is
the table that `loadStandardAESSBox` (script.js lines 277-294) actually
contains: it differs from the standard table from index 0x67 on — the
value 0x67 appears a second time at index 0x67, every later value is
shifted one place up, and the final value 0x16 is missing.  `gdgSBox` is
a permutation used as an explicit witness below. -/

def aesSBox : List Nat := [
  99, 124, 119, 123, 242, 107, 111, 197, 48, 1, 103, 43, 254, 215, 171, 118,
  202, 130, 201, 125, 250, 89, 71, 240, 173, 212, 162, 175, 156, 164, 114, 192,
  183, 253, 147, 38, 54, 63, 247, 204, 52, 165, 229, 241, 113, 216, 49, 21,
  4, 199, 35, 195, 24, 150, 5, 154, 7, 18, 128, 226, 235, 39, 178, 117,
  9, 131, 44, 26, 27, 110, 90, 160, 82, 59, 214, 179, 41, 227, 47, 132,
  83, 209, 0, 237, 32, 252, 177, 91, 106, 203, 190, 57, 74, 76, 88, 207,
  208, 239, 170, 251, 67, 77, 51, 133, 69, 249, 2, 127, 80, 60, 159, 168,
  81, 163, 64, 143, 146, 157, 56, 245, 188, 182, 218, 33, 16, 255, 243, 210,
  205, 12, 19, 236, 95, 151, 68, 23, 196, 167, 126, 61, 100, 93, 25, 115,
  96, 129, 79, 220, 34, 42, 144, 136, 70, 238, 184, 20, 222, 94, 11, 219,
  224, 50, 58, 10, 73, 6, 36, 92, 194, 211, 172, 98, 145, 149, 228, 121,
  231, 200, 55, 109, 141, 213, 78, 169, 108, 86, 244, 234, 101, 122, 174, 8,
  186, 120, 37, 46, 28, 166, 180, 198, 232, 221, 116, 31, 75, 189, 139, 138,
  112, 62, 181, 102, 72, 3, 246, 14, 97, 53, 87, 185, 134, 193, 29, 158,
  225, 248, 152, 17, 105, 217, 142, 148, 155, 30, 135, 233, 206, 85, 40, 223,
  140, 161, 137, 13, 191, 230, 66, 104, 65, 153, 45, 15, 176, 84, 187, 22]

def scriptStandardSBox : List Nat := [
  99, 124, 119, 123, 242, 107, 111, 197, 48, 1, 103, 43, 254, 215, 171, 118,
  202, 130, 201, 125, 250, 89, 71, 240, 173, 212, 162, 175, 156, 164, 114, 192,
  183, 253, 147, 38, 54, 63, 247, 204, 52, 165, 229, 241, 113, 216, 49, 21,
  4, 199, 35, 195, 24, 150, 5, 154, 7, 18, 128, 226, 235, 39, 178, 117,
  9, 131, 44, 26, 27, 110, 90, 160, 82, 59, 214, 179, 41, 227, 47, 132,
  83, 209, 0, 237, 32, 252, 177, 91, 106, 203, 190, 57, 74, 76, 88, 207,
  208, 239, 170, 251, 67, 77, 51, 103, 133, 69, 249, 2, 127, 80, 60, 159,
  168, 81, 163, 64, 143, 146, 157, 56, 245, 188, 182, 218, 33, 16, 255, 243,
  210, 205, 12, 19, 236, 95, 151, 68, 23, 196, 167, 126, 61, 100, 93, 25,
  115, 96, 129, 79, 220, 34, 42, 144, 136, 70, 238, 184, 20, 222, 94, 11,
  219, 224, 50, 58, 10, 73, 6, 36, 92, 194, 211, 172, 98, 145, 149, 228,
  121, 231, 200, 55, 109, 141, 213, 78, 169, 108, 86, 244, 234, 101, 122, 174,
  8, 186, 120, 37, 46, 28, 166, 180, 198, 232, 221, 116, 31, 75, 189, 139,
  138, 112, 62, 181, 102, 72, 3, 246, 14, 97, 53, 87, 185, 134, 193, 29,
  158, 225, 248, 152, 17, 105, 217, 142, 148, 155, 30, 135, 233, 206, 85, 40,
  223, 140, 161, 137, 13, 191, 230, 66, 104, 65, 153, 45, 15, 176, 84, 187]

def gdgSBox : List Nat := [
  208, 209, 210, 212, 211, 213, 214, 215, 136, 137, 138, 140, 139, 141, 142, 143,
  88, 89, 90, 92, 91, 93, 94, 95, 80, 81, 82, 84, 83, 85, 86, 87,
  224, 225, 226, 228, 227, 229, 230, 231, 8, 9, 10, 12, 11, 13, 14, 15,
  40, 41, 42, 44, 43, 45, 46, 47, 32, 33, 34, 36, 35, 37, 38, 39,
  56, 57, 58, 60, 59, 61, 62, 63, 128, 129, 130, 132, 131, 133, 134, 135,
  72, 73, 74, 76, 75, 77, 78, 79, 152, 153, 154, 156, 155, 157, 158, 159,
  240, 241, 242, 244, 243, 245, 246, 247, 104, 105, 106, 108, 107, 109, 110, 111,
  176, 177, 178, 180, 179, 181, 182, 183, 0, 1, 2, 4, 3, 5, 6, 7,
  168, 169, 170, 172, 171, 173, 174, 175, 232, 233, 234, 236, 235, 237, 238, 239,
  48, 49, 50, 52, 51, 53, 54, 55, 96, 97, 98, 100, 99, 101, 102, 103,
  160, 161, 162, 164, 163, 165, 166, 167, 184, 185, 186, 188, 187, 189, 190, 191,
  112, 113, 114, 116, 115, 117, 118, 119, 120, 121, 122, 124, 123, 125, 126, 127,
  24, 25, 26, 28, 27, 29, 30, 31, 248, 249, 250, 252, 251, 253, 254, 255,
  16, 17, 18, 20, 19, 21, 22, 23, 192, 193, 194, 196, 195, 197, 198, 199,
  200, 201, 202, 204, 203, 205, 206, 207, 216, 217, 218, 220, 219, 221, 222, 223,
  144, 145, 146, 148, 147, 149, 150, 151, 64, 65, 66, 68, 67, 69, 70, 71]

/-- The AES S-box packed 8 bits per entry (byte x = aesSBox[x]). -/
def aesPk : Nat := 2869618975290639062594974519597816386035077209210385677284518162336985023502962151465775969507961862820568736543004676439868535775640188584098917533413284844376797297285941524888791401501466624530423689326528054213168201056672989590893583853414110162539122864583953358348775951166211353578440977400428507475679327181038682772945817200201960445064847785221508011893952350688324234443749897213621340677040612747745615276448919507935121141307752692835344166708617454322778699219895865633266409040561742768581056182730443599545881830075941537620590442514083341749674612746994879540562701631131184186066652929592955206755

/-- The witness permutation packed 8 bits per entry. -/
def gdgPk : Nat := 8997571356057705262025598065274025410898954614993192770748945883556948361280639608857393433323185473040130674252963887661835643232882690703170497259747081933540404717512494093677093888263546000341753595980819902916258469366245122875711231058922679113427483783474517457776078897917783382176845938685280780571747422074767928807534589694880764123674631697892177189761814894152680443992686950111559318048087700730165547039342527826358896728178603292735709835812772287722258821754130351495338742443493900497254758334129881461554408736981291675528768814997564733291203656961311576271501900458888381250446257853751520055760

/-- Basis patterns for input parities: bit x of bMask i is bit i of x. -/
def bMask : Nat → Nat
  | 0 => 77194726158210796949047323339125271902179989777093709359638389338608753093290
  | 1 => 92633671389852956338856788006950326282615987732512451231566067206330503711948
  | 2 => 108980789870415242751596221184647442685430573802955824978313020242741769072880
  | 3 => 115341536360906404779899502576747487978354537254490211650198994186870666100480
  | 4 => 115790322417210952336529717160220497262186272106556906860092653394915770695680
  | 5 => 115792089210356248762697446947946071893095522863849111501270640965525260206080
  | 6 => 115792089237316195417293883273301227089774477609353836086800156426807153786880
  | 7 => 115792089237316195423570985008687907852929702298719625575994209400481361428480
  | _ => 0

/-- Output-bit patterns of the AES S-box: bit x of aesF j is bit j of aesSBox[x]. -/
def aesF : Nat → Nat
  | 0 => 35786916000561020994687835289264802905573170905411030806437744321052715806445
  | 1 => 90661500492726238137954243780485978051847819462357341667616540301126215662717
  | 2 => 77899781555780712087428354663863749943532708844197633240336902023440281154758
  | 3 => 35559311863511561256827396651372830020175901408093338897568891125994138458218
  | 4 => 109489108607595781312426439679406048131202684847580869272659506983986888487198
  | 5 => 38309275497691878710385633523723891673218419953732090497659051795407626100095
  | 6 => 15323369045976443439856209982224167514215760807664173309615823936865032844543
  | 7 => 37187919993720582648705706327880932966572362584316185631786642093119712489616
  | _ => 0

/-- Output-bit patterns of the witness permutation. -/
def gdgF : Nat → Nat
  | 0 => 80827419153891305040767197378613519991694342237192236858915490013366812062386
  | 1 => 96266364385533464430576662046438574372130340192610978730843167881088562681044
  | 2 => 105348096874734734659876347145159194595916221342857297479035919567983710103784
  | 3 => 1766820105243093293849282517319613805524267793330614124873499118651047680
  | 4 => 452305946942231889478093537993510424025856163548882315475241530769000038655
  | 5 => 409775478387777906943963830383280666927872483401121161889710080
  | 6 => 115341543235692804903336978957692000310358991732360784019608043310152192819455
  | 7 => 452312848478363865906148795522357093830697139913649357395165369215767085055
  | _ => 0

/-- All 256 input-parity patterns, block a = patFold bMask 8 a. -/
def pTabAll : Nat := 826364001314987886132203322675794923743536300882696527646849903482506520783689463256377993910570642114836450150070362715399187978085530417523781379641373896852918582013125246662737660499297363051247675698155902102041262137964763069848997087871883463228279307672239493760283284984846331311342443140549136373343528864093660519346934289729333614163799811720663807232697951811971737244596682058906158965561404580178133824183503582689679478426044771502711366686073252167589805335642739215600720298617563618094294009716097443995832446579031780556253762935174961993546767168339016876805375686176237302717719071912360614069139933219383869713751724043519808399067928002567763836302170009835248177865991159779221399046259002992327841430940037292870110625292764969623919631663056058689333509427425239845790405104676639466971010908316873416609263138961373573922213038964722754517416539290764145024463852513099472432305575073027086585199079304487107513068513166024584189100962832862981794080218764737693375245176736955931437662936378104512029042130332098024729423872472453272824346122989825914757040744219116346834788811621754931309785847090614079087503412193910149868049180970624186194540153579484930632752136656938560811669275391417088322281408551800439330655827924623681455003393618541381279591036241055585179713500616176072714431873119616204259445848503963352004837959510734693581262860485564703389882256789204249384446364492304377044302272380127692229149619505261240108500268704901302866434332110148650041788213608851130983359177834057298829013475226369971143793150685100957480845200351775333643155515146874788946335765721452464585003488538110205716775053456721308000516591781727136666801383657437453567535298325376613365796437146416002696386577410202704421078389150897496736465088679479391552649879796348874429155105975917476800317979903952555724034911389244329388701875795681724796597368035335515416362791585257935460630597086774580857901099973800129956767005999461091045334052264570470018035845432007522541931833784143117626704601909588249576090816303343975075340558112932390932874339448048138084887388015635970698145786592229254883887540072866910097130559976182057433931148885585937150595775363404258390546678537539599505064433926431478169111345128405081867902300115707464825105329808972476357805298756528291491625635839998207142981700211931222747604145638769911898008436844757538497267856730240155249347996622259368847625674221013150706289591817985634831066325232944147031699492570094614808911425692727984592160026663300807239759577852537583128333288689630113353318171391612658650351446984292681330565491702250459873316745521259399181020570750512885318301713902153331536427706221569159234781345025445568463376414856548299253272012003586136978932353276146612339989787986374391422936077367136808128484149768933825463557264967538315533202899123550942482212432820684995727103827092536626812241614594594698227767486995506225348038704970834347414290497458586784818641157297815122531812496909056721221797611078165399632094847477235578453550790442256907955417731961644204608707492640968122477373175612081968607699458164462394546327063678447686942842428634248469899136960815657982183330085514639345536110973563840489286715199984277428793976954019036732202726242582382737618428203687450721093955611800800736754900777338300851677973933963564347417166419970330355560408525980809243896937162135719153043853693432782904748047999302034557682828106119853778879872791608995750519110395002017133664148267140797119719224438916478320350795608549699227039899383544907929607604160901252851187054327452567734512885880225128262072879833207764816156276482914955005884371637145697641677830687350892808044666232150842899958460121542108600071663669446611197689924075859065626114794666785874737261223538658092880157409914227234189402104854783215873538303071756508489825184623902752119112978011072107830207120747165140953429367851655136910529532367484522021387525338219510951721873702728992247865769704792035858984276473690298973905399441839852832293112299053575926669669326126737321301985380965559469289843503089613318343574618090586835021181019742202083963048312963837169718358198953995171347607670093365105955220891842622714155199219113594269411330113266864581955224680242432749988074519896911595248351447272690698591345909763137688847302455534237814216851333419907649670339868177040998331893865398315343789017283652190433781379923269929953049685141003379505096716810896434897811767928971925791249934458094641714883906160205585501500011789734959771339254385835397794431726398492327286379621297800618159501447910016188840978999473011292372542214337784495190167870196378432426368034851153278801196230420249893384290573134582285154866463495025041268548751189735225773820973943231548314821047297229679574411944290252344132728643283727006811635572468837283910529498630457239545781158085516021934920510843839871205243526758924240178468684989156139013492769234410277205006016571727429429698139024175806927621349030164936782874125675586137062827377659408055194075251896477325562857559962693464516247267135896982767044413885498921845102430051441476334456066699197354425778886288412849915295984643068092908118847824225555222921346894030120299775388031746501481198905183061022495733879560093396470549359261566465095915725908440649514410932254011204211053304392670997688163808759846327946786428856489388838022008176277048589642938316945209443328115471994457734422973885264858367395749475843756900697857121679833108540035800294509807831705137402059973765189908106292718427480375410009149956980214158846353309149215486663970906520350221413129822814930672855175859322606778019203863909200465662599539686418749248062250659615785736598505717197796254344563010294601255097168784583663166117631276023761923673687520717024151473855459735766847444848697955909517237931486466551906615386138398423703556586953851513959431757197525351728914103214326962085190876398723203836184397917377000821676764161817159492374996331342105161091328357577819053574853904448184655368554700325060588281290243536067562079628703711437330910469629194761739691689308288886939818360195193325108635470055583414593049762249050373986050010294261217237705786776229268440332046095317147707070890735123064204807721588511807085116655881491911506225879368033501007612274782605637675330988492731974889210760845359918048776084694030040044112607064131964227814767129500562463114023176156061885658910515441785182270479263260818112060387178712020653535967202849958508699017496761534005380049455699532871686228290381301377332124001198666266594120001041003188384457732783771455714173656182335376969607428175625387681613142129418478405531070813835828713424645308939119620274253209319956100331204825554336004835547997637088481641900524780261894763069632442739756037087479265727155156936882399489120945607129630399302884225097322273409445299051290443492589934024060976179671030453450111187311849282664323342752363953976562968040831140222217061877893425695094650327365453245862308940233970362117933033333013496898310546896960215428367049727579457964584242958311752924751919733968638424032172571633973115502056775249141981337291792384849706756529314746554267132850035005600336541799136921426583826952434928481221298593469903542778236931953532194757434828624304951865115475002453846533815138899098487210950513997576036474177026899748685567282226418718959041332704863020855112610420161024475470384206421750756183260280059599890002716666887804235041151241260622378628484341622597467170202669243056928335890093922114132447525724278469404512398550816949106121105312492593236606815061563495567067938021393466238460161817266846047613384158231816854016881379507172254117047833280093881074382373825161443240702199646125241598819833612659728922184794084757088701222385645118987949925833202923394599307982676991880446185580072176038806139556219381039991788663621639886795881598911311741861140870560241265417010850508470924585807093731554379546512916624760782729411482351118984784169123259404917652138243415013590072747011974532831173601575639434613118882877656454432096609585030959022622960081965464316091317305696446443868710813728765981486428054189946140587431318771000243179121954291679238064207163729064083723071403551156573596118548588525995772760099994013926340012173454268669888222701506367370643814077727140859493461068065682416252895887086956482034251452487953298425245080081215319999156441188732913313834726467443575920457950179909097507327897459570241471332083614823654366719626412516989906130467520367464938127182794751791719007726926714406043082542400514354317197878743878460382672453362769436066866143531012190842223265261011347572961122617308239395511467493695493103319552999521368382395929656766334844783324263716852007477256998749092450716937142100709191397118248854160253210180865076585623198185488301051562570238883973224017458037489460104096992070407325790279802799248175489723233119583721702932074396652248317479967773888901329559730905144278951912390369099501709658561569517018407479587368315707588408022234403475579688522864192343956141323450829651238338388169887578373055687831749120482924250948662390051426883424897794384658195179615277148342381657111807097486144481293804579448052773986148042324406396369772657474639230372266618074729316394897441932014527395512215863353138955250282311238332774377109983158880420681131152151222064720406487954018340450229725501991744891214334407896593889345698663704274639277935958455013455626698367281564609043004200960139588961893480276042311107592000058276327572380951285823271367858257166471852892664935380939821672125442481477306696946561724092528726215736610364280936405493370033537253532378970245635016872570183092393359590267728274451039326268954563541822967998931633442722644434101517565946340183427521498596210707171890750504451803728230333343569396479639160392451841926146682931008829627540382380403221023043641103498665228147271049401261858125128212272952500968193358191632016393126291636303312836846756404512754729269412704951473155777662188291475283183773342401557322483986322778725450401778586464327173146257748408304350557541998645003077822966405772442522225025673752428501481517693456419434918863202460931921051820794474659199088434999545630989919387489301260577922221870665287551095242492336716156082634956620411274565823354043657571883457953141993100775985082734615789078736846749950936574880379922843128538304831273676934474204953986493357711009941163950922046248777580827159535416433589008291092515180633701667243006189787130743104256800284869510673128710114917130579929684218137036501826660594196744855880496339611228208156681696537338248590834046860187720919029200183062841446935231003206745387917841345667303484664732424477391738609719173838712790210775626709743202059844407830321650732310589050583211160056947383015342836246194985997530000671135847761087415357713942434984828914167439102318349083726240246815161221572922973070009995118742927487216466856508781243336679571226553614173656903218160616341051782819493382610335654027124856217898107378881871206730239686030799913550409437067378277291172262005193499808508278823160681196927499274597535972570758004867709319626889369184998873554125710523889849470465512916748038209831605114301148807979511667781317523386960645945181779057853527858214502439761699906666116021935478014866633585300543303840560959663925831665702051708722061572964613889565899292482399230045422243867443188943505563110309030587819224876700868678335058176611978731107216349190974406053834693551451734655252964903383210336273876018041109407488600116494991863311889717943130318266811107293639454355628128403518054387469505980954591951861230491764271348349345238046103107950227982535545393147854400151278532486133052552456121320321801464805700906016486206904595062474232441573660863066687531508507339652600305981073538170833458461835694355876794029777264289941648716211017681526513127972454368081783949748435085040825480182228715661435915410456375309188651900773379655493495357584566972969727540893386464615918597183806188377770771573321350812846480552486373947802472537692642969358471811056810525522898660129267260497045708782424755185483122286837112116842522112704080242100524108630331527172366729437914360694284050766055985446401527005910388976961102266635179012285525228496732636714988208772183317816959741854280506821074657963684484122648634999067119032609341452140151757167102250451958140435256922217346574130869952468795976643966544168583151729631842501202747951127961103601901101862283934484494815846625805982005775656092229469857637605471211578866388249104830050746053509537140066759167558488381450181122576117342424209538378547193860384006044505896705041372291477763860962511294127321181437407074900079057993977135939793436850104077461868226191519734479600627284076705577352792004125219629460785034834278928651440756779638347704111435782224283992939534676468196297361959768025745224148135994826915587556460362773238996208404323469704853225160154548704564142631206129101394111158421188842788351999674872065038551424162709795305834466857432899560406124821093437068590082010549571179640921713943587496492955559051625089746427522911452647161301935581745176477977763925261929882062573796774614191731955225749674600724882918127001973359607741704406611020018719715641985040386948373729833175839704169555565011451573913177172259781867278403908644520545916138033011194226936885855571563557229183284944163816670859174716952394794313782531650307162949409225446062945682241934045206546741781891667328375553826913122613983067236167983844705583875337554854933546007105835980024322250736564385272337089090647963266525875226607663744762797672651196933730534946575793992055015970040847089753747607823103238520829510814471632826691557898543813036950168595899128809081474286587232503870322692588486564179612201664520357997824175608699249666516619015030224787803393731907029471172733207057133673648733420164283851612859047783849993231624141708831607499819380825065929226651889228800410864724113548938500465811197557665626513034802962875761718204908435447985272424697858687052108731951687196550288865838513601646956876837937572687474322444368852665284645137263952699332823424751188897874971253191153534613575862143177678559803705538521337738921876733189884929472677110837815700073694548319975960105746357340520324131658463491250176569625842873099376978845333933430723798965491422431476345437071963638740957164753347822094901460102031185311410445509642168679681138163133896076660628424643070648417851176573983664721774125436805848873279480692254634599929156407586406693746411017061989694668073567407733692053839473300515276229164539005723513932107409891854314810412897287996830386703181226922592053540297776589472490467222987361235903208049069478376555968080588278092185654974737313274700870165357606427668544167119866703183182887540996077060855709759837079129680176608245459822868754560042055039838288517790746220486927676328435502702692766561088098587696259002713024896308733979697187082071445000205034857214739670774705770990278966883969755779993225184124179271477212520833267363331469250425519552283255746682947718600794319319947315284827566283247734073952824332629795265112594093389334011584911047531772289056958790696522721267428198904945432412568663753183004952344574625936822595002470589658162757956870978368369817904533844083959418238915955730626114841101623255461181206041346817702499140901134609777671860894397621530873034731481237388025514182119685079027140843942313973536678667773585868486501891437263874971892690523565570890131482178195060912339955327388728897504215794182132665579748075434271064138995871534253523347025301687779263088034594682726660117061639190692194020305918498653071737085399124810131262088782231126567122855877170972476277764202386891314802955306664279374419667528186369330735662296367129555250530401939588217345647758607201217962260108531930518073870997343487472390444703162233645470984774157510025491790283178154336876647861178638231555101528433071142082733382834620844269138745143429626487015649368741954444395374834367507129476843019918589214303320153068300932260723797117102210453775808096357195768801997699055727562235198317868525360059668565016775727600656142349573319232601071402303009088267549602209041774182124124830631277497968302258372942355009908447308479973587006690254577843022729835714072436543203238642398318129090594618851372731311689812024346348610257589126088657489083375932137744678530346165004025224842869839235626730455143770790615936364169444467758917887443875125360862706846243879189116306102730003409295796121207752872345843143480192523092825816652605489772610249123598581329791049075408406639681029234758436398286525283407784746764207191568982769735124920231103016570032317123433103980605856256750603969743468294748133571910760527088249132966965419813274051166008533646595440492210510164488108629683742885835290766552628521796080195217600174169317016922239364552087699305091225820854029318594298975068528340538262987847417422919739741263333780243267804442389308375367272898756061202237173252508063083486343849893454277219102714243486016486476424702427592820509710542348312619659862339282266747212111400333685483588325477771963449753974252629961751409239058478376662450638755680608427666405781305044781419765548993533093764059385991043730756063753552692431948103394416216444164963688902974932645003797910781251267180705825991586335733230049559338531403556008519399741853589230415613692708764379782165218256632379862592323641710306727343540444165929991325838357311867528141532540206176091806902119703857889979602892518668670778751249865415373824718338238918614938730023591287629631156974919240259938655628452613946678415167461457299432905637473107366765481943887098808439771712508091133450643359442825319087036839634480520023657969892324117396227540174447410633630288929813709923101699650924174820458157482815620582531819875944590844643628440914740741197761475543680291613911003915608417902755875613365541960779923140408085893253769926197418291783326518873017922116253936853518309372126100899177142272499869464520445195355631979782414491205470573855901571396047767676649899905613592213662674606022442731537920110043979646916499462275617692809841728550974922504512844950177968511841439021939436602330233281665455065170548410003262826368369474849314559957555909192175052995551080286257307627185725592373771107760377877350618316291589892750060675440911930402478858922286579650371475936778427702897439714799380547246653954892468108305890021266598891025113704906780594514227736720480053075259457601072229036570454406502582505158761089572656853235647213571659932497304183404144058104531173566023603769707511790519971517330309872347053041603359513513181228470694964392465447524488239426345792524908777282498762910704419034629439619950977224725068177052192501497716922946919797356129243919993102265999933029886766514841670122465935600188882816458347862956442342957643123385121322213409553096274672631278792456862185490090129542081634635620950851262354448825310565426508173308766924044525295018521848803620646473469189023509449562848128613810286230483774177714382617647960289980754397393981154261162778719005448621407237059322628043651837672932399571902791297253621455611078888828442505584536440129712258273841824034947470347171005698326470790810377291908909705065871948443579139771276184549960207622199253807564988311415579034202252455159345214090588885902746397609844905753299278411258377936326677006801972231235666337552484005293683977307788564226893905632602410505749263945998814209882611207069475432664836597105518237793975911695408088706017177826584606405143463107811475929112451115263014241247438906618755238725283972692013272130409391819632612913424891952533778706500624256697047745298432

/-- The script's corrupted table, packed (byte x at bits 8x). -/
def scriptPk : Nat := 23648324105561439408586189866302051695209506824118084677969050152725752961664711124900217140534140680913801414727440739735714857253088013437383536051938691506580806024579116353026248275803109530275196423141695376481630660370650699708319391027536451257219244588693348793759973884646658726714737433783229432291792423773199256619059757947281345049765160239526965767140083076859761682622599322701998779195943166110084121956517737399948154395570948542121258877359919304206218929953585568255822706448530935990962776798557947561544368457904975962997024886414350963524052343252787963171077497992457053855030408547373113900131

/-- Inverse lookup table of the AES S-box, packed. -/
def invAesPk : Nat := 15785769749828884342349381641981096363179738000380205650940338083111619982568718420166261191398703005748170232611805704157196303061330872280026969925224128193193768962594508714770967646139604422718174787315048227180018877623049221087186576642191304514338137614235628241783007805847129270530950856841486400764657112140097236091222567730363620332611309375046737430203438830593833719428588466121688739068564421474273450162064709239629809347626728710072303178617319436726577534667237755444692000788692193415136619289353224918429728194544458916874716857284226411602766869706570927007876872095880586785662942963508062062930

/-- Inverse lookup table of the witness permutation, packed. -/
def invGdgPk : Nat := 26233307927423575821142743486075128406070660935349310644746133833563329066987170024117677394193743600052211641813678768099828496745580299864777317715652632831017975645361139491088397645718622741525364731748019119480105619286130650884646996060544448342777150700906108560772068597876348867759713258172375813717831734451208005278460878247510107059480740141105444701985692799359605007807013025773237126448491973251779413848155266016133922712307792184642502434659740487086733445819635051625756370614592608466055177019148660353601485578771105508435006627320132619313630042604297509954973802466199716381642169361015431133560

/-- Packed value table of GF(2^8) multiplication by 2. -/
def mulT2 : Nat := 29022917302579095964124461949858013542724473648904841737866655790348712823699949138665809059499827693295928210552345624834464780210271501149743171624365253056144549668571949842842198483757917673820358967127239403036664387516565901472030220598252923801785930419531446491996907423676964199699175720602385906879680083903485254308339209678552217320138528911198260519229634791478122061432032516214484371579815631342231930258222337365598820086254069662275554781838914121458546816731767637215947301122829170181878307081147920335390477421409014593779889526109499260042632138652359755563522403016050871885672224018346954457600

/-- Packed value table of GF(2^8) multiplication by 3. -/
def mulT3 : Nat := 3294578057314658763267795712291423816875059784912772658549463737549614411501588429758163946129753963063094138685936871067770203650430612434195375948676499621860626057286767866984606329430300288249694230977817309640410368608817684755278168616531299385557605244291578639565002013689251056656080034747730775106792247717826926486880909667003158817235872845726171190436001294868070851495559292814071128771808507251916148301013813934405585832966327353734581929782276709735716474759982539751455303458650918273922349256448297540981134095574432763667425412741570921087470081050522780756614773559216063798844346245016564663040

/-- Packed value table of GF(2^8) multiplication by 9. -/
def mulT9 : Nat := 8875800206676231233701243093037991435892820171169916784212686138618272775022945573285003956930101804132570244180486893696338426119125697617487505053305019391078452041171720238582278824352345150014134608923380002411540182399855297251710853225217122628921227208582311712405524813144982781242696704635609266321940544417729379922905250356217345749200516009654420718585965795693028792943576298910991546489194988553624796944920535299482344994524418256347438720733242826317236165094751904288306059757648895161575829661503528205507542121434477288647604052975262540305993897881349643805951627695476696173059092458303168579840

/-- Packed value table of GF(2^8) multiplication by 11. -/
def mulT11 : Nat := 20660037681057546434569796275159181838479904952512643273806643507766143283772057439060419035649261649766718144834351654274951171845491047146754362976279371340404592299720552026658750495605700011811481807106698209471695919590040201347318860671359017121701880798234681581037134898319689396355614186019758485717054749992248840995940992615458479053327988302541455430365511788916032458251381176675035888998960581052066836736929713860795351891151396512863268422787562719967588893482144796700121704512809072848513166322741200632883769161354058857808590875411713191597258555324046859665658420153755880783648214387959407184640

/-- Packed value table of GF(2^8) multiplication by 13. -/
def mulT13 : Nat := 19138196848495869605120511558559239350965271065994991961240301511853740095611541283376038542306365123738129448692639514603083014128499463859328439565186102911611069345000827123701362194545999439720750984632977195243846286362462415909436277106797479059866551396947858323319980774417875675921867639957502891587465414444830963643657688594257097630455894848761410270925351913738136053681726757806999801729198632017884776933148886006414664898098777819019295640819165685098721075686948126956433128788785326234477653004815354437539193788019007304928778657778656315023763906850773490198904399435119974847211450672131266448640

/-- Packed value table of GF(2^8) multiplication by 14. -/
def mulT14 : Nat := 17864480014884770448341771077560609799285446646958910005847266087176511584336450046277440330989852911982032248350016470062144232722313878833555006445368793394394110529483499328924098050678867718825055588086459160420708307799758563350760248515731481671490350979629499887553466166785595932366127294347362177681962304276728524400718028523154997411546527350275384898504348386776929690162748186352725508860704250747799418330300045848129211501812703387466121761170394370004206798559078089019730874660581757631840806018117816157917699717536029034409891165085778749802507617890945859671717747346411418272250830228758462205440

theorem getD_map_range (f : Nat → Nat) (n x : Nat) (hx : x < n) :
    ((List.range n).map f).getD x 0 = f x := by
  rw [List.getD_eq_getElem?_getD, List.getElem?_map, List.getElem?_range hx]
  rfl

theorem land255_lt (y : Nat) : y &&& 255 < 256 := by
  have h : y &&& 255 ≤ 255 := Nat.and_le_right
  omega

/-- The identity S-box array. -/
def identitySBox : List Nat := List.range 256

set_option maxRecDepth 100000 in
theorem aes_eq_map :
    aesSBox = (List.range 256).map (fun x => (aesPk >>> (8 * x)) &&& 255) := by
  decide!

set_option maxRecDepth 100000 in
theorem gdg_eq_map :
    gdgSBox = (List.range 256).map (fun x => (gdgPk >>> (8 * x)) &&& 255) := by
  decide!

set_option maxRecDepth 100000 in
theorem script_eq_map :
    scriptStandardSBox
      = (List.range 256).map (fun x => (scriptPk >>> (8 * x)) &&& 255) := by
  decide!

theorem identityLk : ∀ x, x < 256 → sboxLk identitySBox x = x := by
  intro x hx
  rw [identitySBox, sboxLk, List.getD_eq_getElem?_getD, List.getElem?_range hx]
  rfl

theorem aesLk : ∀ x, x < 256 → sboxLk aesSBox x = (aesPk >>> (8 * x)) &&& 255 := by
  intro x hx
  rw [sboxLk, aes_eq_map, getD_map_range _ _ _ hx]

theorem gdgLk : ∀ x, x < 256 → sboxLk gdgSBox x = (gdgPk >>> (8 * x)) &&& 255 := by
  intro x hx
  rw [sboxLk, gdg_eq_map, getD_map_range _ _ _ hx]

theorem scriptLk : ∀ x, x < 256 →
    sboxLk scriptStandardSBox x = (scriptPk >>> (8 * x)) &&& 255 := by
  intro x hx
  rw [sboxLk, script_eq_map, getD_map_range _ _ _ hx]

set_option maxRecDepth 100000 in
theorem bMask_testBit : ∀ i, i < 8 → ∀ x, x < 256 →
    (bMask i).testBit x = x.testBit i := by decide!

theorem bMask_lt : ∀ i, i < 8 → bMask i < 2 ^ 256 := by decide!

set_option maxRecDepth 100000 in
theorem aesF_testBit : ∀ j, j < 8 → ∀ x, x < 256 →
    (aesF j).testBit x = ((aesPk >>> (8 * x)) &&& 255).testBit j := by decide!

theorem aesF_lt : ∀ j, j < 8 → aesF j < 2 ^ 256 := by decide!

set_option maxRecDepth 100000 in
theorem gdgF_testBit : ∀ j, j < 8 → ∀ x, x < 256 →
    (gdgF j).testBit x = ((gdgPk >>> (8 * x)) &&& 255).testBit j := by decide!

theorem gdgF_lt : ∀ j, j < 8 → gdgF j < 2 ^ 256 := by decide!

set_option maxRecDepth 100000 in
theorem pTab_block : ∀ a, a < 256 →
    (pTabAll >>> (256 * a)) &&& (2 ^ 256 - 1) = patFold bMask 8 a := by decide!

theorem pTab_lt : pTabAll < 2 ^ 65536 := by decide!

/-! ### Bridges from the analyzer's loops to packed popcounts -/

/-- `|c - 128|` on naturals. -/
def dist128 (c : Nat) : Nat := max (c - 128) (128 - c)

/-- Field `k` of the popcount network over a packed row. -/
def fieldCount (V k : Nat) : Nat := (swarStages V >>> (256 * k)) &&& (2 ^ 256 - 1)

/-- Input-parity pattern for mask `a`: bit `x` is `parity(a AND x)`. -/
def patIn (a : Nat) : Nat := patFold bMask 8 a

/-- Output-parity pattern for mask `b` over an S-box with output-bit
patterns `F`: bit `x` is `parity(b AND S[x])`. -/
def patOut (F : Nat → Nat) (b : Nat) : Nat := patFold F 8 b

/-- One packed row: all 256 input-parity patterns XORed against the output
pattern of mask `b`, replicated across blocks. -/
def rowV (F : Nat → Nat) (b : Nat) : Nat := pTabAll ^^^ (patOut F b * repMul)

theorem patIn_testBit (a : Nat) (ha : a < 256) :
    ∀ x, x < 256 → (patIn a).testBit x = (dotParity a x == 1) := by
  intro x hx
  exact patFold_dotParity bMask (fun v => v) bMask_testBit
    (fun v hv => hv) a x ha hx

theorem patOut_testBit (L : List Nat) (F : Nat → Nat)
    (hrange : ∀ x, x < 256 → sboxLk L x < 256)
    (hF8 : ∀ j, j < 8 → ∀ x, x < 256 → (F j).testBit x = (sboxLk L x).testBit j)
    (b : Nat) (hb : b < 256) :
    ∀ x, x < 256 → (patOut F b).testBit x = (dotParity b (sboxLk L x) == 1) := by
  intro x hx
  exact patFold_dotParity F (sboxLk L) hF8 hrange b x hb hx

theorem patIn_lt (a : Nat) : patIn a < 2 ^ 256 :=
  patFold_lt bMask bMask_lt 8 (by omega) a

theorem patOut_lt (F : Nat → Nat) (hFlt : ∀ j, j < 8 → F j < 2 ^ 256) (b : Nat) :
    patOut F b < 2 ^ 256 :=
  patFold_lt F hFlt 8 (by omega) b

theorem rowV_field (F : Nat → Nat) (hFlt : ∀ j, j < 8 → F j < 2 ^ 256)
    (b a : Nat) (ha : a < 256) :
    fieldCount (rowV F b) a = bitCard 256 (patIn a ^^^ patOut F b) := by
  have hrep : patOut F b * repMul < 2 ^ 65536 := by
    rw [repMul_eq, valL_replicate_smul]
    have h2 := valL_lt 256 (List.replicate 256 (patOut F b))
      (by
        intro d hd
        rw [List.eq_of_mem_replicate hd]
        exact patOut_lt F hFlt b)
    rw [List.length_replicate, show (256:Nat) * 256 = 65536 by norm_num] at h2
    exact h2
  have hV : rowV F b < 2 ^ 65536 := Nat.xor_lt_two_pow pTab_lt hrep
  rw [fieldCount, swar_block_count (rowV F b) a hV ha, rowV,
    block_xor, pTab_block a ha,
    repl_block (patOut F b) a (patOut_lt F hFlt b) ha]
  rfl

theorem rowV_lt (F : Nat → Nat) (hFlt : ∀ j, j < 8 → F j < 2 ^ 256) (b : Nat) :
    rowV F b < 2 ^ 65536 := by
  have hrep : patOut F b * repMul < 2 ^ 65536 := by
    rw [repMul_eq, valL_replicate_smul]
    have h2 := valL_lt 256 (List.replicate 256 (patOut F b))
      (by
        intro d hd
        rw [List.eq_of_mem_replicate hd]
        exact patOut_lt F hFlt b)
    rw [List.length_replicate, show (256:Nat) * 256 = 65536 by norm_num] at h2
    exact h2
  exact Nat.xor_lt_two_pow pTab_lt hrep

theorem fieldCount_getD (V : Nat) (hv : V < 2 ^ 65536) (a : Nat) (ha : a < 256) :
    fieldCount V a = (iterPS 8 (toDigits 1 65536 V)).getD a 0 := by
  rw [fieldCount, swarStages_valL V hv,
    valL_getD 256 _ (countsList_lt V) a (by rw [countsList_length]; exact ha)]

/-! #### Packed band check for a whole LAT row -/

/-- High bit (bit 255) of every 256-bit field. -/
def latHi : Nat := 2 ^ 255 * repMul

/-- Offset whose high bit fires exactly on fields `≥ 145`. -/
def latLo : Nat := (2 ^ 255 - 145) * repMul

/-- Offset whose high bit fires exactly on fields `≥ 112`. -/
def latGe : Nat := (2 ^ 255 - 112) * repMul

/-- Every field of the popcount network output lies in `[112, 144]`:
two packed adds and masks decide all 256 comparisons at once. -/
def latRowOk (V : Nat) : Bool :=
  (fun W => (((W + latLo) &&& latHi) == 0)
    && ((((W + latGe) &&& latHi) ^^^ latHi) == 0)) (swarStages V)

theorem latRowOk_bound (V : Nat) (hv : V < 2 ^ 65536) (h : latRowOk V = true) :
    ∀ a, a < 256 → 112 ≤ fieldCount V a ∧ fieldCount V a < 145 := by
  have hsw : swarStages V = valL 256 (iterPS 8 (toDigits 1 65536 V)) :=
    swarStages_valL V hv
  have hlen : (iterPS 8 (toDigits 1 65536 V)).length = 256 := countsList_length V
  have hle : ∀ d ∈ iterPS 8 (toDigits 1 65536 V), d ≤ 256 := countsList_le V
  have h256le : (256 : Nat) ≤ 2 ^ 255 := by
    have h1 : (2 : Nat) ^ 8 ≤ 2 ^ 255 := Nat.pow_le_pow_right (by omega) (by omega)
    have h2 : (2 : Nat) ^ 8 = 256 := by norm_num
    omega
  have hpow : (2 : Nat) ^ (255 + 1) = 2 ^ 255 * 2 := by rw [Nat.pow_succ]
  have hbnd1 : ∀ d ∈ iterPS 8 (toDigits 1 65536 V),
      d + (2 ^ 255 - 145) < 2 ^ (255 + 1) := by
    intro d hd
    have h1 := hle d hd
    omega
  have hbnd2 : ∀ d ∈ iterPS 8 (toDigits 1 65536 V),
      d + (2 ^ 255 - 112) < 2 ^ (255 + 1) := by
    intro d hd
    have h1 := hle d hd
    omega
  have h2 : ((((swarStages V + latLo) &&& latHi) == 0)
      && ((((swarStages V + latGe) &&& latHi) ^^^ latHi) == 0)) = true := h
  rw [Bool.and_eq_true, beq_iff_eq, beq_iff_eq] at h2
  obtain ⟨hlt, hge⟩ := h2
  have hLoRep : latLo = valL 256 (List.replicate 256 (2 ^ 255 - 145)) := by
    rw [latLo, repMul_eq, valL_replicate_smul]
  have hHiRep : latHi = valL 256 (List.replicate 256 (2 ^ 255)) := by
    rw [latHi, repMul_eq, valL_replicate_smul]
  have hGeRep : latGe = valL 256 (List.replicate 256 (2 ^ 255 - 112)) := by
    rw [latGe, repMul_eq, valL_replicate_smul]
  have hlt' : ((valL (255 + 1) (iterPS 8 (toDigits 1 65536 V))
      + valL (255 + 1) (List.replicate (iterPS 8 (toDigits 1 65536 V)).length
        (2 ^ 255 - 145)))
      &&& valL (255 + 1) (List.replicate (iterPS 8 (toDigits 1 65536 V)).length
        (2 ^ 255))) = 0 := by
    rw [show (255 + 1 : Nat) = 256 from rfl, hlen, ← hLoRep, ← hHiRep, ← hsw]
    exact hlt
  have hge' : (((valL (255 + 1) (iterPS 8 (toDigits 1 65536 V))
      + valL (255 + 1) (List.replicate (iterPS 8 (toDigits 1 65536 V)).length
        (2 ^ 255 - 112)))
      &&& valL (255 + 1) (List.replicate (iterPS 8 (toDigits 1 65536 V)).length
        (2 ^ 255)))
      ^^^ valL (255 + 1) (List.replicate (iterPS 8 (toDigits 1 65536 V)).length
        (2 ^ 255))) = 0 := by
    rw [show (255 + 1 : Nat) = 256 from rfl, hlen, ← hGeRep, ← hHiRep, ← hsw]
    exact hge
  have hall_lt := (packed_all_lt 255 145 (by omega) _ hbnd1).mp hlt'
  have hall_ge := (packed_all_ge 255 112 (by omega) _ hbnd2).mp hge'
  intro a ha
  have hfc : fieldCount V a = (iterPS 8 (toDigits 1 65536 V)).getD a 0 :=
    fieldCount_getD V hv a ha
  have hmem : (iterPS 8 (toDigits 1 65536 V)).getD a 0
      ∈ iterPS 8 (toDigits 1 65536 V) := by
    have hlt2 : a < (iterPS 8 (toDigits 1 65536 V)).length := by
      rw [hlen]
      exact ha
    rw [List.getD_eq_getElem?_getD, List.getElem?_eq_getElem hlt2]
    exact List.getElem_mem hlt2
  exact ⟨by rw [hfc]; exact hall_ge _ hmem, by rw [hfc]; exact hall_lt _ hmem⟩

theorem dotParity_le (w v : Nat) : dotParity w v ≤ 1 := Nat.and_le_right

theorem shift_and_one (v j : Nat) : (v >>> j) &&& 1 = if v.testBit j then 1 else 0 := by
  rw [Nat.and_one_is_mod, Nat.shiftRight_eq_div_pow, Nat.testBit_to_div_mod]
  rcases Nat.mod_two_eq_zero_or_one (v / 2 ^ j) with h | h <;> simp [h]

theorem bitCard_le (k n : Nat) : bitCard k n ≤ k := by
  rw [bitCard]
  calc ((Finset.range k).filter (fun i => n.testBit i)).card
      ≤ (Finset.range k).card := Finset.card_filter_le _ _
    _ = k := Finset.card_range k

/-- Packed mismatch count against the match count of the LAT loop. -/
theorem latCount_pattern (L : List Nat) (F : Nat → Nat)
    (hrange : ∀ x, x < 256 → sboxLk L x < 256)
    (hF8 : ∀ j, j < 8 → ∀ x, x < 256 → (F j).testBit x = (sboxLk L x).testBit j)
    (a b : Nat) (ha : a < 256) (hb : b < 256) :
    latCount L a b + bitCard 256 (patIn a ^^^ patOut F b) = 256 := by
  have hP := patIn_testBit a ha
  have hQ := patOut_testBit L F hrange hF8 b hb
  rw [latCount, countTo_eq_card, bitCard]
  have hfilter : (Finset.range 256).filter (fun x => (patIn a ^^^ patOut F b).testBit x)
      = (Finset.range 256).filter
          (fun x => ¬ ((dotParity a x == dotParity b (sboxLk L x)) = true)) := by
    refine Finset.filter_congr ?_
    intro x hx
    rw [Finset.mem_range] at hx
    rw [Nat.testBit_xor, hP x hx, hQ x hx]
    have h1 := dotParity_le a x
    have h2 := dotParity_le b (sboxLk L x)
    rcases (by omega : dotParity a x = 0 ∨ dotParity a x = 1) with h3 | h3 <;>
      rcases (by omega : dotParity b (sboxLk L x) = 0
        ∨ dotParity b (sboxLk L x) = 1) with h4 | h4 <;>
      simp [h3, h4]
  rw [hfilter]
  have hcard := @Finset.filter_card_add_filter_neg_card_eq_card Nat (Finset.range 256)
    (fun x => (dotParity a x == dotParity b (sboxLk L x)) = true) _ _
  rw [Finset.card_range] at hcard
  omega

theorem rowQ_field (Q : Nat) (hQ : Q < 2 ^ 256) (a : Nat) (ha : a < 256) :
    fieldCount (pTabAll ^^^ (Q * repMul)) a = bitCard 256 (patIn a ^^^ Q) := by
  have hrep : Q * repMul < 2 ^ 65536 := by
    rw [repMul_eq, valL_replicate_smul]
    have h2 := valL_lt 256 (List.replicate 256 Q)
      (by
        intro d hd
        rw [List.eq_of_mem_replicate hd]
        exact hQ)
    rw [List.length_replicate, show (256:Nat) * 256 = 65536 by norm_num] at h2
    exact h2
  have hV : pTabAll ^^^ (Q * repMul) < 2 ^ 65536 := Nat.xor_lt_two_pow pTab_lt hrep
  rw [fieldCount, swar_block_count _ a hV ha, block_xor, pTab_block a ha,
    repl_block Q a hQ ha]
  rfl

/-- The Walsh coefficient through the packed mismatch count. -/
theorem walshAt_pattern (L : List Nat) (F : Nat → Nat)
    (hrange : ∀ x, x < 256 → sboxLk L x < 256)
    (hF8 : ∀ j, j < 8 → ∀ x, x < 256 → (F j).testBit x = (sboxLk L x).testBit j)
    (j w : Nat) (hj : j < 8) (hw : w < 256) :
    walshAt (getBooleanFunction L j) w
      = 256 - 2 * (bitCard 256 (patIn w ^^^ F j) : Int) := by
  have hP := patIn_testBit w hw
  have key : ∀ x, x < 256 →
      ((-1 : Int)) ^ (getBooleanFunction L j x ^^^ dotParity w x)
        = 1 - 2 * (if (patIn w ^^^ F j).testBit x then (1 : Int) else 0) := by
    intro x hx
    rw [Nat.testBit_xor, hP x hx, hF8 j hj x hx, getBooleanFunction]
    show ((-1 : Int)) ^ (((sboxLk L x >>> j) &&& 1) ^^^ dotParity w x) = _
    rw [shift_and_one]
    have h2 := dotParity_le w x
    by_cases hb : (sboxLk L x).testBit j <;>
      rcases (by omega : dotParity w x = 0 ∨ dotParity w x = 1) with h3 | h3 <;>
      simp [hb, h3]
  rw [walshAt, isumTo_eq_sum,
    Finset.sum_congr rfl (fun x hx => key x (Finset.mem_range.mp hx)),
    Finset.sum_sub_distrib, ← Finset.mul_sum, Finset.sum_boole, Finset.sum_const,
    Finset.card_range]
  rw [bitCard]
  push_cast
  ring

theorem latEntry_abs (L : List Nat) (F : Nat → Nat)
    (hrange : ∀ x, x < 256 → sboxLk L x < 256)
    (hF8 : ∀ j, j < 8 → ∀ x, x < 256 → (F j).testBit x = (sboxLk L x).testBit j)
    (a b : Nat) (ha : a < 256) (hb : b < 256) :
    (latEntry L a b).natAbs = dist128 (bitCard 256 (patIn a ^^^ patOut F b)) := by
  have h := latCount_pattern L F hrange hF8 a b ha hb
  rw [latEntry, dist128]
  omega

theorem walshAt_abs (L : List Nat) (F : Nat → Nat)
    (hrange : ∀ x, x < 256 → sboxLk L x < 256)
    (hF8 : ∀ j, j < 8 → ∀ x, x < 256 → (F j).testBit x = (sboxLk L x).testBit j)
    (j w : Nat) (hj : j < 8) (hw : w < 256) :
    (walshAt (getBooleanFunction L j) w).natAbs
      = 2 * dist128 (bitCard 256 (patIn w ^^^ F j)) := by
  rw [walshAt_pattern L F hrange hF8 j w hj hw, dist128]
  have := bitCard_le 256 (patIn w ^^^ F j)
  omega

theorem maxTo_comm (n m : Nat) (g : Nat → Nat → Nat) :
    maxTo n (fun a => maxTo m (fun b => g a b))
      = maxTo m (fun b => maxTo n (fun a => g a b)) := by
  simp only [maxTo_eq_sup]
  exact Finset.sup_comm _ _ _

theorem maxTo_shift (n : Nat) (f : Nat → Nat) :
    maxTo n (fun i => f (i + 1)) = maxTo (n + 1) (fun a => if a = 0 then 0 else f a) := by
  induction n with
  | zero => simp [maxTo]
  | succ n ih =>
    rw [maxTo, ih]
    show max _ (f (n+1)) = max _ (if n + 1 = 0 then 0 else f (n+1))
    rw [if_neg (Nat.succ_ne_zero n)]

theorem minTo_congr {n : Nat} {f g : Nat → Nat} (h : ∀ i < n, f i = g i) :
    minTo n f = minTo n g := by
  induction n with
  | zero => rfl
  | succ n ih =>
    rw [minTo, minTo, ih (fun i hi => h i (Nat.lt_succ_of_lt hi)),
      h n (Nat.lt_succ_self n)]

def fieldOf (W k : Nat) : Nat := (W >>> (256 * k)) &&& (2 ^ 256 - 1)

theorem fieldCount_fieldOf (V k : Nat) : fieldCount V k = fieldOf (swarStages V) k := rfl

/-- Evaluable form of the `maxBias` double loop: row by output mask, one
popcount network pass per row, shared across the 256 field extractions. -/
def lapFast (F : Nat → Nat) : Nat :=
  maxTo 256 (fun b =>
    (fun W =>
      if b = 0 then maxTo 255 (fun i => dist128 (fieldOf W (i + 1)))
      else maxTo 256 (fun a => dist128 (fieldOf W a))) (swarStages (rowV F b)))

theorem lapMaxBias_fast (L : List Nat) (F : Nat → Nat)
    (hrange : ∀ x, x < 256 → sboxLk L x < 256)
    (hF8 : ∀ j, j < 8 → ∀ x, x < 256 → (F j).testBit x = (sboxLk L x).testBit j)
    (hFlt : ∀ j, j < 8 → F j < 2 ^ 256) :
    lapMaxBias L = lapFast F := by
  rw [lapMaxBias, maxTo_comm, lapFast]
  refine maxTo_congr fun b hb => ?_
  show maxTo 256 (fun a => if a = 0 ∧ b = 0 then 0 else (latEntry L a b).natAbs)
    = if b = 0 then maxTo 255 (fun i => dist128 (fieldOf (swarStages (rowV F b)) (i + 1)))
      else maxTo 256 (fun a => dist128 (fieldOf (swarStages (rowV F b)) a))
  by_cases hb0 : b = 0
  · subst hb0
    rw [if_pos rfl,
      maxTo_shift 255 (fun a => dist128 (fieldOf (swarStages (rowV F 0)) a))]
    refine maxTo_congr fun a ha => ?_
    by_cases ha0 : a = 0
    · subst ha0
      rw [if_pos ⟨rfl, rfl⟩, if_pos rfl]
    · rw [if_neg (by simp [ha0]), if_neg ha0,
        latEntry_abs L F hrange hF8 a 0 ha (by omega),
        ← rowV_field F hFlt 0 a ha, fieldCount_fieldOf]
  · rw [if_neg hb0]
    refine maxTo_congr fun a ha => ?_
    rw [if_neg (by simp [hb0]),
      latEntry_abs L F hrange hF8 a b ha (by omega),
      ← rowV_field F hFlt b a ha, fieldCount_fieldOf]

/-- Evaluable form of `calculateNonlinearity`: one popcount network pass
per output bit, shared across the 255 field extractions. -/
def nlFast (F : Nat → Nat) : Nat :=
  minTo 8 (fun j =>
    128 - ((fun W => maxTo 255 (fun i => 2 * dist128 (fieldOf W (i + 1))))
      (swarStages (pTabAll ^^^ (F j * repMul)))) / 2)

theorem calculateNonlinearity_fast (L : List Nat) (F : Nat → Nat)
    (hrange : ∀ x, x < 256 → sboxLk L x < 256)
    (hF8 : ∀ j, j < 8 → ∀ x, x < 256 → (F j).testBit x = (sboxLk L x).testBit j)
    (hFlt : ∀ j, j < 8 → F j < 2 ^ 256) :
    calculateNonlinearity L = nlFast F := by
  rw [calculateNonlinearity, nlFast]
  refine minTo_congr fun j hj => ?_
  show 128 - walshMaxAbs (getBooleanFunction L j) / 2
    = 128 - maxTo 255 (fun i =>
        2 * dist128 (fieldOf (swarStages (pTabAll ^^^ (F j * repMul))) (i + 1))) / 2
  rw [walshMaxAbs]
  have hm : maxTo 255 (fun i => (walshAt (getBooleanFunction L j) (i + 1)).natAbs)
      = maxTo 255 (fun i =>
          2 * dist128 (fieldOf (swarStages (pTabAll ^^^ (F j * repMul))) (i + 1))) := by
    refine maxTo_congr fun i hi => ?_
    rw [walshAt_abs L F hrange hF8 j (i + 1) hj (by omega),
      ← rowQ_field (F j) (hFlt j hj) (i + 1) (by omega), fieldCount_fieldOf]
  rw [hm]

/-! ### More loop-combinator lemmas -/

theorem countTo_congr {n : Nat} {p q : Nat → Bool} (h : ∀ i < n, p i = q i) :
    countTo n p = countTo n q := by
  induction n with
  | zero => rfl
  | succ n ih =>
    rw [countTo, countTo, ih (fun i hi => h i (Nat.lt_succ_of_lt hi)),
      h n (Nat.lt_succ_self n)]

theorem countTo_le (n : Nat) (p : Nat → Bool) : countTo n p ≤ n := by
  induction n with
  | zero => exact Nat.le_refl 0
  | succ n ih =>
    rw [countTo]
    by_cases h : p n
    · rw [if_pos h]; omega
    · rw [if_neg h]; omega

theorem countTo_true (n : Nat) : countTo n (fun _ => true) = n := by
  induction n with
  | zero => rfl
  | succ n ih => rw [countTo, if_pos rfl, ih]

theorem countTo_eq_sumTo (n : Nat) (p : Nat → Bool) :
    countTo n p = sumTo n (fun i => if p i then 1 else 0) := by
  induction n with
  | zero => rfl
  | succ n ih => rw [countTo, sumTo, ih]

theorem isumTo_congr {n : Nat} {f g : Nat → Int} (h : ∀ i < n, f i = g i) :
    isumTo n f = isumTo n g := by
  induction n with
  | zero => rfl
  | succ n ih =>
    rw [isumTo, isumTo, ih (fun i hi => h i (Nat.lt_succ_of_lt hi)),
      h n (Nat.lt_succ_self n)]

theorem qsumTo_congr {n : Nat} {f g : Nat → Rat} (h : ∀ i < n, f i = g i) :
    qsumTo n f = qsumTo n g := by
  induction n with
  | zero => rfl
  | succ n ih =>
    rw [qsumTo, qsumTo, ih (fun i hi => h i (Nat.lt_succ_of_lt hi)),
      h n (Nat.lt_succ_self n)]

theorem anyTo_congr {n : Nat} {p q : Nat → Bool} (h : ∀ i < n, p i = q i) :
    anyTo n p = anyTo n q := by
  induction n with
  | zero => rfl
  | succ n ih =>
    rw [anyTo, anyTo, ih (fun i hi => h i (Nat.lt_succ_of_lt hi)),
      h n (Nat.lt_succ_self n)]

/-! ### Walsh coefficients: mismatch-count form, parity and range -/

theorem neg_one_pow_eq (n : Nat) :
    ((-1 : Int)) ^ n = 1 - 2 * (if n % 2 = 1 then (1 : Int) else 0) := by
  rcases Nat.even_or_odd n with h | h
  · rw [h.neg_one_pow, if_neg (by have := Nat.even_iff.mp h; omega : ¬n % 2 = 1)]
    ring
  · rw [h.neg_one_pow, if_pos (Nat.odd_iff.mp h)]
    ring

/-- The Walsh coefficient as `256 - 2 * (number of mismatches)`. -/
theorem walshAt_eq_count (f : Nat → Nat) (w : Nat) :
    walshAt f w
      = 256 - 2 * (countTo 256 (fun x => (f x ^^^ dotParity w x) % 2 == 1) : Int) := by
  rw [walshAt, isumTo_eq_sum,
    Finset.sum_congr rfl (fun x _ => neg_one_pow_eq (f x ^^^ dotParity w x)),
    Finset.sum_sub_distrib, ← Finset.mul_sum, Finset.sum_boole, Finset.sum_const,
    Finset.card_range, countTo_eq_card]
  have hfc : (Finset.range 256).filter
        (fun x => ((f x ^^^ dotParity w x) % 2 == 1) = true)
      = (Finset.range 256).filter (fun x => (f x ^^^ dotParity w x) % 2 = 1) := by
    refine Finset.filter_congr fun x _ => ?_
    simp
  rw [hfc]
  push_cast
  ring

theorem walshAt_le (f : Nat → Nat) (w : Nat) :
    walshAt f w ≤ 256 := by
  rw [walshAt_eq_count]
  have := countTo_le 256 (fun x => (f x ^^^ dotParity w x) % 2 == 1)
  omega

theorem neg_le_walshAt (f : Nat → Nat) (w : Nat) :
    -256 ≤ walshAt f w := by
  rw [walshAt_eq_count]
  have := countTo_le 256 (fun x => (f x ^^^ dotParity w x) % 2 == 1)
  omega

theorem walshAt_even (f : Nat → Nat) (w : Nat) : Even (walshAt f w) := by
  rw [walshAt_eq_count]
  exact ⟨128 - countTo 256 (fun x => (f x ^^^ dotParity w x) % 2 == 1), by ring⟩

theorem walshAt_natAbs_le (f : Nat → Nat) (w : Nat) :
    (walshAt f w).natAbs ≤ 256 := by
  have h1 := walshAt_le f w
  have h2 := neg_le_walshAt f w
  omega

/-! ### Basic LAT facts -/

theorem dotParity_zero (x : Nat) : dotParity 0 x = 0 := by
  rw [dotParity, Nat.and_zero]
  decide

theorem latCount_le (sbox : List Nat) (a b : Nat) : latCount sbox a b ≤ 256 :=
  countTo_le 256 _

theorem latEntry_natAbs_le (sbox : List Nat) (a b : Nat) :
    (latEntry sbox a b).natAbs ≤ 128 := by
  have := latCount_le sbox a b
  rw [latEntry]
  omega

theorem latCount_zero_zero (sbox : List Nat) : latCount sbox 0 0 = 256 := by
  have h : ∀ x, x < 256 →
      (dotParity 0 x == dotParity 0 (sboxLk sbox x)) = true := by
    intro x _
    rw [dotParity_zero, dotParity_zero]
    rfl
  rw [latCount, countTo_congr h, countTo_true]

theorem latEntry_zero_zero (sbox : List Nat) : latEntry sbox 0 0 = 128 := by
  rw [latEntry, latCount_zero_zero]
  rfl

/-! ### DDT: single-count form, parity, row sums -/

theorem xor_lt_256 {x y : Nat} (hx : x < 256) (hy : y < 256) : x ^^^ y < 256 := by
  have := Nat.xor_lt_two_pow (by omega : x < 2 ^ 8) (by omega : y < 2 ^ 8)
  omega

/-- For `i < 256` the inner scan of the DDT double loop finds exactly the
partner `x ^^^ i`, so each table entry is a single count. -/
theorem ddtEntry_eq_count (sbox : List Nat) (i j : Nat) (hi : i < 256) :
    ddtEntry sbox i j
      = countTo 256 (fun x => sboxLk sbox x ^^^ sboxLk sbox (x ^^^ i) == j) := by
  rw [ddtEntry, countTo_eq_sumTo]
  refine sumTo_congr fun x1 hx1 => ?_
  rw [countTo_eq_card]
  have hmem : x1 ^^^ i ∈ Finset.range 256 :=
    Finset.mem_range.mpr (xor_lt_256 hx1 hi)
  have hset : (Finset.range 256).filter
        (fun x2 => ((x1 ^^^ x2 == i) && (sboxLk sbox x1 ^^^ sboxLk sbox x2 == j)) = true)
      = (Finset.range 256).filter
        (fun x2 => x2 = x1 ^^^ i ∧ sboxLk sbox x1 ^^^ sboxLk sbox x2 = j) := by
    refine Finset.filter_congr fun x2 _ => ?_
    have hx : x1 ^^^ x2 = i ↔ x2 = x1 ^^^ i := by
      constructor
      · intro h; rw [← h, ← Nat.xor_assoc, Nat.xor_self, Nat.zero_xor]
      · intro h; rw [h, ← Nat.xor_assoc, Nat.xor_self, Nat.zero_xor]
    simp [hx]
  rw [hset]
  by_cases hq : sboxLk sbox x1 ^^^ sboxLk sbox (x1 ^^^ i) = j
  · have : (Finset.range 256).filter
          (fun x2 => x2 = x1 ^^^ i ∧ sboxLk sbox x1 ^^^ sboxLk sbox x2 = j)
        = {x1 ^^^ i} := by
      refine Finset.ext fun x2 => ?_
      simp only [Finset.mem_filter, Finset.mem_singleton]
      constructor
      · rintro ⟨_, h, _⟩; exact h
      · rintro rfl; exact ⟨hmem, rfl, hq⟩
    rw [this, Finset.card_singleton, if_pos (by simpa using hq)]
  · have : (Finset.range 256).filter
          (fun x2 => x2 = x1 ^^^ i ∧ sboxLk sbox x1 ^^^ sboxLk sbox x2 = j)
        = ∅ := by
      refine Finset.filter_eq_empty_iff.mpr ?_
      rintro x2 _ ⟨rfl, h⟩
      exact hq h
    rw [this, Finset.card_empty, if_neg (by simpa using hq)]

theorem ddtEntry_le (sbox : List Nat) (i j : Nat) (hi : i < 256) :
    ddtEntry sbox i j ≤ 256 := by
  rw [ddtEntry_eq_count sbox i j hi]
  exact countTo_le 256 _


theorem xor_right_eq_self {x i : Nat} (h : x ^^^ i = x) : i = 0 := by
  have h2 : x ^^^ (x ^^^ i) = x ^^^ x := congrArg (fun t => x ^^^ t) h
  rw [← Nat.xor_assoc, Nat.xor_self, Nat.zero_xor] at h2
  exact h2

/-- Every DDT entry is even: for `i ≠ 0` the solutions pair up under
`x ↦ x ^^^ i`; for `i = 0` the entry is `256` or `0`. -/
theorem ddtEntry_even (sbox : List Nat) (i j : Nat) (hi : i < 256) :
    Even (ddtEntry sbox i j) := by
  rw [ddtEntry_eq_count sbox i j hi, countTo_eq_card]
  by_cases hi0 : i = 0
  · subst hi0
    have hpred : ∀ x : Nat,
        (sboxLk sbox x ^^^ sboxLk sbox (x ^^^ 0) == j) = (0 == j) := by
      intro x
      rw [Nat.xor_zero, Nat.xor_self]
    by_cases hj : (0 == j) = true
    · have : (Finset.range 256).filter
            (fun x => (sboxLk sbox x ^^^ sboxLk sbox (x ^^^ 0) == j) = true)
          = Finset.range 256 :=
        Finset.filter_true_of_mem fun x _ => by rw [hpred]; exact hj
      rw [this, Finset.card_range]
      exact ⟨128, rfl⟩
    · have : (Finset.range 256).filter
            (fun x => (sboxLk sbox x ^^^ sboxLk sbox (x ^^^ 0) == j) = true)
          = ∅ :=
        Finset.filter_eq_empty_iff.mpr fun x _ h => hj (hpred x ▸ h)
      rw [this, Finset.card_empty]
      exact ⟨0, rfl⟩
  · set s := (Finset.range 256).filter
      (fun x => (sboxLk sbox x ^^^ sboxLk sbox (x ^^^ i) == j) = true) with hs
    have hmem_s : ∀ x, x ∈ s ↔ x < 256 ∧ sboxLk sbox x ^^^ sboxLk sbox (x ^^^ i) = j := by
      intro x
      rw [hs]
      simp [Finset.mem_filter]
    have hflip : ∀ x, x ∈ s → x ^^^ i ∈ s := by
      intro x hx
      rcases (hmem_s x).mp hx with ⟨hxlt, hxe⟩
      refine (hmem_s (x ^^^ i)).mpr ⟨xor_lt_256 hxlt hi, ?_⟩
      rw [Nat.xor_assoc, Nat.xor_self, Nat.xor_zero, Nat.xor_comm]
      exact hxe
    have hcard := @Finset.filter_card_add_filter_neg_card_eq_card Nat s
      (fun x => x < x ^^^ i) _ _
    have hbij : (s.filter (fun x => ¬ x < x ^^^ i)).card
        = (s.filter (fun x => x < x ^^^ i)).card := by
      refine Finset.card_nbij (fun x => x ^^^ i) ?_ ?_ ?_
      · intro x hx
        rcases Finset.mem_filter.mp hx with ⟨hxs, hxlt⟩
        have hne : x ^^^ i ≠ x := fun h => hi0 (xor_right_eq_self h)
        have hlt : x ^^^ i < x := by omega
        refine Finset.mem_filter.mpr ⟨hflip x hxs, ?_⟩
        show x ^^^ i < x ^^^ i ^^^ i
        rw [Nat.xor_assoc, Nat.xor_self, Nat.xor_zero]
        exact hlt
      · intro x hx y hy hxy
        have := congrArg (fun t => t ^^^ i) hxy
        simpa [Nat.xor_assoc, Nat.xor_self, Nat.xor_zero] using this
      · intro y hy
        rcases Finset.mem_filter.mp (Finset.mem_coe.mp hy) with ⟨hys, hylt⟩
        refine ⟨y ^^^ i, ?_, ?_⟩
        · have hyy : y ^^^ i ^^^ i = y := by
            rw [Nat.xor_assoc, Nat.xor_self, Nat.xor_zero]
          refine Finset.mem_coe.mpr (Finset.mem_filter.mpr ⟨hflip y hys, ?_⟩)
          show ¬ y ^^^ i < y ^^^ i ^^^ i
          rw [hyy]
          omega
        · show y ^^^ i ^^^ i = y
          rw [Nat.xor_assoc, Nat.xor_self, Nat.xor_zero]
    refine ⟨(s.filter (fun x => x < x ^^^ i)).card, ?_⟩
    omega

/-- Each DDT row sums to 256: every `x` lands in exactly one column. -/
theorem ddt_row_sum (sbox : List Nat) (hrange : ∀ x, x < 256 → sboxLk sbox x < 256)
    (i : Nat) (hi : i < 256) :
    ∑ j ∈ Finset.range 256, ddtEntry sbox i j = 256 := by
  have hcols : ∀ j ∈ Finset.range 256, ddtEntry sbox i j
      = ((Finset.range 256).filter
          (fun x => sboxLk sbox x ^^^ sboxLk sbox (x ^^^ i) = j)).card := by
    intro j _
    rw [ddtEntry_eq_count sbox i j hi, countTo_eq_card]
    congr 1
    refine Finset.filter_congr fun x _ => ?_
    simp
  have hmaps : ∀ x ∈ Finset.range 256,
      (sboxLk sbox x ^^^ sboxLk sbox (x ^^^ i)) ∈ Finset.range 256 := by
    intro x hx
    have hxlt := Finset.mem_range.mp hx
    exact Finset.mem_range.mpr
      (xor_lt_256 (hrange x hxlt) (hrange (x ^^^ i) (xor_lt_256 hxlt hi)))
  have hfib := Finset.card_eq_sum_card_fiberwise hmaps
  rw [Finset.card_range] at hfib
  rw [Finset.sum_congr rfl hcols]
  exact hfib.symm

/-! ### Consequences of being a 256-permutation

A "256-permutation S-box" is a list that is a permutation of
`[0, 1, ..., 255]`, stated as `sbox.Perm (List.range 256)`. -/

theorem perm_length {sbox : List Nat} (hperm : sbox.Perm (List.range 256)) :
    sbox.length = 256 := by
  rw [hperm.length_eq, List.length_range]

theorem perm_lk_lt {sbox : List Nat} (hperm : sbox.Perm (List.range 256)) :
    ∀ x, x < 256 → sboxLk sbox x < 256 := by
  intro x hx
  have hlen : x < sbox.length := by rw [perm_length hperm]; exact hx
  rw [sboxLk, List.getD_eq_getElem _ _ hlen]
  have hm : sbox[x] ∈ sbox := List.getElem_mem hlen
  exact List.mem_range.mp (hperm.mem_iff.mp hm)

theorem perm_nodup {sbox : List Nat} (hperm : sbox.Perm (List.range 256)) :
    sbox.Nodup :=
  hperm.nodup_iff.mpr (List.nodup_range 256)

theorem perm_lk_inj {sbox : List Nat} (hperm : sbox.Perm (List.range 256)) :
    ∀ x1 x2, x1 < 256 → x2 < 256 → sboxLk sbox x1 = sboxLk sbox x2 → x1 = x2 := by
  intro x1 x2 h1 h2 he
  have hl1 : x1 < sbox.length := by rw [perm_length hperm]; exact h1
  have hl2 : x2 < sbox.length := by rw [perm_length hperm]; exact h2
  rw [sboxLk, sboxLk, List.getD_eq_getElem _ _ hl1, List.getD_eq_getElem _ _ hl2] at he
  exact (List.Nodup.getElem_inj_iff (perm_nodup hperm)).mp he

/-- Reindexing a count through the S-box: applying a permutation inside the
counted predicate does not change the count. -/
theorem perm_filter_card {sbox : List Nat} (hperm : sbox.Perm (List.range 256))
    (P : Nat → Prop) [DecidablePred P] :
    ((Finset.range 256).filter (fun x => P (sboxLk sbox x))).card
      = ((Finset.range 256).filter P).card := by
  have himage : ∀ y, y < 256 → ∃ x, x < 256 ∧ sboxLk sbox x = y := by
    intro y hy
    have hmem : y ∈ sbox := hperm.mem_iff.mpr (List.mem_range.mpr hy)
    have hidx := List.indexOf_lt_length.mpr hmem
    refine ⟨sbox.indexOf y, ?_, ?_⟩
    · rw [perm_length hperm] at hidx; exact hidx
    · rw [sboxLk, List.getD_eq_getElem _ _ hidx]
      exact List.getElem_indexOf hidx
  refine Finset.card_nbij (fun x => sboxLk sbox x) ?_ ?_ ?_
  · intro x hx
    rcases Finset.mem_filter.mp hx with ⟨hxr, hP⟩
    exact Finset.mem_filter.mpr
      ⟨Finset.mem_range.mpr (perm_lk_lt hperm x (Finset.mem_range.mp hxr)), hP⟩
  · intro x hx y hy hxy
    rcases Finset.mem_coe.mp hx with hx'
    rcases Finset.mem_coe.mp hy with hy'
    exact perm_lk_inj hperm x y
      (Finset.mem_range.mp (Finset.mem_filter.mp hx').1)
      (Finset.mem_range.mp (Finset.mem_filter.mp hy').1) hxy
  · intro y hy
    rcases Finset.mem_filter.mp (Finset.mem_coe.mp hy) with ⟨hyr, hP⟩
    rcases himage y (Finset.mem_range.mp hyr) with ⟨x, hxlt, hxe⟩
    refine ⟨x, Finset.mem_coe.mpr (Finset.mem_filter.mpr
      ⟨Finset.mem_range.mpr hxlt, ?_⟩), hxe⟩
    rw [hxe]
    exact hP

/-! ### Balance of the nonzero GF(2) linear forms -/

theorem testBit_high {a t : Nat} (ha : a < 256) (hge : 8 ≤ t) : a.testBit t = false := by
  refine Nat.testBit_lt_two_pow ?_
  calc a < 256 := ha
    _ = 2 ^ 8 := by norm_num
    _ ≤ 2 ^ t := Nat.pow_le_pow_right (by omega) hge

theorem bitCard_xor_pow_true (k m t : Nat) (ht : t < k) (hm : m.testBit t = true) :
    bitCard k (m ^^^ 2 ^ t) + 1 = bitCard k m := by
  have hset : (Finset.range k).filter (fun i => (m ^^^ 2 ^ t).testBit i)
      = ((Finset.range k).filter (fun i => m.testBit i)).erase t := by
    refine Finset.ext fun i => ?_
    simp only [Finset.mem_filter, Finset.mem_erase, Finset.mem_range, Nat.testBit_xor]
    by_cases hit : i = t
    · subst hit
      simp [hm, Nat.testBit_two_pow_self]
    · simp [hit, Nat.testBit_two_pow_of_ne (fun h => hit h.symm)]
  rw [bitCard, bitCard, hset,
    Finset.card_erase_of_mem
      (Finset.mem_filter.mpr ⟨Finset.mem_range.mpr ht, hm⟩)]
  have hpos : 0 < ((Finset.range k).filter (fun i => m.testBit i)).card :=
    Finset.card_pos.mpr ⟨t, Finset.mem_filter.mpr ⟨Finset.mem_range.mpr ht, hm⟩⟩
  omega

theorem bitCard_xor_pow_false (k m t : Nat) (ht : t < k) (hm : m.testBit t = false) :
    bitCard k (m ^^^ 2 ^ t) = bitCard k m + 1 := by
  have hset : (Finset.range k).filter (fun i => (m ^^^ 2 ^ t).testBit i)
      = insert t ((Finset.range k).filter (fun i => m.testBit i)) := by
    refine Finset.ext fun i => ?_
    simp only [Finset.mem_filter, Finset.mem_insert, Finset.mem_range, Nat.testBit_xor]
    by_cases hit : i = t
    · subst hit
      simp [hm, Nat.testBit_two_pow_self, ht]
    · simp [hit, Nat.testBit_two_pow_of_ne (fun h => hit h.symm)]
  rw [bitCard, bitCard, hset,
    Finset.card_insert_of_not_mem (fun hmem => ?_)]
  exact absurd (Finset.mem_filter.mp hmem).2 (by rw [hm]; exact Bool.false_ne_true)

/-- Flipping bit `t` of the input flips the parity `dotParity a x`
whenever bit `t` of the mask `a` is set. -/
theorem dotParity_flip (a x t : Nat) (ha : a < 256) (hx : x < 256)
    (ht : a.testBit t = true) : dotParity a (x ^^^ 2 ^ t) ≠ dotParity a x := by
  have htlt : t < 8 := by
    by_contra hge
    rw [testBit_high ha (by omega)] at ht
    exact Bool.false_ne_true ht
  have hxa : (x ^^^ 2 ^ t) &&& a = (x &&& a) ^^^ 2 ^ t := by
    rw [Nat.and_xor_distrib_right]
    congr 1
    refine Nat.eq_of_testBit_eq fun i => ?_
    rw [Nat.testBit_and]
    by_cases hit : i = t
    · subst hit
      rw [Nat.testBit_two_pow_self, ht, Bool.and_true]
    · rw [Nat.testBit_two_pow_of_ne (fun h => hit h.symm), Bool.false_and]
  have hlt1 : x &&& a < 256 := lt_of_le_of_lt Nat.and_le_left hx
  have h2t : (2 : Nat) ^ t < 256 := by
    have h1 : (2:Nat) ^ t ≤ 2 ^ 7 := Nat.pow_le_pow_right (by omega) (by omega)
    have h2 : (2:Nat) ^ 7 = 128 := by norm_num
    omega
  have hlt2 : (x ^^^ 2 ^ t) &&& a < 256 := lt_of_le_of_lt Nat.and_le_left
    (xor_lt_256 hx h2t)
  rw [dotParity, dotParity, hammingWeight_eq_bitCard _ hlt2, hammingWeight_eq_bitCard _ hlt1,
    hxa]
  have hbt : t < 8 := htlt
  by_cases hb : (x &&& a).testBit t = true
  · have := bitCard_xor_pow_true 8 (x &&& a) t hbt hb
    rw [Nat.and_one_is_mod, Nat.and_one_is_mod]
    omega
  · have := bitCard_xor_pow_false 8 (x &&& a) t hbt (Bool.eq_false_iff.mpr hb)
    rw [Nat.and_one_is_mod, Nat.and_one_is_mod]
    omega

/-- A non-zero linear form on 8 bits is balanced: exactly 128 of the 256
inputs give parity 0. -/
theorem dot_balance (a : Nat) (ha : a < 256) (ha0 : a ≠ 0) :
    ((Finset.range 256).filter (fun x => dotParity a x = 0)).card = 128 := by
  obtain ⟨t, ht⟩ : ∃ t, a.testBit t = true := by
    by_contra hall
    push_neg at hall
    exact ha0 (Nat.eq_of_testBit_eq fun i =>
      by rw [Nat.zero_testBit]; exact Bool.eq_false_iff.mpr (fun h => hall i h))
  have htlt : t < 8 := by
    by_contra hge
    rw [testBit_high ha (by omega)] at ht
    exact Bool.false_ne_true ht
  have hplt : (2 : Nat) ^ t < 256 := by
    have h1 : (2:Nat) ^ t ≤ 2 ^ 7 := Nat.pow_le_pow_right (by omega) (by omega)
    have h2 : (2:Nat) ^ 7 = 128 := by norm_num
    omega
  have hxx : ∀ x : Nat, x ^^^ 2 ^ t ^^^ 2 ^ t = x := by
    intro x
    rw [Nat.xor_assoc, Nat.xor_self, Nat.xor_zero]
  have hbij : ((Finset.range 256).filter (fun x => dotParity a x = 0)).card
      = ((Finset.range 256).filter (fun x => ¬ dotParity a x = 0)).card := by
    refine Finset.card_nbij (fun x => x ^^^ 2 ^ t) ?_ ?_ ?_
    · intro x hx
      rcases Finset.mem_filter.mp hx with ⟨hxr, hx0⟩
      have hxr' := Finset.mem_range.mp hxr
      refine Finset.mem_filter.mpr
        ⟨Finset.mem_range.mpr (xor_lt_256 hxr' hplt), ?_⟩
      have hx0' : dotParity a x = 0 := hx0
      have hne := dotParity_flip a x t ha hxr' ht
      show ¬ dotParity a (x ^^^ 2 ^ t) = 0
      omega
    · intro x hx y hy hxy
      have := congrArg (fun u => u ^^^ 2 ^ t) hxy
      simpa [hxx] using this
    · intro y hy
      rcases Finset.mem_filter.mp (Finset.mem_coe.mp hy) with ⟨hyr, hy1⟩
      have hyr' := Finset.mem_range.mp hyr
      refine ⟨y ^^^ 2 ^ t, Finset.mem_coe.mpr (Finset.mem_filter.mpr
        ⟨Finset.mem_range.mpr (xor_lt_256 hyr' hplt), ?_⟩), hxx y⟩
      have hy1' : ¬ dotParity a y = 0 := hy1
      have hflip := dotParity_flip a (y ^^^ 2 ^ t) t ha (xor_lt_256 hyr' hplt) ht
      rw [hxx y] at hflip
      have h1 := dotParity_le a y
      have h2 := dotParity_le a (y ^^^ 2 ^ t)
      show dotParity a (y ^^^ 2 ^ t) = 0
      omega
  have hcard := @Finset.filter_card_add_filter_neg_card_eq_card Nat (Finset.range 256)
    (fun x => dotParity a x = 0) _ _
  rw [Finset.card_range] at hcard
  omega

/-- Column `b = 0` of the LAT of any table: the output parity is
identically zero, so the count is the balanced input-parity count and the
entry vanishes for every non-zero input mask. -/
theorem latEntry_col0 (L : List Nat) (a : Nat) (ha : a < 256) (ha0 : a ≠ 0) :
    (latEntry L a 0).natAbs = 0 := by
  have hcnt : latCount L a 0 = 128 := by
    rw [latCount]
    have hc : ∀ x, x < 256 →
        (dotParity a x == dotParity 0 (sboxLk L x)) = (dotParity a x == 0) := by
      intro x hx
      have h0 : dotParity 0 (sboxLk L x) = 0 := by
        rw [dotParity, Nat.and_zero]
        rfl
      rw [h0]
    rw [countTo_congr hc, countTo_eq_card]
    have hfe : ((Finset.range 256).filter
        (fun i => (dotParity a i == 0) = true)).card
        = ((Finset.range 256).filter (fun x => dotParity a x = 0)).card := by
      refine congrArg Finset.card (Finset.filter_congr fun x _ => ?_)
      simp
    rw [hfe]
    exact dot_balance a ha ha0
  rw [latEntry, hcnt]
  rfl

/-! ### Parity of the linear approximation table of a permutation -/

/-- Every LAT entry of a 256-permutation is even: the agreement count is
`256 - |A| - |B| + 2|A ∩ B|` where `A` (zero input parity) and `B` (zero
output parity) both have 128 or 256 elements. -/
theorem latEntry_even {sbox : List Nat} (hperm : sbox.Perm (List.range 256))
    (a b : Nat) (ha : a < 256) (hb : b < 256) :
    Even (latEntry sbox a b) := by
  have hA0 : ∀ x : Nat, dotParity a x ≤ 1 := fun x => dotParity_le a x
  have hB0 : ∀ x : Nat, dotParity b (sboxLk sbox x) ≤ 1 :=
    fun x => dotParity_le b (sboxLk sbox x)
  have hagr : latCount sbox a b
      = ((Finset.range 256).filter
          (fun x => dotParity a x = dotParity b (sboxLk sbox x))).card := by
    rw [latCount, countTo_eq_card]
    congr 1
    refine Finset.filter_congr fun x _ => ?_
    simp
  have hcellA := @Finset.filter_card_add_filter_neg_card_eq_card Nat
    ((Finset.range 256).filter (fun x => dotParity a x = 0))
    (fun x => dotParity b (sboxLk sbox x) = 0) _ _
  have hcellB := @Finset.filter_card_add_filter_neg_card_eq_card Nat
    ((Finset.range 256).filter (fun x => dotParity b (sboxLk sbox x) = 0))
    (fun x => dotParity a x = 0) _ _
  have hcellN := @Finset.filter_card_add_filter_neg_card_eq_card Nat
    ((Finset.range 256).filter (fun x => ¬ dotParity a x = 0))
    (fun x => dotParity b (sboxLk sbox x) = 0) _ _
  have hcellT := @Finset.filter_card_add_filter_neg_card_eq_card Nat
    (Finset.range 256) (fun x => dotParity a x = 0) _ _
  have hcellG := @Finset.filter_card_add_filter_neg_card_eq_card Nat
    ((Finset.range 256).filter
      (fun x => dotParity a x = dotParity b (sboxLk sbox x)))
    (fun x => dotParity a x = 0) _ _
  rw [Finset.card_range] at hcellT
  rw [Finset.filter_filter, Finset.filter_filter] at hcellA hcellB hcellN hcellG
  -- identify the four cells across the different filter orders
  have e1 : ((Finset.range 256).filter
        (fun x => dotParity b (sboxLk sbox x) = 0 ∧ dotParity a x = 0)).card
      = ((Finset.range 256).filter
        (fun x => dotParity a x = 0 ∧ dotParity b (sboxLk sbox x) = 0)).card := by
    congr 1
    refine Finset.filter_congr fun x _ => ?_
    constructor
    · rintro ⟨h1, h2⟩; exact ⟨h2, h1⟩
    · rintro ⟨h1, h2⟩; exact ⟨h2, h1⟩
  have e2 : ((Finset.range 256).filter
        (fun x => dotParity b (sboxLk sbox x) = 0 ∧ ¬ dotParity a x = 0)).card
      = ((Finset.range 256).filter
        (fun x => ¬ dotParity a x = 0 ∧ dotParity b (sboxLk sbox x) = 0)).card := by
    congr 1
    refine Finset.filter_congr fun x _ => ?_
    constructor
    · rintro ⟨h1, h2⟩; exact ⟨h2, h1⟩
    · rintro ⟨h1, h2⟩; exact ⟨h2, h1⟩
  have e3 : ((Finset.range 256).filter
        (fun x => dotParity a x = dotParity b (sboxLk sbox x)
          ∧ dotParity a x = 0)).card
      = ((Finset.range 256).filter
        (fun x => dotParity a x = 0 ∧ dotParity b (sboxLk sbox x) = 0)).card := by
    congr 1
    refine Finset.filter_congr fun x _ => ?_
    have h1 := hA0 x
    have h2 := hB0 x
    omega
  have e4 : ((Finset.range 256).filter
        (fun x => dotParity a x = dotParity b (sboxLk sbox x)
          ∧ ¬ dotParity a x = 0)).card
      = ((Finset.range 256).filter
        (fun x => ¬ dotParity a x = 0 ∧ ¬ dotParity b (sboxLk sbox x) = 0)).card := by
    congr 1
    refine Finset.filter_congr fun x _ => ?_
    have h1 := hA0 x
    have h2 := hB0 x
    omega
  -- |A| and |B| are 128 or 256
  have hAcard : ((Finset.range 256).filter (fun x => dotParity a x = 0)).card = 128
      ∨ ((Finset.range 256).filter (fun x => dotParity a x = 0)).card = 256 := by
    by_cases ha0 : a = 0
    · subst ha0
      right
      rw [Finset.filter_true_of_mem (fun x _ => dotParity_zero x), Finset.card_range]
    · left
      exact dot_balance a ha ha0
  have hBcard : ((Finset.range 256).filter
        (fun x => dotParity b (sboxLk sbox x) = 0)).card = 128
      ∨ ((Finset.range 256).filter
        (fun x => dotParity b (sboxLk sbox x) = 0)).card = 256 := by
    rw [perm_filter_card hperm (fun y => dotParity b y = 0)]
    by_cases hb0 : b = 0
    · subst hb0
      right
      rw [Finset.filter_true_of_mem (fun x _ => dotParity_zero x), Finset.card_range]
    · left
      exact dot_balance b hb hb0
  rw [latEntry, hagr, Int.even_iff]
  omega

/-! ### The canonical per-bit output patterns of an S-box -/

/-- Bit `x` of `outBits sbox j` is output bit `j` of `sbox[x]`: the packed
truth table of `getBooleanFunction sbox j`. -/
def outBits (sbox : List Nat) (j : Nat) : Nat :=
  valL 1 ((List.range 256).map (fun x => (sboxLk sbox x >>> j) &&& 1))

theorem outBits_digit_lt (sbox : List Nat) (j : Nat) :
    ∀ d ∈ (List.range 256).map (fun x => (sboxLk sbox x >>> j) &&& 1), d < 2 ^ 1 := by
  intro d hd
  rcases List.mem_map.mp hd with ⟨x, _, rfl⟩
  have : (sboxLk sbox x >>> j) &&& 1 ≤ 1 := Nat.and_le_right
  omega

theorem outBits_lt (sbox : List Nat) (j : Nat) : outBits sbox j < 2 ^ 256 := by
  have h := valL_lt 1 _ (outBits_digit_lt sbox j)
  rw [List.length_map, List.length_range] at h
  exact h

theorem outBits_testBit (sbox : List Nat) (j : Nat) :
    ∀ x, x < 256 → (outBits sbox j).testBit x = (sboxLk sbox x).testBit j := by
  intro x hx
  have hlen : x < ((List.range 256).map
      (fun x => (sboxLk sbox x >>> j) &&& 1)).length := by
    rw [List.length_map, List.length_range]
    exact hx
  have hget := valL_getD 1 _ (outBits_digit_lt sbox j) x hlen
  rw [Nat.one_mul, (by norm_num : (2:Nat) ^ 1 - 1 = 1)] at hget
  have hget2 : (outBits sbox j >>> x) &&& 1
      = ((List.range 256).map (fun x => (sboxLk sbox x >>> j) &&& 1)).getD x 0 := hget
  rw [List.getD_eq_getElem _ _ hlen, List.getElem_map, List.getElem_range] at hget2
  rw [shift_and_one, shift_and_one] at hget2
  by_cases h1 : (outBits sbox j).testBit x <;>
    by_cases h2 : (sboxLk sbox x).testBit j <;>
      simp [h1, h2] at hget2 ⊢

/-- Folding the basis patterns over a one-bit mask picks out one pattern. -/
theorem patFold_two_pow (F : Nat → Nat) :
    ∀ k j : Nat, (j < k → patFold F k (2 ^ j) = F j)
      ∧ (k ≤ j → patFold F k (2 ^ j) = 0) := by
  intro k
  induction k with
  | zero =>
    intro j
    exact ⟨fun h => absurd h (Nat.not_lt_zero j), fun _ => rfl⟩
  | succ k ih =>
    intro j
    constructor
    · intro hj
      rw [patFold]
      rcases Nat.lt_succ_iff_lt_or_eq.mp hj with h | rfl
      · rw [(ih j).1 h, Nat.testBit_two_pow_of_ne (by omega : j ≠ k), if_neg
          (by exact Bool.false_ne_true), Nat.xor_zero]
      · rw [(ih j).2 (Nat.le_refl j), Nat.testBit_two_pow_self, if_pos rfl,
          Nat.zero_xor]
    · intro hj
      rw [patFold, (ih j).2 (by omega),
        Nat.testBit_two_pow_of_ne (by omega : j ≠ k), if_neg
          (by exact Bool.false_ne_true), Nat.xor_zero]

theorem patOut_two_pow (F : Nat → Nat) (j : Nat) (hj : j < 8) :
    patOut F (2 ^ j) = F j :=
  (patFold_two_pow F 8 j).1 hj

theorem two_pow_lt_256 {j : Nat} (hj : j < 8) : 2 ^ j < 256 := by
  have h1 : (2:Nat) ^ j ≤ 2 ^ 7 := Nat.pow_le_pow_right (by omega) (by omega)
  have h2 : (2:Nat) ^ 7 = 128 := by norm_num
  omega

/-- The single-output-bit LAT entries are bounded by `128 - NL`. -/
theorem lat_single_bit_bound {sbox : List Nat} (hperm : sbox.Perm (List.range 256))
    (a j : Nat) (ha1 : 1 ≤ a) (ha : a < 256) (hj : j < 8) :
    (latEntry sbox a (2 ^ j)).natAbs ≤ 128 - calculateNonlinearity sbox := by
  have hrange := perm_lk_lt hperm
  have hF8 := outBits_testBit sbox
  have hF8' : ∀ i, i < 8 → ∀ x, x < 256 →
      (outBits sbox i).testBit x = (sboxLk sbox x).testBit i :=
    fun i _ x hx => hF8 i x hx
  have hb : 2 ^ j < 256 := two_pow_lt_256 hj
  have hcnt := latCount_pattern sbox (outBits sbox) hrange hF8' a (2 ^ j) ha hb
  rw [patOut_two_pow _ j hj] at hcnt
  have hwal := walshAt_pattern sbox (outBits sbox) hrange hF8' j a hj ha
  have hlat : latEntry sbox a (2 ^ j) = (latCount sbox a (2 ^ j) : Int) - 128 := rfl
  have hstep : (walshAt (getBooleanFunction sbox j) a).natAbs
      ≤ walshMaxAbs (getBooleanFunction sbox j) := by
    have hi : a - 1 < 255 := by omega
    have h := le_maxTo (fun i => (walshAt (getBooleanFunction sbox j) (i + 1)).natAbs) hi
    have h2 : (walshAt (getBooleanFunction sbox j) (a - 1 + 1)).natAbs
        ≤ walshMaxAbs (getBooleanFunction sbox j) := h
    have ha' : a - 1 + 1 = a := by omega
    rw [ha'] at h2
    exact h2
  have hmaxle : walshMaxAbs (getBooleanFunction sbox j) ≤ 256 :=
    maxTo_le (fun i _ => walshAt_natAbs_le _ _)
  have hnl : calculateNonlinearity sbox
      ≤ 128 - walshMaxAbs (getBooleanFunction sbox j) / 2 :=
    minTo_le (fun bit => 128 - walshMaxAbs (getBooleanFunction sbox bit) / 2) hj
  omega

/-! ### Fast evaluation of the difference distribution table

One DDT row is packed into a single natural number in base `2^9`: digit
`β` of the accumulator is the number of `x` whose output difference is
`β`. -/

theorem valL_append (s : Nat) : ∀ l1 l2 : List Nat,
    valL s (l1 ++ l2) = valL s l1 + 2 ^ (s * l1.length) * valL s l2 := by
  intro l1
  induction l1 with
  | nil =>
    intro l2
    simp [valL]
  | cons d rest ih =>
    intro l2
    rw [List.cons_append, valL, valL, ih, List.length_cons]
    have hp : (2:Nat) ^ (s * (rest.length + 1)) = 2 ^ (s * rest.length) * 2 ^ s := by
      rw [Nat.mul_add, Nat.mul_one, Nat.pow_add]
    rw [hp]
    ring

theorem valL_map_range (s : Nat) (c : Nat → Nat) : ∀ n : Nat,
    valL s ((List.range n).map c) = ∑ β ∈ Finset.range n, c β * 2 ^ (s * β) := by
  intro n
  induction n with
  | zero => simp [valL]
  | succ n ih =>
    rw [List.range_succ, List.map_append, valL_append, ih, Finset.sum_range_succ,
      List.map_singleton, List.length_map, List.length_range]
    simp [valL]
    ring

/-- Grouping a sum of digit weights by the digit value. -/
theorem sumTo_pow_group (g : Nat → Nat) (hg : ∀ x, x < 256 → g x < 256) :
    sumTo 256 (fun x => 2 ^ (9 * g x))
      = valL 9 ((List.range 256).map
          (fun β => ((Finset.range 256).filter (fun x => g x = β)).card)) := by
  rw [valL_map_range, sumTo_eq_sum,
    ← Finset.sum_fiberwise_of_maps_to
      (fun x hx => Finset.mem_range.mpr (hg x (Finset.mem_range.mp hx)))
      (fun x => 2 ^ (9 * g x))]
  refine Finset.sum_congr rfl fun β _ => ?_
  rw [Finset.sum_congr rfl
      (fun x hx => by rw [(Finset.mem_filter.mp hx).2]),
    Finset.sum_const, smul_eq_mul]

/-- One packed DDT row over an arbitrary lookup function. -/
def ddtRowF (lk : Nat → Nat) (i : Nat) : Nat :=
  sumTo 256 (fun x => 2 ^ (9 * (lk x ^^^ lk (x ^^^ i))))

/-- Evaluable form of the `maxDiff` double loop. -/
def dapFast (lk : Nat → Nat) : Nat :=
  maxTo 255 (fun i =>
    (fun W => maxTo 256 (fun j => (W >>> (9 * j)) &&& 511)) (ddtRowF lk (i + 1)))

theorem ddt_digit (L : List Nat) (lk : Nat → Nat)
    (hlk : ∀ x, x < 256 → sboxLk L x = lk x)
    (hrange : ∀ x, x < 256 → sboxLk L x < 256)
    (i j : Nat) (hi : i < 256) (hj : j < 256) :
    ddtEntry L i j = (ddtRowF lk i >>> (9 * j)) &&& 511 := by
  have hg : ∀ x, x < 256 → sboxLk L x ^^^ sboxLk L (x ^^^ i) < 256 :=
    fun x hx => xor_lt_256 (hrange x hx) (hrange _ (xor_lt_256 hx hi))
  have hrow : ddtRowF lk i
      = valL 9 ((List.range 256).map
          (fun β => ((Finset.range 256).filter
            (fun x => sboxLk L x ^^^ sboxLk L (x ^^^ i) = β)).card)) := by
    rw [ddtRowF,
      sumTo_congr (fun x hx => by
        rw [← hlk x hx, ← hlk (x ^^^ i) (xor_lt_256 hx hi)]),
      sumTo_pow_group _ hg]
  have hdig : ∀ d ∈ (List.range 256).map
      (fun β => ((Finset.range 256).filter
        (fun x => sboxLk L x ^^^ sboxLk L (x ^^^ i) = β)).card), d < 2 ^ 9 := by
    intro d hd
    rcases List.mem_map.mp hd with ⟨β, _, rfl⟩
    have h1 := Finset.card_filter_le (Finset.range 256)
      (fun x => sboxLk L x ^^^ sboxLk L (x ^^^ i) = β)
    rw [Finset.card_range] at h1
    omega
  have hlen : j < ((List.range 256).map
      (fun β => ((Finset.range 256).filter
        (fun x => sboxLk L x ^^^ sboxLk L (x ^^^ i) = β)).card)).length := by
    rw [List.length_map, List.length_range]
    exact hj
  have hget := valL_getD 9 _ hdig j hlen
  rw [(by norm_num : (2:Nat) ^ 9 - 1 = 511)] at hget
  rw [hrow, hget, List.getD_eq_getElem _ _ hlen, List.getElem_map,
    List.getElem_range, ddtEntry_eq_count L i j hi, countTo_eq_card]
  congr 1
  refine Finset.filter_congr fun x _ => ?_
  simp

theorem dapMaxDiff_fast (L : List Nat) (lk : Nat → Nat)
    (hlk : ∀ x, x < 256 → sboxLk L x = lk x)
    (hrange : ∀ x, x < 256 → sboxLk L x < 256) :
    dapMaxDiff L = dapFast lk := by
  rw [dapMaxDiff, dapFast]
  refine maxTo_congr fun i hi => ?_
  show maxTo 256 (fun j => ddtEntry L (i + 1) j)
    = maxTo 256 (fun j => (ddtRowF lk (i + 1) >>> (9 * j)) &&& 511)
  refine maxTo_congr fun j hj => ?_
  exact ddt_digit L lk hlk hrange (i + 1) j (by omega) hj

/-- The repeating base-`2^9` mask `valL 9 (replicate 256 1)`, evaluably. -/
def repMul9 : Nat := (2 ^ 2304 - 1) / (2 ^ 9 - 1)

theorem repMul9_eq : repMul9 = valL 9 (List.replicate 256 1) := by
  have hg := geom_repl 9 1 (2 ^ 9 - 1)
    (by
      have := Nat.two_pow_pos 9
      omega) 256
  rw [show (9 : Nat) * 256 = 2304 by norm_num] at hg
  have hq : (2 ^ 9 - 1) * valL 9 (List.replicate 256 1) = 2 ^ 2304 - 1 := by
    omega
  rw [repMul9, ← hq, Nat.mul_comm, Nat.mul_div_cancel _ (by positivity)]

/-- Packed test: every 9-bit digit of a DDT row is below 5. -/
def duRowOk (R : Nat) : Bool :=
  ((R + (2 ^ 8 - 5) * repMul9) &&& (2 ^ 8 * repMul9)) == 0

theorem duRowOk_bound (L : List Nat) (lk : Nat → Nat)
    (hlk : ∀ x, x < 256 → sboxLk L x = lk x)
    (hrange : ∀ x, x < 256 → sboxLk L x < 256)
    (i : Nat) (hi : i < 256) (h : duRowOk (ddtRowF lk i) = true)
    (j : Nat) (hj : j < 256) : ddtEntry L i j ≤ 4 := by
  have hg : ∀ x, x < 256 → sboxLk L x ^^^ sboxLk L (x ^^^ i) < 256 :=
    fun x hx => xor_lt_256 (hrange x hx) (hrange _ (xor_lt_256 hx hi))
  have hrow : ddtRowF lk i
      = valL 9 ((List.range 256).map
          (fun β => ((Finset.range 256).filter
            (fun x => sboxLk L x ^^^ sboxLk L (x ^^^ i) = β)).card)) := by
    rw [ddtRowF,
      sumTo_congr (fun x hx => by
        rw [← hlk x hx, ← hlk (x ^^^ i) (xor_lt_256 hx hi)]),
      sumTo_pow_group _ hg]
  have hlen : ((List.range 256).map
      (fun β => ((Finset.range 256).filter
        (fun x => sboxLk L x ^^^ sboxLk L (x ^^^ i) = β)).card)).length = 256 := by
    rw [List.length_map, List.length_range]
  have hle : ∀ d ∈ (List.range 256).map
      (fun β => ((Finset.range 256).filter
        (fun x => sboxLk L x ^^^ sboxLk L (x ^^^ i) = β)).card), d ≤ 256 := by
    intro d hd
    rcases List.mem_map.mp hd with ⟨β, _, rfl⟩
    have h1 := Finset.card_filter_le (Finset.range 256)
      (fun x => sboxLk L x ^^^ sboxLk L (x ^^^ i) = β)
    rw [Finset.card_range] at h1
    exact h1
  have hbnd : ∀ d ∈ (List.range 256).map
      (fun β => ((Finset.range 256).filter
        (fun x => sboxLk L x ^^^ sboxLk L (x ^^^ i) = β)).card),
      d + (2 ^ 8 - 5) < 2 ^ (8 + 1) := by
    intro d hd
    have h1 := hle d hd
    have h2 : (2 : Nat) ^ 8 = 256 := by norm_num
    have h3 : (2 : Nat) ^ (8 + 1) = 512 := by norm_num
    omega
  have h' : ((ddtRowF lk i + (2 ^ 8 - 5) * repMul9) &&& (2 ^ 8 * repMul9)) = 0 := by
    rwa [duRowOk, beq_iff_eq] at h
  have hmain : ((valL (8 + 1) ((List.range 256).map
      (fun β => ((Finset.range 256).filter
        (fun x => sboxLk L x ^^^ sboxLk L (x ^^^ i) = β)).card))
      + valL (8 + 1) (List.replicate ((List.range 256).map
        (fun β => ((Finset.range 256).filter
          (fun x => sboxLk L x ^^^ sboxLk L (x ^^^ i) = β)).card)).length
        (2 ^ 8 - 5)))
      &&& valL (8 + 1) (List.replicate ((List.range 256).map
        (fun β => ((Finset.range 256).filter
          (fun x => sboxLk L x ^^^ sboxLk L (x ^^^ i) = β)).card)).length
        (2 ^ 8))) = 0 := by
    rw [show (8 + 1 : Nat) = 9 from rfl, hlen, ← valL_replicate_smul,
      ← valL_replicate_smul, ← repMul9_eq, ← hrow]
    exact h'
  have hall := (packed_all_lt 8 5 (by norm_num) _ hbnd).mp hmain
  have hdig : ∀ d ∈ (List.range 256).map
      (fun β => ((Finset.range 256).filter
        (fun x => sboxLk L x ^^^ sboxLk L (x ^^^ i) = β)).card), d < 2 ^ 9 :=
    fun d hd => lt_of_le_of_lt (hle d hd) (by norm_num)
  have hjl : j < ((List.range 256).map
      (fun β => ((Finset.range 256).filter
        (fun x => sboxLk L x ^^^ sboxLk L (x ^^^ i) = β)).card)).length := by
    rw [hlen]
    exact hj
  have hget := valL_getD 9 _ hdig j hjl
  rw [(by norm_num : (2:Nat) ^ 9 - 1 = 511)] at hget
  have hmem : ((List.range 256).map
      (fun β => ((Finset.range 256).filter
        (fun x => sboxLk L x ^^^ sboxLk L (x ^^^ i) = β)).card)).getD j 0
      ∈ (List.range 256).map
        (fun β => ((Finset.range 256).filter
          (fun x => sboxLk L x ^^^ sboxLk L (x ^^^ i) = β)).card) := by
    rw [List.getD_eq_getElem?_getD, List.getElem?_eq_getElem hjl]
    exact List.getElem_mem hjl
  have hval := hall _ hmem
  rw [ddt_digit L lk hlk hrange i j hi hj, hrow, hget]
  omega

/-! ### Fast evaluation of the SAC score and algebraic degree -/

/-- `sacFlipCount` over an arbitrary lookup function. -/
def sacFlipF (lk : Nat → Nat) (inputBit outputBit : Nat) : Nat :=
  countTo 256 (fun x =>
    ((lk x ^^^ lk (x ^^^ (1 <<< inputBit))) >>> outputBit) &&& 1 == 1)

/-- `sacScore` over an arbitrary lookup function. -/
def sacScoreF (lk : Nat → Nat) : Rat :=
  qsumTo 8 (fun i => qsumTo 8 (fun j =>
    |((sacFlipF lk i j : Rat) / 256) - (1 : Rat) / 2|)) / 64

theorem sacScore_fast (L : List Nat) (lk : Nat → Nat)
    (hlk : ∀ x, x < 256 → sboxLk L x = lk x) :
    sacScore L = sacScoreF lk := by
  have h : qsumTo 8 (fun i => qsumTo 8 (fun j =>
        |((sacFlipCount L i j : Rat) / 256) - (1 : Rat) / 2|))
      = qsumTo 8 (fun i => qsumTo 8 (fun j =>
        |((sacFlipF lk i j : Rat) / 256) - (1 : Rat) / 2|)) := by
    refine qsumTo_congr fun i hi => ?_
    refine qsumTo_congr fun j hj => ?_
    have hf : sacFlipCount L i j = sacFlipF lk i j := by
      rw [sacFlipCount, sacFlipF]
      refine countTo_congr fun x hx => ?_
      have hsl : (1 : Nat) <<< i = 2 ^ i := Nat.one_shiftLeft i
      have hxi : x ^^^ (1 <<< i) < 256 := by
        rw [hsl]
        exact xor_lt_256 hx (two_pow_lt_256 hi)
      rw [hlk x hx, hlk (x ^^^ (1 <<< i)) hxi]
    rw [hf]
  rw [sacScore, sacScoreF, h]

/-- Pointwise congruence of the Möbius-transform passes. -/
theorem mobiusSteps_congr (f g : Nat → Nat) (h : ∀ x, x < 256 → f x = g x) :
    ∀ r, r ≤ 8 → ∀ m, m < 256 → mobiusSteps r f m = mobiusSteps r g m := by
  intro r
  induction r with
  | zero => exact fun _ m hm => h m hm
  | succ r ih =>
    intro hr m hm
    have hxm : m ^^^ (1 <<< r) < 256 := by
      rw [Nat.one_shiftLeft]
      exact xor_lt_256 hm (two_pow_lt_256 (by omega))
    rw [mobiusSteps, mobiusSteps, mobiusRound, mobiusRound]
    by_cases hb : m.testBit r
    · rw [if_pos hb, if_pos hb, ih (by omega) m hm, ih (by omega) _ hxm]
    · rw [if_neg hb, if_neg hb, ih (by omega) m hm]

/-- `calculateAlgebraicDegree` over an arbitrary lookup function. -/
def degreeF (lk : Nat → Nat) : Nat :=
  maxTo 8 (fun bit => maxTo 256 (fun term =>
    if mobiusSteps 8 (fun i => (lk i >>> bit) &&& 1) term == 1
    then hammingWeight term else 0))

theorem calculateAlgebraicDegree_fast (L : List Nat) (lk : Nat → Nat)
    (hlk : ∀ x, x < 256 → sboxLk L x = lk x) :
    calculateAlgebraicDegree L = degreeF lk := by
  rw [calculateAlgebraicDegree, degreeF]
  refine maxTo_congr fun bit hbit => ?_
  rw [booleanFunctionDegree]
  refine maxTo_congr fun term hterm => ?_
  have hanf : computeANF (getBooleanFunction L bit) term
      = mobiusSteps 8 (fun i => (lk i >>> bit) &&& 1) term := by
    rw [computeANF]
    exact mobiusSteps_congr _ _
      (fun x hx => by rw [getBooleanFunction, hlk x hx]) 8 (Nat.le_refl 8) term hterm
  rw [hanf]

/-! ### Fast evaluation of the correlation-immunity loop -/

/-- The inner mask scan with the Walsh coefficient replaced by the packed
mismatch count: `W[mask] = 0` iff the count is 128. -/
def ciHasZeroF (P : Nat) (weight : Nat) : Bool :=
  anyTo 256 (fun mask =>
    hammingWeight mask == weight && pcGo 256 (patIn mask ^^^ P) == 128)

/-- The weight loop over an abstract per-weight test. -/
def ciGoF (q : Nat → Bool) : Nat → Nat → Nat → Nat
  | 0, _, ci => ci
  | fuel+1, weight, ci =>
    if q weight then ciGoF q fuel (weight + 1) weight else ci

def ciBitF (P : Nat) : Nat := ciGoF (fun w => ciHasZeroF P w) 8 1 0

/-- `calculateCorrelationImmunity` over per-bit packed truth tables. -/
def ciFast (F : Nat → Nat) : Nat := maxTo 8 (fun bit => ciBitF (F bit))

/-- The inner mask scan with the 256-bit popcount taken by the halving
network instead of the bit-by-bit loop. -/
def ciHasZeroW (P : Nat) (weight : Nat) : Bool :=
  anyTo 256 (fun mask =>
    hammingWeight mask == weight && fieldCount (patIn mask ^^^ P) 0 == 128)

theorem ciGoF_congr (q r : Nat → Bool) (h : ∀ w, q w = r w) :
    ∀ fuel weight ci, ciGoF q fuel weight ci = ciGoF r fuel weight ci := by
  intro fuel
  induction fuel with
  | zero => intro _ _; rfl
  | succ fuel ih =>
    intro weight ci
    rw [ciGoF, ciGoF, h weight]
    by_cases hr : r weight
    · rw [if_pos hr, if_pos hr]
      exact ih (weight + 1) weight
    · rw [if_neg hr, if_neg hr]

theorem ciHasZeroW_eq (P : Nat) (hP : P < 2 ^ 256) (w : Nat) :
    ciHasZeroW P w = ciHasZeroF P w := by
  rw [ciHasZeroW, ciHasZeroF]
  refine anyTo_congr fun mask hmask => ?_
  have hx : patIn mask ^^^ P < 2 ^ 256 := Nat.xor_lt_two_pow (patIn_lt mask) hP
  have hfc : fieldCount (patIn mask ^^^ P) 0 = pcGo 256 (patIn mask ^^^ P) := by
    have hv : patIn mask ^^^ P < 2 ^ 65536 :=
      lt_of_lt_of_le hx (Nat.pow_le_pow_right (by omega) (by omega))
    have hb := swar_block_count (patIn mask ^^^ P) 0 hv (by omega)
    have hm : ((patIn mask ^^^ P) >>> (256 * 0)) &&& (2 ^ 256 - 1)
        = patIn mask ^^^ P := by
      rw [Nat.mul_zero, Nat.shiftRight_zero]
      have h2 := mask_split (patIn mask ^^^ P) 0 hx
      rwa [Nat.mul_zero, Nat.add_zero] at h2
    rw [fieldCount, hb, hm, ← pcGo_eq_bitCard]
  rw [hfc]

def ciBitW (P : Nat) : Nat := ciGoF (fun w => ciHasZeroW P w) 8 1 0

def ciFastW (F : Nat → Nat) : Nat := maxTo 8 (fun bit => ciBitW (F bit))

theorem ciFastW_eq (F : Nat → Nat) (hFlt : ∀ j, j < 8 → F j < 2 ^ 256) :
    ciFast F = ciFastW F := by
  rw [ciFast, ciFastW]
  refine maxTo_congr fun bit hbit => ?_
  rw [ciBitF, ciBitW]
  exact ciGoF_congr _ _
    (fun w => (ciHasZeroW_eq (F bit) (hFlt bit hbit) w).symm) 8 1 0

theorem ciHasZero_fast (L : List Nat) (F : Nat → Nat)
    (hrange : ∀ x, x < 256 → sboxLk L x < 256)
    (hF8 : ∀ j, j < 8 → ∀ x, x < 256 → (F j).testBit x = (sboxLk L x).testBit j)
    (j : Nat) (hj : j < 8) (w : Nat) :
    ciHasZero (getBooleanFunction L j) w = ciHasZeroF (F j) w := by
  rw [ciHasZero, ciHasZeroF]
  refine anyTo_congr fun mask hmask => ?_
  have h2 : (walshAt (getBooleanFunction L j) mask == 0)
      = (pcGo 256 (patIn mask ^^^ F j) == 128) := by
    rw [walshAt_pattern L F hrange hF8 j mask hj hmask, pcGo_eq_bitCard]
    by_cases hm : bitCard 256 (patIn mask ^^^ F j) = 128
    · rw [hm]
      decide
    · have hne : (256 : Int) - 2 * (bitCard 256 (patIn mask ^^^ F j) : Int) ≠ 0 := by
        omega
      rw [beq_eq_false_iff_ne.mpr hne, beq_eq_false_iff_ne.mpr hm]
  rw [h2]

theorem ciGo_congr (f : Nat → Nat) (q : Nat → Bool)
    (hq : ∀ w, ciHasZero f w = q w) :
    ∀ fuel weight ci, ciGo f fuel weight ci = ciGoF q fuel weight ci := by
  intro fuel
  induction fuel with
  | zero => intro _ _; rfl
  | succ fuel ih =>
    intro weight ci
    rw [ciGo, ciGoF, hq weight]
    by_cases h : q weight
    · rw [if_pos h, if_pos h, ih]
    · rw [if_neg h, if_neg h]

theorem calculateCorrelationImmunity_fast (L : List Nat) (F : Nat → Nat)
    (hrange : ∀ x, x < 256 → sboxLk L x < 256)
    (hF8 : ∀ j, j < 8 → ∀ x, x < 256 → (F j).testBit x = (sboxLk L x).testBit j) :
    calculateCorrelationImmunity L = ciFast F := by
  rw [calculateCorrelationImmunity, ciFast]
  refine maxTo_congr fun bit hbit => ?_
  rw [ciBit, ciBitF]
  exact ciGo_congr _ _ (fun w => ciHasZero_fast L F hrange hF8 bit hbit w) 8 1 0

/-! ### The correlation-immunity loop as a greatest contiguous streak -/

/-- Length of the maximal contiguous run of weights starting at `w` that
all pass the per-weight test, capped by the fuel. -/
def strk (f : Nat → Nat) : Nat → Nat → Nat
  | 0, _ => 0
  | fuel+1, w => if ciHasZero f w then strk f fuel (w + 1) + 1 else 0

theorem ciGo_eq_strk (f : Nat → Nat) :
    ∀ fuel c, ciGo f fuel (c + 1) c = c + strk f fuel (c + 1) := by
  intro fuel
  induction fuel with
  | zero => intro c; rfl
  | succ fuel ih =>
    intro c
    rw [ciGo, strk]
    by_cases h : ciHasZero f (c + 1)
    · rw [if_pos h, if_pos h, ih (c + 1)]
      omega
    · rw [if_neg h, if_neg h]
      omega

theorem strk_le (f : Nat → Nat) : ∀ fuel w, strk f fuel w ≤ fuel := by
  intro fuel
  induction fuel with
  | zero => intro _; exact Nat.le_refl 0
  | succ fuel ih =>
    intro w
    rw [strk]
    by_cases h : ciHasZero f w
    · rw [if_pos h]
      have := ih (w + 1)
      omega
    · rw [if_neg h]
      omega

theorem strk_hasZero (f : Nat → Nat) :
    ∀ fuel w i, i < strk f fuel w → ciHasZero f (w + i) = true := by
  intro fuel
  induction fuel with
  | zero => intro w i hi; rw [strk] at hi; omega
  | succ fuel ih =>
    intro w i hi
    rw [strk] at hi
    by_cases h : ciHasZero f w
    · rw [if_pos h] at hi
      rcases i with _ | i'
      · simpa using h
      · have := ih (w + 1) i' (by omega)
        have harr : w + 1 + i' = w + (i' + 1) := by omega
        rw [harr] at this
        exact this
    · rw [if_neg h] at hi
      omega

theorem strk_stops (f : Nat → Nat) :
    ∀ fuel w, strk f fuel w < fuel → ciHasZero f (w + strk f fuel w) = false := by
  intro fuel
  induction fuel with
  | zero => intro w h; omega
  | succ fuel ih =>
    intro w h
    rw [strk] at h ⊢
    by_cases hz : ciHasZero f w
    · rw [if_pos hz] at h ⊢
      have := ih (w + 1) (by omega)
      have harr : w + 1 + strk f fuel (w + 1) = w + (strk f fuel (w + 1) + 1) := by omega
      rw [harr] at this
      exact this
    · rw [if_neg hz] at h ⊢
      rw [Nat.add_zero]
      exact Bool.eq_false_iff.mpr hz

/-- The per-bit value the source loop computes is the greatest `k ≤ 8`
such that every weight `1 .. k` admits a zero Walsh coefficient. -/
theorem ciBit_eq_findGreatest (f : Nat → Nat) :
    ciBit f = Nat.findGreatest
      (fun k => ∀ w, w ≤ k → 1 ≤ w → ciHasZero f w = true) 8 := by
  have hbit : ciBit f = strk f 8 1 := by
    rw [ciBit]
    have := ciGo_eq_strk f 8 0
    rw [Nat.zero_add] at this
    simpa using this
  set s := strk f 8 1 with hs
  have hsle : s ≤ 8 := strk_le f 8 1
  have hP : ∀ w, w ≤ s → 1 ≤ w → ciHasZero f w = true := by
    intro w h2 h1
    have := strk_hasZero f 8 1 (w - 1) (by omega)
    have harr : 1 + (w - 1) = w := by omega
    rw [harr] at this
    exact this
  rw [hbit]
  refine (Nat.findGreatest_eq_iff.mpr ⟨hsle, fun _ => hP, ?_⟩).symm
  intro k hks hk8 hPk
  have hz := hPk (s + 1) (by omega) (by omega)
  have hstop := strk_stops f 8 1 (by omega)
  rw [(by omega : 1 + s = s + 1)] at hstop
  rw [hz] at hstop
  simp at hstop

/-! ### AES-128 core

The repository's AES engine (`aes-visualizer.js`, referenced by
`script.js`) is not present under `src/`, so this section is modelled
from the specification's §4.8 description of the cipher. -/

/-- Modelled from the spec: `xtime(b) = (b<<1) XOR (0x1B if high bit of b
else 0)`, truncated to a byte. -/
def xtime (b : Nat) : Nat :=
  if b.testBit 7 then ((b <<< 1) ^^^ 27) &&& 255 else (b <<< 1) &&& 255

/-- Modelled from the spec: `mul(b,c)` as the standard double-and-add,
one step per bit of the second factor. -/
def mulGo : Nat → Nat → Nat → Nat
  | 0, _, _ => 0
  | k+1, a, b => (if b &&& 1 = 1 then a else 0) ^^^ mulGo k (xtime a) (b >>> 1)

def mul (a b : Nat) : Nat := mulGo 8 a b

theorem xtime_lt (b : Nat) : xtime b < 256 := by
  rw [xtime]
  by_cases h : b.testBit 7
  · rw [if_pos h]
    have : ((b <<< 1) ^^^ 27) &&& 255 ≤ 255 := Nat.and_le_right
    omega
  · rw [if_neg h]
    have : (b <<< 1) &&& 255 ≤ 255 := Nat.and_le_right
    omega

theorem mulGo_lt : ∀ k a b, a < 256 → mulGo k a b < 256 := by
  intro k
  induction k with
  | zero => intro a b _; exact Nat.zero_lt_succ 255
  | succ k ih =>
    intro a b ha
    rw [mulGo]
    refine xor_lt_256 ?_ (ih (xtime a) (b >>> 1) (xtime_lt a))
    by_cases h : b &&& 1 = 1
    · rw [if_pos h]; exact ha
    · rw [if_neg h]; exact Nat.zero_lt_succ 255

theorem mul_lt (a b : Nat) (ha : a < 256) : mul a b < 256 := mulGo_lt 8 a b ha

theorem shiftRight_xor_dist (b c n : Nat) :
    (b ^^^ c) >>> n = (b >>> n) ^^^ (c >>> n) := by
  refine Nat.eq_of_testBit_eq fun i => ?_
  simp [Nat.testBit_shiftRight, Nat.testBit_xor]

theorem xor_swap_inner (u v w : Nat) : u ^^^ (v ^^^ w) = v ^^^ (u ^^^ w) := by
  refine Nat.eq_of_testBit_eq fun i => ?_
  simp only [Nat.testBit_xor]
  rw [← Bool.xor_assoc, Bool.xor_comm (u.testBit i) (v.testBit i), Bool.xor_assoc]

theorem xor4_cancel (u v w : Nat) : (u ^^^ v) ^^^ (u ^^^ w) = v ^^^ w := by
  refine Nat.eq_of_testBit_eq fun i => ?_
  simp only [Nat.testBit_xor]
  cases u.testBit i <;> cases v.testBit i <;> cases w.testBit i <;> rfl

/-- The double-and-add product distributes over XOR in its second factor. -/
theorem mulGo_add_right : ∀ k a b c,
    mulGo k a (b ^^^ c) = mulGo k a b ^^^ mulGo k a c := by
  intro k
  induction k with
  | zero => intro a b c; simp [mulGo]
  | succ k ih =>
    intro a b c
    rw [mulGo, mulGo, mulGo, shiftRight_xor_dist, ih (xtime a) (b >>> 1) (c >>> 1)]
    have hbc : (b ^^^ c) &&& 1 = (b &&& 1) ^^^ (c &&& 1) := Nat.and_xor_distrib_right
    have hb1 : b &&& 1 ≤ 1 := Nat.and_le_right
    have hc1 : c &&& 1 ≤ 1 := Nat.and_le_right
    rcases (by omega : b &&& 1 = 0 ∨ b &&& 1 = 1) with hb | hb <;>
      rcases (by omega : c &&& 1 = 0 ∨ c &&& 1 = 1) with hc | hc
    · rw [if_neg (show ¬ (b ^^^ c) &&& 1 = 1 by rw [hbc, hb, hc]; decide),
        if_neg (by omega : ¬ b &&& 1 = 1), if_neg (by omega : ¬ c &&& 1 = 1)]
      simp only [Nat.zero_xor]
    · rw [if_pos (show (b ^^^ c) &&& 1 = 1 by rw [hbc, hb, hc]; decide),
        if_neg (by omega : ¬ b &&& 1 = 1), if_pos hc]
      simp only [Nat.zero_xor]
      exact xor_swap_inner a (mulGo k (xtime a) (b >>> 1)) (mulGo k (xtime a) (c >>> 1))
    · rw [if_pos (show (b ^^^ c) &&& 1 = 1 by rw [hbc, hb, hc]; decide),
        if_pos hb, if_neg (by omega : ¬ c &&& 1 = 1)]
      simp only [Nat.zero_xor]
      rw [← Nat.xor_assoc]
    · rw [if_neg (show ¬ (b ^^^ c) &&& 1 = 1 by rw [hbc, hb, hc]; decide),
        if_pos hb, if_pos hc]
      simp only [Nat.zero_xor]
      rw [xor4_cancel]

theorem mul_add_right (a b c : Nat) : mul a (b ^^^ c) = mul a b ^^^ mul a c :=
  mulGo_add_right 8 a b c

theorem mul_add4 (K p q r s : Nat) :
    mul K (((p ^^^ q) ^^^ r) ^^^ s)
      = ((mul K p ^^^ mul K q) ^^^ mul K r) ^^^ mul K s := by
  rw [mul_add_right, mul_add_right, mul_add_right]

/-- Modelled from the spec: row 0 of the MixColumns matrix applied to a column. -/
def mix0 (a b c d : Nat) : Nat := mul 2 a ^^^ mul 3 b ^^^ c ^^^ d

/-- Modelled from the spec: row 1 of the MixColumns matrix applied to a column. -/
def mix1 (a b c d : Nat) : Nat := a ^^^ mul 2 b ^^^ mul 3 c ^^^ d

/-- Modelled from the spec: row 2 of the MixColumns matrix applied to a column. -/
def mix2 (a b c d : Nat) : Nat := a ^^^ b ^^^ mul 2 c ^^^ mul 3 d

/-- Modelled from the spec: row 3 of the MixColumns matrix applied to a column. -/
def mix3 (a b c d : Nat) : Nat := mul 3 a ^^^ b ^^^ c ^^^ mul 2 d

/-- Modelled from the spec: row 0 of the InvMixColumns matrix applied to a column. -/
def imix0 (a b c d : Nat) : Nat := mul 14 a ^^^ mul 11 b ^^^ mul 13 c ^^^ mul 9 d

/-- Modelled from the spec: row 1 of the InvMixColumns matrix applied to a column. -/
def imix1 (a b c d : Nat) : Nat := mul 9 a ^^^ mul 14 b ^^^ mul 11 c ^^^ mul 13 d

/-- Modelled from the spec: row 2 of the InvMixColumns matrix applied to a column. -/
def imix2 (a b c d : Nat) : Nat := mul 13 a ^^^ mul 9 b ^^^ mul 14 c ^^^ mul 11 d

/-- Modelled from the spec: row 3 of the InvMixColumns matrix applied to a column. -/
def imix3 (a b c d : Nat) : Nat := mul 11 a ^^^ mul 13 b ^^^ mul 9 c ^^^ mul 14 d

set_option maxHeartbeats 2000000 in
theorem mulP2 : ∀ v, v < 256 → mul 2 v = (mulT2 >>> (8 * v)) &&& 255 := by decide!

set_option maxHeartbeats 2000000 in
theorem mulP3 : ∀ v, v < 256 → mul 3 v = (mulT3 >>> (8 * v)) &&& 255 := by decide!

set_option maxHeartbeats 2000000 in
theorem mulP9 : ∀ v, v < 256 → mul 9 v = (mulT9 >>> (8 * v)) &&& 255 := by decide!

set_option maxHeartbeats 2000000 in
theorem mulP11 : ∀ v, v < 256 → mul 11 v = (mulT11 >>> (8 * v)) &&& 255 := by decide!

set_option maxHeartbeats 2000000 in
theorem mulP13 : ∀ v, v < 256 → mul 13 v = (mulT13 >>> (8 * v)) &&& 255 := by decide!

set_option maxHeartbeats 2000000 in
theorem mulP14 : ∀ v, v < 256 → mul 14 v = (mulT14 >>> (8 * v)) &&& 255 := by decide!

set_option maxHeartbeats 2000000 in
theorem gfP00 : ∀ v, v < 256 → (((((mulT14 >>> (8 * ((mulT2 >>> (8 * v)) &&& 255))) &&& 255)) ^^^ ((mulT11 >>> (8 * v)) &&& 255)) ^^^ ((mulT13 >>> (8 * v)) &&& 255)) ^^^ ((mulT9 >>> (8 * ((mulT3 >>> (8 * v)) &&& 255))) &&& 255) = v := by decide!

theorem gfInv00 : ∀ v, v < 256 → (((mul 14 (mul 2 v)) ^^^ mul 11 v) ^^^ mul 13 v) ^^^ mul 9 (mul 3 v) = v := by
  intro v hv
  have hb2 : (mulT2 >>> (8 * v)) &&& 255 < 256 := land255_lt _
  have hb3 : (mulT3 >>> (8 * v)) &&& 255 < 256 := land255_lt _
  rw [mulP2 v hv, mulP3 v hv, mulP14 ((mulT2 >>> (8 * v)) &&& 255) hb2, mulP9 ((mulT3 >>> (8 * v)) &&& 255) hb3, mulP11 v hv, mulP13 v hv]
  exact gfP00 v hv

set_option maxHeartbeats 2000000 in
theorem gfP01 : ∀ v, v < 256 → (((((mulT14 >>> (8 * ((mulT3 >>> (8 * v)) &&& 255))) &&& 255)) ^^^ ((mulT11 >>> (8 * ((mulT2 >>> (8 * v)) &&& 255))) &&& 255)) ^^^ ((mulT13 >>> (8 * v)) &&& 255)) ^^^ ((mulT9 >>> (8 * v)) &&& 255) = 0 := by decide!

theorem gfInv01 : ∀ v, v < 256 → (((mul 14 (mul 3 v)) ^^^ mul 11 (mul 2 v)) ^^^ mul 13 v) ^^^ mul 9 v = 0 := by
  intro v hv
  have hb2 : (mulT2 >>> (8 * v)) &&& 255 < 256 := land255_lt _
  have hb3 : (mulT3 >>> (8 * v)) &&& 255 < 256 := land255_lt _
  rw [mulP2 v hv, mulP3 v hv, mulP14 ((mulT3 >>> (8 * v)) &&& 255) hb3, mulP11 ((mulT2 >>> (8 * v)) &&& 255) hb2, mulP13 v hv, mulP9 v hv]
  exact gfP01 v hv

set_option maxHeartbeats 2000000 in
theorem gfP02 : ∀ v, v < 256 → (((((mulT14 >>> (8 * v)) &&& 255)) ^^^ ((mulT11 >>> (8 * ((mulT3 >>> (8 * v)) &&& 255))) &&& 255)) ^^^ ((mulT13 >>> (8 * ((mulT2 >>> (8 * v)) &&& 255))) &&& 255)) ^^^ ((mulT9 >>> (8 * v)) &&& 255) = 0 := by decide!

theorem gfInv02 : ∀ v, v < 256 → (((mul 14 v) ^^^ mul 11 (mul 3 v)) ^^^ mul 13 (mul 2 v)) ^^^ mul 9 v = 0 := by
  intro v hv
  have hb2 : (mulT2 >>> (8 * v)) &&& 255 < 256 := land255_lt _
  have hb3 : (mulT3 >>> (8 * v)) &&& 255 < 256 := land255_lt _
  rw [mulP2 v hv, mulP3 v hv, mulP11 ((mulT3 >>> (8 * v)) &&& 255) hb3, mulP13 ((mulT2 >>> (8 * v)) &&& 255) hb2, mulP14 v hv, mulP9 v hv]
  exact gfP02 v hv

set_option maxHeartbeats 2000000 in
theorem gfP03 : ∀ v, v < 256 → (((((mulT14 >>> (8 * v)) &&& 255)) ^^^ ((mulT11 >>> (8 * v)) &&& 255)) ^^^ ((mulT13 >>> (8 * ((mulT3 >>> (8 * v)) &&& 255))) &&& 255)) ^^^ ((mulT9 >>> (8 * ((mulT2 >>> (8 * v)) &&& 255))) &&& 255) = 0 := by decide!

theorem gfInv03 : ∀ v, v < 256 → (((mul 14 v) ^^^ mul 11 v) ^^^ mul 13 (mul 3 v)) ^^^ mul 9 (mul 2 v) = 0 := by
  intro v hv
  have hb2 : (mulT2 >>> (8 * v)) &&& 255 < 256 := land255_lt _
  have hb3 : (mulT3 >>> (8 * v)) &&& 255 < 256 := land255_lt _
  rw [mulP2 v hv, mulP3 v hv, mulP13 ((mulT3 >>> (8 * v)) &&& 255) hb3, mulP9 ((mulT2 >>> (8 * v)) &&& 255) hb2, mulP14 v hv, mulP11 v hv]
  exact gfP03 v hv

set_option maxHeartbeats 2000000 in
theorem gfP10 : ∀ v, v < 256 → (((((mulT9 >>> (8 * ((mulT2 >>> (8 * v)) &&& 255))) &&& 255)) ^^^ ((mulT14 >>> (8 * v)) &&& 255)) ^^^ ((mulT11 >>> (8 * v)) &&& 255)) ^^^ ((mulT13 >>> (8 * ((mulT3 >>> (8 * v)) &&& 255))) &&& 255) = 0 := by decide!

theorem gfInv10 : ∀ v, v < 256 → (((mul 9 (mul 2 v)) ^^^ mul 14 v) ^^^ mul 11 v) ^^^ mul 13 (mul 3 v) = 0 := by
  intro v hv
  have hb2 : (mulT2 >>> (8 * v)) &&& 255 < 256 := land255_lt _
  have hb3 : (mulT3 >>> (8 * v)) &&& 255 < 256 := land255_lt _
  rw [mulP2 v hv, mulP3 v hv, mulP9 ((mulT2 >>> (8 * v)) &&& 255) hb2, mulP13 ((mulT3 >>> (8 * v)) &&& 255) hb3, mulP14 v hv, mulP11 v hv]
  exact gfP10 v hv

set_option maxHeartbeats 2000000 in
theorem gfP11 : ∀ v, v < 256 → (((((mulT9 >>> (8 * ((mulT3 >>> (8 * v)) &&& 255))) &&& 255)) ^^^ ((mulT14 >>> (8 * ((mulT2 >>> (8 * v)) &&& 255))) &&& 255)) ^^^ ((mulT11 >>> (8 * v)) &&& 255)) ^^^ ((mulT13 >>> (8 * v)) &&& 255) = v := by decide!

theorem gfInv11 : ∀ v, v < 256 → (((mul 9 (mul 3 v)) ^^^ mul 14 (mul 2 v)) ^^^ mul 11 v) ^^^ mul 13 v = v := by
  intro v hv
  have hb2 : (mulT2 >>> (8 * v)) &&& 255 < 256 := land255_lt _
  have hb3 : (mulT3 >>> (8 * v)) &&& 255 < 256 := land255_lt _
  rw [mulP2 v hv, mulP3 v hv, mulP9 ((mulT3 >>> (8 * v)) &&& 255) hb3, mulP14 ((mulT2 >>> (8 * v)) &&& 255) hb2, mulP11 v hv, mulP13 v hv]
  exact gfP11 v hv

set_option maxHeartbeats 2000000 in
theorem gfP12 : ∀ v, v < 256 → (((((mulT9 >>> (8 * v)) &&& 255)) ^^^ ((mulT14 >>> (8 * ((mulT3 >>> (8 * v)) &&& 255))) &&& 255)) ^^^ ((mulT11 >>> (8 * ((mulT2 >>> (8 * v)) &&& 255))) &&& 255)) ^^^ ((mulT13 >>> (8 * v)) &&& 255) = 0 := by decide!

theorem gfInv12 : ∀ v, v < 256 → (((mul 9 v) ^^^ mul 14 (mul 3 v)) ^^^ mul 11 (mul 2 v)) ^^^ mul 13 v = 0 := by
  intro v hv
  have hb2 : (mulT2 >>> (8 * v)) &&& 255 < 256 := land255_lt _
  have hb3 : (mulT3 >>> (8 * v)) &&& 255 < 256 := land255_lt _
  rw [mulP2 v hv, mulP3 v hv, mulP14 ((mulT3 >>> (8 * v)) &&& 255) hb3, mulP11 ((mulT2 >>> (8 * v)) &&& 255) hb2, mulP9 v hv, mulP13 v hv]
  exact gfP12 v hv

set_option maxHeartbeats 2000000 in
theorem gfP13 : ∀ v, v < 256 → (((((mulT9 >>> (8 * v)) &&& 255)) ^^^ ((mulT14 >>> (8 * v)) &&& 255)) ^^^ ((mulT11 >>> (8 * ((mulT3 >>> (8 * v)) &&& 255))) &&& 255)) ^^^ ((mulT13 >>> (8 * ((mulT2 >>> (8 * v)) &&& 255))) &&& 255) = 0 := by decide!

theorem gfInv13 : ∀ v, v < 256 → (((mul 9 v) ^^^ mul 14 v) ^^^ mul 11 (mul 3 v)) ^^^ mul 13 (mul 2 v) = 0 := by
  intro v hv
  have hb2 : (mulT2 >>> (8 * v)) &&& 255 < 256 := land255_lt _
  have hb3 : (mulT3 >>> (8 * v)) &&& 255 < 256 := land255_lt _
  rw [mulP2 v hv, mulP3 v hv, mulP11 ((mulT3 >>> (8 * v)) &&& 255) hb3, mulP13 ((mulT2 >>> (8 * v)) &&& 255) hb2, mulP9 v hv, mulP14 v hv]
  exact gfP13 v hv

set_option maxHeartbeats 2000000 in
theorem gfP20 : ∀ v, v < 256 → (((((mulT13 >>> (8 * ((mulT2 >>> (8 * v)) &&& 255))) &&& 255)) ^^^ ((mulT9 >>> (8 * v)) &&& 255)) ^^^ ((mulT14 >>> (8 * v)) &&& 255)) ^^^ ((mulT11 >>> (8 * ((mulT3 >>> (8 * v)) &&& 255))) &&& 255) = 0 := by decide!

theorem gfInv20 : ∀ v, v < 256 → (((mul 13 (mul 2 v)) ^^^ mul 9 v) ^^^ mul 14 v) ^^^ mul 11 (mul 3 v) = 0 := by
  intro v hv
  have hb2 : (mulT2 >>> (8 * v)) &&& 255 < 256 := land255_lt _
  have hb3 : (mulT3 >>> (8 * v)) &&& 255 < 256 := land255_lt _
  rw [mulP2 v hv, mulP3 v hv, mulP13 ((mulT2 >>> (8 * v)) &&& 255) hb2, mulP11 ((mulT3 >>> (8 * v)) &&& 255) hb3, mulP9 v hv, mulP14 v hv]
  exact gfP20 v hv

set_option maxHeartbeats 2000000 in
theorem gfP21 : ∀ v, v < 256 → (((((mulT13 >>> (8 * ((mulT3 >>> (8 * v)) &&& 255))) &&& 255)) ^^^ ((mulT9 >>> (8 * ((mulT2 >>> (8 * v)) &&& 255))) &&& 255)) ^^^ ((mulT14 >>> (8 * v)) &&& 255)) ^^^ ((mulT11 >>> (8 * v)) &&& 255) = 0 := by decide!

theorem gfInv21 : ∀ v, v < 256 → (((mul 13 (mul 3 v)) ^^^ mul 9 (mul 2 v)) ^^^ mul 14 v) ^^^ mul 11 v = 0 := by
  intro v hv
  have hb2 : (mulT2 >>> (8 * v)) &&& 255 < 256 := land255_lt _
  have hb3 : (mulT3 >>> (8 * v)) &&& 255 < 256 := land255_lt _
  rw [mulP2 v hv, mulP3 v hv, mulP13 ((mulT3 >>> (8 * v)) &&& 255) hb3, mulP9 ((mulT2 >>> (8 * v)) &&& 255) hb2, mulP14 v hv, mulP11 v hv]
  exact gfP21 v hv

set_option maxHeartbeats 2000000 in
theorem gfP22 : ∀ v, v < 256 → (((((mulT13 >>> (8 * v)) &&& 255)) ^^^ ((mulT9 >>> (8 * ((mulT3 >>> (8 * v)) &&& 255))) &&& 255)) ^^^ ((mulT14 >>> (8 * ((mulT2 >>> (8 * v)) &&& 255))) &&& 255)) ^^^ ((mulT11 >>> (8 * v)) &&& 255) = v := by decide!

theorem gfInv22 : ∀ v, v < 256 → (((mul 13 v) ^^^ mul 9 (mul 3 v)) ^^^ mul 14 (mul 2 v)) ^^^ mul 11 v = v := by
  intro v hv
  have hb2 : (mulT2 >>> (8 * v)) &&& 255 < 256 := land255_lt _
  have hb3 : (mulT3 >>> (8 * v)) &&& 255 < 256 := land255_lt _
  rw [mulP2 v hv, mulP3 v hv, mulP9 ((mulT3 >>> (8 * v)) &&& 255) hb3, mulP14 ((mulT2 >>> (8 * v)) &&& 255) hb2, mulP13 v hv, mulP11 v hv]
  exact gfP22 v hv

set_option maxHeartbeats 2000000 in
theorem gfP23 : ∀ v, v < 256 → (((((mulT13 >>> (8 * v)) &&& 255)) ^^^ ((mulT9 >>> (8 * v)) &&& 255)) ^^^ ((mulT14 >>> (8 * ((mulT3 >>> (8 * v)) &&& 255))) &&& 255)) ^^^ ((mulT11 >>> (8 * ((mulT2 >>> (8 * v)) &&& 255))) &&& 255) = 0 := by decide!

theorem gfInv23 : ∀ v, v < 256 → (((mul 13 v) ^^^ mul 9 v) ^^^ mul 14 (mul 3 v)) ^^^ mul 11 (mul 2 v) = 0 := by
  intro v hv
  have hb2 : (mulT2 >>> (8 * v)) &&& 255 < 256 := land255_lt _
  have hb3 : (mulT3 >>> (8 * v)) &&& 255 < 256 := land255_lt _
  rw [mulP2 v hv, mulP3 v hv, mulP14 ((mulT3 >>> (8 * v)) &&& 255) hb3, mulP11 ((mulT2 >>> (8 * v)) &&& 255) hb2, mulP13 v hv, mulP9 v hv]
  exact gfP23 v hv

set_option maxHeartbeats 2000000 in
theorem gfP30 : ∀ v, v < 256 → (((((mulT11 >>> (8 * ((mulT2 >>> (8 * v)) &&& 255))) &&& 255)) ^^^ ((mulT13 >>> (8 * v)) &&& 255)) ^^^ ((mulT9 >>> (8 * v)) &&& 255)) ^^^ ((mulT14 >>> (8 * ((mulT3 >>> (8 * v)) &&& 255))) &&& 255) = 0 := by decide!

theorem gfInv30 : ∀ v, v < 256 → (((mul 11 (mul 2 v)) ^^^ mul 13 v) ^^^ mul 9 v) ^^^ mul 14 (mul 3 v) = 0 := by
  intro v hv
  have hb2 : (mulT2 >>> (8 * v)) &&& 255 < 256 := land255_lt _
  have hb3 : (mulT3 >>> (8 * v)) &&& 255 < 256 := land255_lt _
  rw [mulP2 v hv, mulP3 v hv, mulP11 ((mulT2 >>> (8 * v)) &&& 255) hb2, mulP14 ((mulT3 >>> (8 * v)) &&& 255) hb3, mulP13 v hv, mulP9 v hv]
  exact gfP30 v hv

set_option maxHeartbeats 2000000 in
theorem gfP31 : ∀ v, v < 256 → (((((mulT11 >>> (8 * ((mulT3 >>> (8 * v)) &&& 255))) &&& 255)) ^^^ ((mulT13 >>> (8 * ((mulT2 >>> (8 * v)) &&& 255))) &&& 255)) ^^^ ((mulT9 >>> (8 * v)) &&& 255)) ^^^ ((mulT14 >>> (8 * v)) &&& 255) = 0 := by decide!

theorem gfInv31 : ∀ v, v < 256 → (((mul 11 (mul 3 v)) ^^^ mul 13 (mul 2 v)) ^^^ mul 9 v) ^^^ mul 14 v = 0 := by
  intro v hv
  have hb2 : (mulT2 >>> (8 * v)) &&& 255 < 256 := land255_lt _
  have hb3 : (mulT3 >>> (8 * v)) &&& 255 < 256 := land255_lt _
  rw [mulP2 v hv, mulP3 v hv, mulP11 ((mulT3 >>> (8 * v)) &&& 255) hb3, mulP13 ((mulT2 >>> (8 * v)) &&& 255) hb2, mulP9 v hv, mulP14 v hv]
  exact gfP31 v hv

set_option maxHeartbeats 2000000 in
theorem gfP32 : ∀ v, v < 256 → (((((mulT11 >>> (8 * v)) &&& 255)) ^^^ ((mulT13 >>> (8 * ((mulT3 >>> (8 * v)) &&& 255))) &&& 255)) ^^^ ((mulT9 >>> (8 * ((mulT2 >>> (8 * v)) &&& 255))) &&& 255)) ^^^ ((mulT14 >>> (8 * v)) &&& 255) = 0 := by decide!

theorem gfInv32 : ∀ v, v < 256 → (((mul 11 v) ^^^ mul 13 (mul 3 v)) ^^^ mul 9 (mul 2 v)) ^^^ mul 14 v = 0 := by
  intro v hv
  have hb2 : (mulT2 >>> (8 * v)) &&& 255 < 256 := land255_lt _
  have hb3 : (mulT3 >>> (8 * v)) &&& 255 < 256 := land255_lt _
  rw [mulP2 v hv, mulP3 v hv, mulP13 ((mulT3 >>> (8 * v)) &&& 255) hb3, mulP9 ((mulT2 >>> (8 * v)) &&& 255) hb2, mulP11 v hv, mulP14 v hv]
  exact gfP32 v hv

set_option maxHeartbeats 2000000 in
theorem gfP33 : ∀ v, v < 256 → (((((mulT11 >>> (8 * v)) &&& 255)) ^^^ ((mulT13 >>> (8 * v)) &&& 255)) ^^^ ((mulT9 >>> (8 * ((mulT3 >>> (8 * v)) &&& 255))) &&& 255)) ^^^ ((mulT14 >>> (8 * ((mulT2 >>> (8 * v)) &&& 255))) &&& 255) = v := by decide!

theorem gfInv33 : ∀ v, v < 256 → (((mul 11 v) ^^^ mul 13 v) ^^^ mul 9 (mul 3 v)) ^^^ mul 14 (mul 2 v) = v := by
  intro v hv
  have hb2 : (mulT2 >>> (8 * v)) &&& 255 < 256 := land255_lt _
  have hb3 : (mulT3 >>> (8 * v)) &&& 255 < 256 := land255_lt _
  rw [mulP2 v hv, mulP3 v hv, mulP9 ((mulT3 >>> (8 * v)) &&& 255) hb3, mulP14 ((mulT2 >>> (8 * v)) &&& 255) hb2, mulP11 v hv, mulP13 v hv]
  exact gfP33 v hv

instance : Std.Associative (fun a b : Nat => a ^^^ b) := ⟨Nat.xor_assoc⟩

instance : Std.Commutative (fun a b : Nat => a ^^^ b) := ⟨Nat.xor_comm⟩

theorem xor_regroup16 (x00 x01 x02 x03 x10 x11 x12 x13 x20 x21 x22 x23 x30 x31 x32 x33 : Nat) :
    ((((((x00 ^^^ x01) ^^^ x02) ^^^ x03) ^^^ (((x10 ^^^ x11) ^^^ x12) ^^^ x13)) ^^^ (((x20 ^^^ x21) ^^^ x22) ^^^ x23)) ^^^ (((x30 ^^^ x31) ^^^ x32) ^^^ x33))
      = ((((((x00 ^^^ x10) ^^^ x20) ^^^ x30) ^^^ (((x01 ^^^ x11) ^^^ x21) ^^^ x31)) ^^^ (((x02 ^^^ x12) ^^^ x22) ^^^ x32)) ^^^ (((x03 ^^^ x13) ^^^ x23) ^^^ x33)) := by
  ac_rfl

theorem mix0_lt (a b c d : Nat) (ha : a < 256) (hb : b < 256)
    (hc : c < 256) (hd : d < 256) : mix0 a b c d < 256 :=
  xor_lt_256 (xor_lt_256 (xor_lt_256 (mul_lt 2 a (by omega)) (mul_lt 3 b (by omega))) hc) hd

theorem mix1_lt (a b c d : Nat) (ha : a < 256) (hb : b < 256)
    (hc : c < 256) (hd : d < 256) : mix1 a b c d < 256 :=
  xor_lt_256 (xor_lt_256 (xor_lt_256 ha (mul_lt 2 b (by omega))) (mul_lt 3 c (by omega))) hd

theorem mix2_lt (a b c d : Nat) (ha : a < 256) (hb : b < 256)
    (hc : c < 256) (hd : d < 256) : mix2 a b c d < 256 :=
  xor_lt_256 (xor_lt_256 (xor_lt_256 ha hb) (mul_lt 2 c (by omega))) (mul_lt 3 d (by omega))

theorem mix3_lt (a b c d : Nat) (ha : a < 256) (hb : b < 256)
    (hc : c < 256) (hd : d < 256) : mix3 a b c d < 256 :=
  xor_lt_256 (xor_lt_256 (xor_lt_256 (mul_lt 3 a (by omega)) hb) hc) (mul_lt 2 d (by omega))

theorem imix0_lt (a b c d : Nat) (ha : a < 256) (hb : b < 256)
    (hc : c < 256) (hd : d < 256) : imix0 a b c d < 256 :=
  xor_lt_256 (xor_lt_256 (xor_lt_256 (mul_lt 14 a (by omega)) (mul_lt 11 b (by omega))) (mul_lt 13 c (by omega))) (mul_lt 9 d (by omega))

theorem imix1_lt (a b c d : Nat) (ha : a < 256) (hb : b < 256)
    (hc : c < 256) (hd : d < 256) : imix1 a b c d < 256 :=
  xor_lt_256 (xor_lt_256 (xor_lt_256 (mul_lt 9 a (by omega)) (mul_lt 14 b (by omega))) (mul_lt 11 c (by omega))) (mul_lt 13 d (by omega))

theorem imix2_lt (a b c d : Nat) (ha : a < 256) (hb : b < 256)
    (hc : c < 256) (hd : d < 256) : imix2 a b c d < 256 :=
  xor_lt_256 (xor_lt_256 (xor_lt_256 (mul_lt 13 a (by omega)) (mul_lt 9 b (by omega))) (mul_lt 14 c (by omega))) (mul_lt 11 d (by omega))

theorem imix3_lt (a b c d : Nat) (ha : a < 256) (hb : b < 256)
    (hc : c < 256) (hd : d < 256) : imix3 a b c d < 256 :=
  xor_lt_256 (xor_lt_256 (xor_lt_256 (mul_lt 11 a (by omega)) (mul_lt 13 b (by omega))) (mul_lt 9 c (by omega))) (mul_lt 14 d (by omega))

theorem imix_mix0 (a b c d : Nat) (ha : a < 256) (hb : b < 256)
    (hc : c < 256) (hd : d < 256) :
    imix0 (mix0 a b c d) (mix1 a b c d) (mix2 a b c d) (mix3 a b c d) = a := by
  simp only [imix0, mix0, mix1, mix2, mix3]
  rw [mul_add4, mul_add4, mul_add4, mul_add4, xor_regroup16,
    gfInv00 a ha, gfInv01 b hb, gfInv02 c hc, gfInv03 d hd,
    Nat.xor_zero, Nat.xor_zero, Nat.xor_zero]

theorem imix_mix1 (a b c d : Nat) (ha : a < 256) (hb : b < 256)
    (hc : c < 256) (hd : d < 256) :
    imix1 (mix0 a b c d) (mix1 a b c d) (mix2 a b c d) (mix3 a b c d) = b := by
  simp only [imix1, mix0, mix1, mix2, mix3]
  rw [mul_add4, mul_add4, mul_add4, mul_add4, xor_regroup16,
    gfInv10 a ha, gfInv11 b hb, gfInv12 c hc, gfInv13 d hd,
    Nat.zero_xor, Nat.xor_zero, Nat.xor_zero]

theorem imix_mix2 (a b c d : Nat) (ha : a < 256) (hb : b < 256)
    (hc : c < 256) (hd : d < 256) :
    imix2 (mix0 a b c d) (mix1 a b c d) (mix2 a b c d) (mix3 a b c d) = c := by
  simp only [imix2, mix0, mix1, mix2, mix3]
  rw [mul_add4, mul_add4, mul_add4, mul_add4, xor_regroup16,
    gfInv20 a ha, gfInv21 b hb, gfInv22 c hc, gfInv23 d hd,
    Nat.zero_xor, Nat.zero_xor, Nat.xor_zero]

theorem imix_mix3 (a b c d : Nat) (ha : a < 256) (hb : b < 256)
    (hc : c < 256) (hd : d < 256) :
    imix3 (mix0 a b c d) (mix1 a b c d) (mix2 a b c d) (mix3 a b c d) = d := by
  simp only [imix3, mix0, mix1, mix2, mix3]
  rw [mul_add4, mul_add4, mul_add4, mul_add4, xor_regroup16,
    gfInv30 a ha, gfInv31 b hb, gfInv32 c hc, gfInv33 d hd,
    Nat.zero_xor, Nat.zero_xor, Nat.zero_xor]

/-! ### AES-128 state operations (spec §4.8): 4×4 byte state, column-major,
held as a 16-byte list with entry `4*c + r` at row `r`, column `c`. -/

/-- A well-formed state: 16 bytes. -/
def stWF (st : List Nat) : Prop := st.length = 16 ∧ ∀ v ∈ st, v < 256

/-- Modelled from the spec: `SubBytes(state, sbox)`. -/
def subBytesL (sbox st : List Nat) : List Nat := st.map (sboxLk sbox)

/-- Modelled from the spec: the inverse S-box, "derived by inverting the
permutation". -/
def invSBox (sbox : List Nat) : List Nat :=
  (List.range 256).map (fun y => sbox.indexOf y)

/-- Modelled from the spec: `ShiftRows(state)`, row `r` cyclically left by
`r`, column-major indexing. -/
def shiftRowsL : List Nat → List Nat
  | [s0,s1,s2,s3,s4,s5,s6,s7,s8,s9,s10,s11,s12,s13,s14,s15] => [s0,s5,s10,s15,s4,s9,s14,s3,s8,s13,s2,s7,s12,s1,s6,s11]
  | st => st

/-- Modelled from the spec: the inverse of `ShiftRows`. -/
def invShiftRowsL : List Nat → List Nat
  | [s0,s1,s2,s3,s4,s5,s6,s7,s8,s9,s10,s11,s12,s13,s14,s15] => [s0,s13,s10,s7,s4,s1,s14,s11,s8,s5,s2,s15,s12,s9,s6,s3]
  | st => st

/-- Modelled from the spec: `MixColumns(state)`, each column multiplied by
the MDS matrix. -/
def mixColumnsL : List Nat → List Nat
  | [s0,s1,s2,s3,s4,s5,s6,s7,s8,s9,s10,s11,s12,s13,s14,s15] => [mix0 s0 s1 s2 s3,mix1 s0 s1 s2 s3,mix2 s0 s1 s2 s3,mix3 s0 s1 s2 s3,mix0 s4 s5 s6 s7,mix1 s4 s5 s6 s7,mix2 s4 s5 s6 s7,mix3 s4 s5 s6 s7,mix0 s8 s9 s10 s11,mix1 s8 s9 s10 s11,mix2 s8 s9 s10 s11,mix3 s8 s9 s10 s11,mix0 s12 s13 s14 s15,mix1 s12 s13 s14 s15,mix2 s12 s13 s14 s15,mix3 s12 s13 s14 s15]
  | st => st

/-- Modelled from the spec: `InvMixColumns(state)`. -/
def invMixColumnsL : List Nat → List Nat
  | [s0,s1,s2,s3,s4,s5,s6,s7,s8,s9,s10,s11,s12,s13,s14,s15] => [imix0 s0 s1 s2 s3,imix1 s0 s1 s2 s3,imix2 s0 s1 s2 s3,imix3 s0 s1 s2 s3,imix0 s4 s5 s6 s7,imix1 s4 s5 s6 s7,imix2 s4 s5 s6 s7,imix3 s4 s5 s6 s7,imix0 s8 s9 s10 s11,imix1 s8 s9 s10 s11,imix2 s8 s9 s10 s11,imix3 s8 s9 s10 s11,imix0 s12 s13 s14 s15,imix1 s12 s13 s14 s15,imix2 s12 s13 s14 s15,imix3 s12 s13 s14 s15]
  | st => st

/-- Modelled from the spec: `AddRoundKey(state, rk)`, positionwise XOR. -/
def addRoundKeyL (st rk : List Nat) : List Nat :=
  List.zipWith (fun a b => a ^^^ b) st rk

theorem exists16 (st : List Nat) (h : st.length = 16) :
    ∃ s0 s1 s2 s3 s4 s5 s6 s7 s8 s9 s10 s11 s12 s13 s14 s15,
      st = [s0,s1,s2,s3,s4,s5,s6,s7,s8,s9,s10,s11,s12,s13,s14,s15] := by
  rcases st with _ | ⟨s0, st⟩
  · simp at h
  rcases st with _ | ⟨s1, st⟩
  · simp at h
  rcases st with _ | ⟨s2, st⟩
  · simp at h
  rcases st with _ | ⟨s3, st⟩
  · simp at h
  rcases st with _ | ⟨s4, st⟩
  · simp at h
  rcases st with _ | ⟨s5, st⟩
  · simp at h
  rcases st with _ | ⟨s6, st⟩
  · simp at h
  rcases st with _ | ⟨s7, st⟩
  · simp at h
  rcases st with _ | ⟨s8, st⟩
  · simp at h
  rcases st with _ | ⟨s9, st⟩
  · simp at h
  rcases st with _ | ⟨s10, st⟩
  · simp at h
  rcases st with _ | ⟨s11, st⟩
  · simp at h
  rcases st with _ | ⟨s12, st⟩
  · simp at h
  rcases st with _ | ⟨s13, st⟩
  · simp at h
  rcases st with _ | ⟨s14, st⟩
  · simp at h
  rcases st with _ | ⟨s15, st⟩
  · simp at h
  rcases st with _ | ⟨s16, st⟩
  · exact ⟨s0, s1, s2, s3, s4, s5, s6, s7, s8, s9, s10, s11, s12, s13, s14, s15, rfl⟩
  · simp at h

theorem invShift_shift (st : List Nat) (h : st.length = 16) :
    invShiftRowsL (shiftRowsL st) = st := by
  obtain ⟨s0, s1, s2, s3, s4, s5, s6, s7, s8, s9, s10, s11, s12, s13, s14, s15, rfl⟩ := exists16 st h
  rfl

theorem shiftRowsL_wf (st : List Nat) (hwf : stWF st) : stWF (shiftRowsL st) := by
  rcases hwf with ⟨h, hb⟩
  obtain ⟨s0, s1, s2, s3, s4, s5, s6, s7, s8, s9, s10, s11, s12, s13, s14, s15, rfl⟩ := exists16 st h
  have h0 : s0 < 256 := hb s0 (by simp)
  have h1 : s1 < 256 := hb s1 (by simp)
  have h2 : s2 < 256 := hb s2 (by simp)
  have h3 : s3 < 256 := hb s3 (by simp)
  have h4 : s4 < 256 := hb s4 (by simp)
  have h5 : s5 < 256 := hb s5 (by simp)
  have h6 : s6 < 256 := hb s6 (by simp)
  have h7 : s7 < 256 := hb s7 (by simp)
  have h8 : s8 < 256 := hb s8 (by simp)
  have h9 : s9 < 256 := hb s9 (by simp)
  have h10 : s10 < 256 := hb s10 (by simp)
  have h11 : s11 < 256 := hb s11 (by simp)
  have h12 : s12 < 256 := hb s12 (by simp)
  have h13 : s13 < 256 := hb s13 (by simp)
  have h14 : s14 < 256 := hb s14 (by simp)
  have h15 : s15 < 256 := hb s15 (by simp)
  refine ⟨rfl, ?_⟩
  intro v hv
  simp only [shiftRowsL, List.mem_cons, List.not_mem_nil, or_false] at hv
  rcases hv with rfl | rfl | rfl | rfl | rfl | rfl | rfl | rfl | rfl | rfl | rfl | rfl | rfl | rfl | rfl | rfl <;> assumption

theorem mixColumnsL_wf (st : List Nat) (hwf : stWF st) : stWF (mixColumnsL st) := by
  rcases hwf with ⟨h, hb⟩
  obtain ⟨s0, s1, s2, s3, s4, s5, s6, s7, s8, s9, s10, s11, s12, s13, s14, s15, rfl⟩ := exists16 st h
  have h0 : s0 < 256 := hb s0 (by simp)
  have h1 : s1 < 256 := hb s1 (by simp)
  have h2 : s2 < 256 := hb s2 (by simp)
  have h3 : s3 < 256 := hb s3 (by simp)
  have h4 : s4 < 256 := hb s4 (by simp)
  have h5 : s5 < 256 := hb s5 (by simp)
  have h6 : s6 < 256 := hb s6 (by simp)
  have h7 : s7 < 256 := hb s7 (by simp)
  have h8 : s8 < 256 := hb s8 (by simp)
  have h9 : s9 < 256 := hb s9 (by simp)
  have h10 : s10 < 256 := hb s10 (by simp)
  have h11 : s11 < 256 := hb s11 (by simp)
  have h12 : s12 < 256 := hb s12 (by simp)
  have h13 : s13 < 256 := hb s13 (by simp)
  have h14 : s14 < 256 := hb s14 (by simp)
  have h15 : s15 < 256 := hb s15 (by simp)
  refine ⟨rfl, ?_⟩
  intro v hv
  simp only [mixColumnsL, List.mem_cons, List.not_mem_nil, or_false] at hv
  rcases hv with rfl | rfl | rfl | rfl | rfl | rfl | rfl | rfl | rfl | rfl | rfl | rfl | rfl | rfl | rfl | rfl
  · exact mix0_lt s0 s1 s2 s3 h0 h1 h2 h3
  · exact mix1_lt s0 s1 s2 s3 h0 h1 h2 h3
  · exact mix2_lt s0 s1 s2 s3 h0 h1 h2 h3
  · exact mix3_lt s0 s1 s2 s3 h0 h1 h2 h3
  · exact mix0_lt s4 s5 s6 s7 h4 h5 h6 h7
  · exact mix1_lt s4 s5 s6 s7 h4 h5 h6 h7
  · exact mix2_lt s4 s5 s6 s7 h4 h5 h6 h7
  · exact mix3_lt s4 s5 s6 s7 h4 h5 h6 h7
  · exact mix0_lt s8 s9 s10 s11 h8 h9 h10 h11
  · exact mix1_lt s8 s9 s10 s11 h8 h9 h10 h11
  · exact mix2_lt s8 s9 s10 s11 h8 h9 h10 h11
  · exact mix3_lt s8 s9 s10 s11 h8 h9 h10 h11
  · exact mix0_lt s12 s13 s14 s15 h12 h13 h14 h15
  · exact mix1_lt s12 s13 s14 s15 h12 h13 h14 h15
  · exact mix2_lt s12 s13 s14 s15 h12 h13 h14 h15
  · exact mix3_lt s12 s13 s14 s15 h12 h13 h14 h15

theorem invMix_mixL (st : List Nat) (hwf : stWF st) :
    invMixColumnsL (mixColumnsL st) = st := by
  rcases hwf with ⟨h, hb⟩
  obtain ⟨s0, s1, s2, s3, s4, s5, s6, s7, s8, s9, s10, s11, s12, s13, s14, s15, rfl⟩ := exists16 st h
  have h0 : s0 < 256 := hb s0 (by simp)
  have h1 : s1 < 256 := hb s1 (by simp)
  have h2 : s2 < 256 := hb s2 (by simp)
  have h3 : s3 < 256 := hb s3 (by simp)
  have h4 : s4 < 256 := hb s4 (by simp)
  have h5 : s5 < 256 := hb s5 (by simp)
  have h6 : s6 < 256 := hb s6 (by simp)
  have h7 : s7 < 256 := hb s7 (by simp)
  have h8 : s8 < 256 := hb s8 (by simp)
  have h9 : s9 < 256 := hb s9 (by simp)
  have h10 : s10 < 256 := hb s10 (by simp)
  have h11 : s11 < 256 := hb s11 (by simp)
  have h12 : s12 < 256 := hb s12 (by simp)
  have h13 : s13 < 256 := hb s13 (by simp)
  have h14 : s14 < 256 := hb s14 (by simp)
  have h15 : s15 < 256 := hb s15 (by simp)
  show [imix0 (mix0 s0 s1 s2 s3) (mix1 s0 s1 s2 s3) (mix2 s0 s1 s2 s3) (mix3 s0 s1 s2 s3), imix1 (mix0 s0 s1 s2 s3) (mix1 s0 s1 s2 s3) (mix2 s0 s1 s2 s3) (mix3 s0 s1 s2 s3), imix2 (mix0 s0 s1 s2 s3) (mix1 s0 s1 s2 s3) (mix2 s0 s1 s2 s3) (mix3 s0 s1 s2 s3), imix3 (mix0 s0 s1 s2 s3) (mix1 s0 s1 s2 s3) (mix2 s0 s1 s2 s3) (mix3 s0 s1 s2 s3), imix0 (mix0 s4 s5 s6 s7) (mix1 s4 s5 s6 s7) (mix2 s4 s5 s6 s7) (mix3 s4 s5 s6 s7), imix1 (mix0 s4 s5 s6 s7) (mix1 s4 s5 s6 s7) (mix2 s4 s5 s6 s7) (mix3 s4 s5 s6 s7), imix2 (mix0 s4 s5 s6 s7) (mix1 s4 s5 s6 s7) (mix2 s4 s5 s6 s7) (mix3 s4 s5 s6 s7), imix3 (mix0 s4 s5 s6 s7) (mix1 s4 s5 s6 s7) (mix2 s4 s5 s6 s7) (mix3 s4 s5 s6 s7), imix0 (mix0 s8 s9 s10 s11) (mix1 s8 s9 s10 s11) (mix2 s8 s9 s10 s11) (mix3 s8 s9 s10 s11), imix1 (mix0 s8 s9 s10 s11) (mix1 s8 s9 s10 s11) (mix2 s8 s9 s10 s11) (mix3 s8 s9 s10 s11), imix2 (mix0 s8 s9 s10 s11) (mix1 s8 s9 s10 s11) (mix2 s8 s9 s10 s11) (mix3 s8 s9 s10 s11), imix3 (mix0 s8 s9 s10 s11) (mix1 s8 s9 s10 s11) (mix2 s8 s9 s10 s11) (mix3 s8 s9 s10 s11), imix0 (mix0 s12 s13 s14 s15) (mix1 s12 s13 s14 s15) (mix2 s12 s13 s14 s15) (mix3 s12 s13 s14 s15), imix1 (mix0 s12 s13 s14 s15) (mix1 s12 s13 s14 s15) (mix2 s12 s13 s14 s15) (mix3 s12 s13 s14 s15), imix2 (mix0 s12 s13 s14 s15) (mix1 s12 s13 s14 s15) (mix2 s12 s13 s14 s15) (mix3 s12 s13 s14 s15), imix3 (mix0 s12 s13 s14 s15) (mix1 s12 s13 s14 s15) (mix2 s12 s13 s14 s15) (mix3 s12 s13 s14 s15)]
    = [s0,s1,s2,s3,s4,s5,s6,s7,s8,s9,s10,s11,s12,s13,s14,s15]
  rw [imix_mix0 s0 s1 s2 s3 h0 h1 h2 h3,
    imix_mix1 s0 s1 s2 s3 h0 h1 h2 h3,
    imix_mix2 s0 s1 s2 s3 h0 h1 h2 h3,
    imix_mix3 s0 s1 s2 s3 h0 h1 h2 h3,
    imix_mix0 s4 s5 s6 s7 h4 h5 h6 h7,
    imix_mix1 s4 s5 s6 s7 h4 h5 h6 h7,
    imix_mix2 s4 s5 s6 s7 h4 h5 h6 h7,
    imix_mix3 s4 s5 s6 s7 h4 h5 h6 h7,
    imix_mix0 s8 s9 s10 s11 h8 h9 h10 h11,
    imix_mix1 s8 s9 s10 s11 h8 h9 h10 h11,
    imix_mix2 s8 s9 s10 s11 h8 h9 h10 h11,
    imix_mix3 s8 s9 s10 s11 h8 h9 h10 h11,
    imix_mix0 s12 s13 s14 s15 h12 h13 h14 h15,
    imix_mix1 s12 s13 s14 s15 h12 h13 h14 h15,
    imix_mix2 s12 s13 s14 s15 h12 h13 h14 h15,
    imix_mix3 s12 s13 s14 s15 h12 h13 h14 h15]


theorem ark_ark : ∀ st rk : List Nat, st.length ≤ rk.length →
    addRoundKeyL (addRoundKeyL st rk) rk = st := by
  intro st
  induction st with
  | nil => intro rk _; rfl
  | cons a st ih =>
    intro rk hlen
    rcases rk with _ | ⟨b, rk⟩
    · simp at hlen
    · show (a ^^^ b ^^^ b) :: addRoundKeyL (addRoundKeyL st rk) rk = a :: st
      rw [Nat.xor_cancel_right, ih rk (by simpa using hlen)]

theorem ark_wf (st rk : List Nat) (hst : stWF st) (hrk : stWF rk) :
    stWF (addRoundKeyL st rk) := by
  constructor
  · rw [addRoundKeyL, List.length_zipWith, hst.1, hrk.1]
    exact min_self 16
  · have hgen : ∀ l1 l2 : List Nat, (∀ v ∈ l1, v < 256) → (∀ v ∈ l2, v < 256) →
        ∀ v ∈ List.zipWith (fun a b => a ^^^ b) l1 l2, v < 256 := by
      intro l1
      induction l1 with
      | nil => intro l2 _ _ v hv; simp at hv
      | cons a l1 ih =>
        intro l2 h1 h2 v hv
        rcases l2 with _ | ⟨b, l2⟩
        · simp at hv
        · rcases List.mem_cons.mp hv with rfl | hv2
          · exact xor_lt_256 (h1 a (by simp)) (h2 b (by simp))
          · exact ih l2 (fun u hu => h1 u (by simp [hu]))
              (fun u hu => h2 u (by simp [hu])) v hv2
    exact hgen st rk hst.2 hrk.2

theorem subBytesL_wf {sbox : List Nat} (hperm : sbox.Perm (List.range 256))
    (st : List Nat) (hwf : stWF st) : stWF (subBytesL sbox st) := by
  constructor
  · rw [subBytesL, List.length_map, hwf.1]
  · intro v hv
    rcases List.mem_map.mp hv with ⟨u, hu, rfl⟩
    exact perm_lk_lt hperm u (hwf.2 u hu)

theorem invLk_lk {sbox : List Nat} (hperm : sbox.Perm (List.range 256)) :
    ∀ v, v < 256 → sboxLk (invSBox sbox) (sboxLk sbox v) = v := by
  intro v hv
  have hlen : v < sbox.length := by rw [perm_length hperm]; exact hv
  have hy : sboxLk sbox v < 256 := perm_lk_lt hperm v hv
  have hinv : sboxLk (invSBox sbox) (sboxLk sbox v)
      = sbox.indexOf (sboxLk sbox v) := by
    have hl2 : sboxLk sbox v < ((List.range 256).map
        (fun y => sbox.indexOf y)).length := by
      rw [List.length_map, List.length_range]
      exact hy
    rw [invSBox, sboxLk, List.getD_eq_getElem _ _ hl2, List.getElem_map,
      List.getElem_range]
  rw [hinv]
  have hgv : sbox[v] = sboxLk sbox v := by
    rw [sboxLk, List.getD_eq_getElem _ _ hlen]
  have hmem : sboxLk sbox v ∈ sbox := by
    rw [← hgv]
    exact List.getElem_mem hlen
  have hidx := List.indexOf_lt_length.mpr hmem
  have hgetidx : sbox[sbox.indexOf (sboxLk sbox v)] = sboxLk sbox v :=
    List.getElem_indexOf hidx
  exact (List.Nodup.getElem_inj_iff (perm_nodup hperm)).mp (hgetidx.trans hgv.symm)

theorem invSub_sub {sbox : List Nat} (hperm : sbox.Perm (List.range 256))
    (st : List Nat) (hb : ∀ v ∈ st, v < 256) :
    subBytesL (invSBox sbox) (subBytesL sbox st) = st := by
  rw [subBytesL, subBytesL, List.map_map]
  have hpt : ∀ v ∈ st, (sboxLk (invSBox sbox) ∘ sboxLk sbox) v = v :=
    fun v hv => invLk_lk hperm v (hb v hv)
  rw [List.map_congr_left hpt]
  exact List.map_id' st

/-! ### Key expansion (spec §4.8) -/

/-- Modelled from the spec: `SubWord` applies the active S-box byte-wise. -/
def subWord (sbox w : List Nat) : List Nat := w.map (sboxLk sbox)

/-- Modelled from the spec: `RotWord` rotates the four-byte word left by one. -/
def rotWord : List Nat → List Nat
  | [] => []
  | a :: rest => rest ++ [a]

/-- Modelled from the spec: `rc_1 = 1` and `rc_{k+1} = xtime(rc_k)`. -/
def rcPow : Nat → Nat
  | 0 => 1
  | k+1 => xtime (rcPow k)

/-- Modelled from the spec: `Rcon[k] = (rc_k, 0, 0, 0)`. -/
def rconW (k : Nat) : List Nat := [rcPow (k - 1), 0, 0, 0]

/-- Positionwise XOR of two words. -/
def xorW (w1 w2 : List Nat) : List Nat := List.zipWith (fun a b => a ^^^ b) w1 w2

/-- Modelled from the spec: word `i` of the expanded key from the words
built so far (`i = ws.length`): `w[i-4] XOR SubWord(RotWord(w[i-1])) XOR
Rcon[i/4]` when `i mod 4 = 0`, else `w[i-4] XOR w[i-1]`. -/
def nextWord (sbox : List Nat) (ws : List (List Nat)) : List Nat :=
  if ws.length % 4 = 0 then
    xorW (xorW (ws.getD (ws.length - 4) [])
      (subWord sbox (rotWord (ws.getD (ws.length - 1) []))))
      (rconW (ws.length / 4))
  else xorW (ws.getD (ws.length - 4) []) (ws.getD (ws.length - 1) [])

def ksGo (sbox : List Nat) : Nat → List (List Nat) → List (List Nat)
  | 0, ws => ws
  | n+1, ws => ksGo sbox n (ws ++ [nextWord sbox ws])

/-- Modelled from the spec: `KeyExpansion(key, sbox)` as 44 words of 4
bytes, the first four straight from the key. -/
def keyWords (sbox key : List Nat) : List (List Nat) :=
  ksGo sbox 40
    [key.take 4, (key.drop 4).take 4, (key.drop 8).take 4, (key.drop 12).take 4]

/-- Modelled from the spec: round key `r` is words `4r .. 4r+3`. -/
def roundKey (sbox key : List Nat) (r : Nat) : List Nat :=
  (keyWords sbox key).getD (4*r) [] ++ (keyWords sbox key).getD (4*r+1) []
    ++ (keyWords sbox key).getD (4*r+2) [] ++ (keyWords sbox key).getD (4*r+3) []

/-- A well-formed schedule word: 4 bytes. -/
def wordWF (w : List Nat) : Prop := w.length = 4 ∧ ∀ v ∈ w, v < 256

theorem zipXor_bytes : ∀ l1 l2 : List Nat, (∀ v ∈ l1, v < 256) →
    (∀ v ∈ l2, v < 256) →
    ∀ v ∈ List.zipWith (fun a b => a ^^^ b) l1 l2, v < 256 := by
  intro l1
  induction l1 with
  | nil => intro l2 _ _ v hv; simp at hv
  | cons a l1 ih =>
    intro l2 h1 h2 v hv
    rcases l2 with _ | ⟨b, l2⟩
    · simp at hv
    · rcases List.mem_cons.mp hv with rfl | hv2
      · exact xor_lt_256 (h1 a (by simp)) (h2 b (by simp))
      · exact ih l2 (fun u hu => h1 u (by simp [hu]))
          (fun u hu => h2 u (by simp [hu])) v hv2

theorem xorW_wf {w1 w2 : List Nat} (h1 : wordWF w1) (h2 : wordWF w2) :
    wordWF (xorW w1 w2) := by
  constructor
  · rw [xorW, List.length_zipWith, h1.1, h2.1]
    exact min_self 4
  · exact zipXor_bytes w1 w2 h1.2 h2.2

theorem rcPow_lt : ∀ k, rcPow k < 256 := by
  intro k
  induction k with
  | zero => decide
  | succ k _ => exact xtime_lt (rcPow k)

theorem rconW_wf (k : Nat) : wordWF (rconW k) := by
  refine ⟨rfl, ?_⟩
  intro v hv
  rcases List.mem_cons.mp hv with rfl | hv2
  · exact rcPow_lt (k - 1)
  · simp only [List.mem_cons, List.not_mem_nil, or_false] at hv2
    rcases hv2 with rfl | rfl | rfl <;> omega

theorem subWord_wf {sbox : List Nat} (hperm : sbox.Perm (List.range 256))
    {w : List Nat} (hw : wordWF w) : wordWF (subWord sbox w) := by
  constructor
  · rw [subWord, List.length_map, hw.1]
  · intro v hv
    rcases List.mem_map.mp hv with ⟨u, hu, rfl⟩
    exact perm_lk_lt hperm u (hw.2 u hu)

theorem rotWord_wf {w : List Nat} (hw : wordWF w) : wordWF (rotWord w) := by
  rcases w with _ | ⟨a, rest⟩
  · exact hw
  · constructor
    · rw [rotWord, List.length_append, List.length_singleton]
      have := hw.1
      rw [List.length_cons] at this
      omega
    · intro v hv
      rw [rotWord] at hv
      rcases List.mem_append.mp hv with hv2 | hv2
      · exact hw.2 v (by simp [hv2])
      · simp only [List.mem_singleton] at hv2
        subst hv2
        exact hw.2 v (by simp)

theorem getD_word_mem {ws : List (List Nat)} {i : Nat} (hi : i < ws.length) :
    ws.getD i [] ∈ ws := by
  rw [List.getD_eq_getElem _ _ hi]
  exact List.getElem_mem hi

theorem nextWord_wf {sbox : List Nat} (hperm : sbox.Perm (List.range 256))
    {ws : List (List Nat)} (hlen : 4 ≤ ws.length)
    (hws : ∀ w ∈ ws, wordWF w) : wordWF (nextWord sbox ws) := by
  have h4 : ws.length - 4 < ws.length := by omega
  have h1 : ws.length - 1 < ws.length := by omega
  have hw4 := hws _ (getD_word_mem h4)
  have hw1 := hws _ (getD_word_mem h1)
  rw [nextWord]
  by_cases hmod : ws.length % 4 = 0
  · rw [if_pos hmod]
    exact xorW_wf (xorW_wf hw4 (subWord_wf hperm (rotWord_wf hw1)))
      (rconW_wf (ws.length / 4))
  · rw [if_neg hmod]
    exact xorW_wf hw4 hw1

theorem ksGo_wf {sbox : List Nat} (hperm : sbox.Perm (List.range 256)) :
    ∀ n (ws : List (List Nat)), 4 ≤ ws.length → (∀ w ∈ ws, wordWF w) →
    ∀ w ∈ ksGo sbox n ws, wordWF w := by
  intro n
  induction n with
  | zero => intro ws _ hws; exact hws
  | succ n ih =>
    intro ws hlen hws
    rw [ksGo]
    refine ih (ws ++ [nextWord sbox ws]) ?_ ?_
    · rw [List.length_append, List.length_singleton]
      omega
    · intro w hw
      rcases List.mem_append.mp hw with hw2 | hw2
      · exact hws w hw2
      · simp only [List.mem_singleton] at hw2
        subst hw2
        exact nextWord_wf hperm hlen hws

theorem ksGo_length (sbox : List Nat) :
    ∀ n (ws : List (List Nat)), (ksGo sbox n ws).length = ws.length + n := by
  intro n
  induction n with
  | zero => intro ws; rfl
  | succ n ih =>
    intro ws
    rw [ksGo, ih, List.length_append, List.length_singleton]
    omega

theorem keyWords_wf {sbox key : List Nat} (hperm : sbox.Perm (List.range 256))
    (hkl : key.length = 16) (hkb : ∀ v ∈ key, v < 256) :
    ∀ w ∈ keyWords sbox key, wordWF w := by
  refine ksGo_wf hperm 40 _ (by simp) ?_
  intro w hw
  have htake : ∀ n : Nat, n ≤ 12 → wordWF ((key.drop n).take 4) := by
    intro n hn
    constructor
    · rw [List.length_take, List.length_drop, hkl]
      exact Nat.min_eq_left (by omega)
    · intro v hv
      exact hkb v (List.mem_of_mem_drop (List.mem_of_mem_take hv))
  simp only [List.mem_cons, List.not_mem_nil, or_false] at hw
  rcases hw with rfl | rfl | rfl | rfl
  · constructor
    · rw [List.length_take, hkl]
      exact Nat.min_eq_left (by omega)
    · intro v hv
      exact hkb v (List.mem_of_mem_take hv)
  · exact htake 4 (by omega)
  · exact htake 8 (by omega)
  · exact htake 12 (by omega)

theorem keyWords_length (sbox key : List Nat) :
    (keyWords sbox key).length = 44 := by
  rw [keyWords, ksGo_length]
  rfl

theorem roundKey_wf {sbox key : List Nat} (hperm : sbox.Perm (List.range 256))
    (hkl : key.length = 16) (hkb : ∀ v ∈ key, v < 256)
    (r : Nat) (hr : r ≤ 10) : stWF (roundKey sbox key r) := by
  have hlen := keyWords_length sbox key
  have hwf := keyWords_wf hperm hkl hkb
  have h0 := hwf _ (getD_word_mem (by omega : 4*r < (keyWords sbox key).length))
  have h1 := hwf _ (getD_word_mem (by omega : 4*r+1 < (keyWords sbox key).length))
  have h2 := hwf _ (getD_word_mem (by omega : 4*r+2 < (keyWords sbox key).length))
  have h3 := hwf _ (getD_word_mem (by omega : 4*r+3 < (keyWords sbox key).length))
  constructor
  · rw [roundKey, List.length_append, List.length_append, List.length_append,
      h0.1, h1.1, h2.1, h3.1]
  · intro v hv
    rw [roundKey] at hv
    rcases List.mem_append.mp hv with hv2 | hv2
    · rcases List.mem_append.mp hv2 with hv3 | hv3
      · rcases List.mem_append.mp hv3 with hv4 | hv4
        · exact h0.2 v hv4
        · exact h1.2 v hv4
      · exact h2.2 v hv3
    · exact h3.2 v hv2

/-! ### The cipher and its round trip -/

/-- Modelled from the spec: one forward round
`SubBytes → ShiftRows → MixColumns → AddRoundKey(rk_r)`. -/
def encRound (sbox rk st : List Nat) : List Nat :=
  addRoundKeyL (mixColumnsL (shiftRowsL (subBytesL sbox st))) rk

/-- Rounds `1 .. n` of the forward cipher. -/
def encRounds (sbox key : List Nat) : Nat → List Nat → List Nat
  | 0, st => st
  | n+1, st => encRound sbox (roundKey sbox key (n+1)) (encRounds sbox key n st)

/-- Modelled from the spec: the forward cipher `AddRoundKey(rk0)`, nine
full rounds, then `SubBytes → ShiftRows → AddRoundKey(rk10)`. -/
def encryptBlock (pt key sbox : List Nat) : List Nat :=
  addRoundKeyL (shiftRowsL (subBytesL sbox
    (encRounds sbox key 9 (addRoundKeyL pt (roundKey sbox key 0)))))
    (roundKey sbox key 10)

/-- The decryption loop for `r = n .. 1`:
`InvShiftRows → InvSubBytes → AddRoundKey(rk_r) → InvMixColumns`. -/
def decRounds (sbox key : List Nat) : Nat → List Nat → List Nat
  | 0, st => st
  | n+1, st => decRounds sbox key n (invMixColumnsL (addRoundKeyL
      (subBytesL (invSBox sbox) (invShiftRowsL st)) (roundKey sbox key (n+1))))

/-- Modelled from the spec: the inverse cipher `AddRoundKey(rk10)`, the
loop for `r = 9 .. 1`, then `InvShiftRows → InvSubBytes → AddRoundKey(rk0)`. -/
def decryptBlock (ct key sbox : List Nat) : List Nat :=
  addRoundKeyL (subBytesL (invSBox sbox) (invShiftRowsL
    (decRounds sbox key 9 (addRoundKeyL ct (roundKey sbox key 10)))))
    (roundKey sbox key 0)

theorem encRound_wf {sbox key : List Nat} (hperm : sbox.Perm (List.range 256))
    (hkl : key.length = 16) (hkb : ∀ v ∈ key, v < 256)
    {r : Nat} (hr : r ≤ 10) {st : List Nat} (hst : stWF st) :
    stWF (encRound sbox (roundKey sbox key r) st) :=
  ark_wf _ _ (mixColumnsL_wf _ (shiftRowsL_wf _ (subBytesL_wf hperm _ hst)))
    (roundKey_wf hperm hkl hkb r hr)

theorem encRounds_wf {sbox key : List Nat} (hperm : sbox.Perm (List.range 256))
    (hkl : key.length = 16) (hkb : ∀ v ∈ key, v < 256) :
    ∀ n, n ≤ 9 → ∀ st, stWF st → stWF (encRounds sbox key n st) := by
  intro n
  induction n with
  | zero => intro _ st hst; exact hst
  | succ n ih =>
    intro hn st hst
    rw [encRounds]
    exact encRound_wf hperm hkl hkb (by omega) (ih (by omega) st hst)

theorem decRounds_encRounds {sbox key : List Nat}
    (hperm : sbox.Perm (List.range 256))
    (hkl : key.length = 16) (hkb : ∀ v ∈ key, v < 256) :
    ∀ n, n ≤ 9 → ∀ st, stWF st →
    decRounds sbox key n (shiftRowsL (subBytesL sbox (encRounds sbox key n st)))
      = shiftRowsL (subBytesL sbox st) := by
  intro n
  induction n with
  | zero => intro _ st _; rfl
  | succ n ih =>
    intro hn st hst
    have hmid : stWF (encRounds sbox key n st) :=
      encRounds_wf hperm hkl hkb n (by omega) st hst
    have hrk : stWF (roundKey sbox key (n+1)) :=
      roundKey_wf hperm hkl hkb (n+1) (by omega)
    have hY : stWF (encRounds sbox key (n+1) st) := by
      rw [encRounds]
      exact encRound_wf hperm hkl hkb (by omega) hmid
    have hSBlen : (subBytesL sbox (encRounds sbox key (n+1) st)).length = 16 :=
      (subBytesL_wf hperm _ hY).1
    have hMC : stWF (mixColumnsL (shiftRowsL (subBytesL sbox
        (encRounds sbox key n st)))) :=
      mixColumnsL_wf _ (shiftRowsL_wf _ (subBytesL_wf hperm _ hmid))
    rw [decRounds, invShift_shift _ hSBlen,
      invSub_sub hperm _ hY.2]
    rw [show encRounds sbox key (n+1) st
      = encRound sbox (roundKey sbox key (n+1)) (encRounds sbox key n st) from rfl]
    rw [encRound, ark_ark _ _ (by rw [hMC.1, hrk.1])]
    rw [invMix_mixL _ (shiftRowsL_wf _ (subBytesL_wf hperm _ hmid))]
    exact ih (by omega) st hst

/-- The spec's round-trip law: decryption inverts encryption for every
256-permutation S-box, 16-byte key and 16-byte plaintext. -/
theorem decrypt_encrypt {sbox key pt : List Nat}
    (hperm : sbox.Perm (List.range 256))
    (hkl : key.length = 16) (hkb : ∀ v ∈ key, v < 256)
    (hpl : pt.length = 16) (hpb : ∀ v ∈ pt, v < 256) :
    decryptBlock (encryptBlock pt key sbox) key sbox = pt := by
  have hrk0 : stWF (roundKey sbox key 0) := roundKey_wf hperm hkl hkb 0 (by omega)
  have hrk10 : stWF (roundKey sbox key 10) := roundKey_wf hperm hkl hkb 10 (by omega)
  have hst0 : stWF (addRoundKeyL pt (roundKey sbox key 0)) :=
    ark_wf _ _ ⟨hpl, hpb⟩ hrk0
  have henc9 : stWF (encRounds sbox key 9 (addRoundKeyL pt (roundKey sbox key 0))) :=
    encRounds_wf hperm hkl hkb 9 (by omega) _ hst0
  have hSR : stWF (shiftRowsL (subBytesL sbox
      (encRounds sbox key 9 (addRoundKeyL pt (roundKey sbox key 0))))) :=
    shiftRowsL_wf _ (subBytesL_wf hperm _ henc9)
  rw [decryptBlock, encryptBlock,
    ark_ark _ _ (by rw [hSR.1, hrk10.1]),
    decRounds_encRounds hperm hkl hkb 9 (by omega) _ hst0,
    invShift_shift _ (subBytesL_wf hperm _ hst0).1,
    invSub_sub hperm _ hst0.2]
  exact ark_ark pt (roundKey sbox key 0) (by rw [hpl, hrk0.1])

/-! ### Validation-scan lemmas (script.js `validateSBoxValues`) -/

/-- When every value is a byte, the scan can only report a duplicate. -/
theorem validateScan_some_dup : ∀ (l seen : List Nat) (idx : Nat),
    (∀ v ∈ l, v < 256) → ∀ e, validateScan seen idx l = some e →
    ∃ i v, e = ValidationError.duplicateValue i v := by
  intro l
  induction l with
  | nil => intro seen idx _ e he; simp [validateScan] at he
  | cons v rest ih =>
    intro seen idx hb e he
    rw [validateScan] at he
    rw [if_neg (by have := hb v (by simp); omega)] at he
    by_cases hdup : seen.contains v
    · rw [if_pos hdup] at he
      exact ⟨idx, v, (Option.some_inj.mp he).symm⟩
    · rw [if_neg hdup] at he
      exact ih (v :: seen) (idx + 1) (fun u hu => hb u (by simp [hu])) e he

/-- A successful scan means the scanned values were distinct. -/
theorem validateScan_none_nodup : ∀ (l seen : List Nat) (idx : Nat),
    validateScan seen idx l = none →
    l.Nodup ∧ ∀ v ∈ l, ¬ seen.contains v = true := by
  intro l
  induction l with
  | nil => intro seen idx _; exact ⟨List.nodup_nil, by simp⟩
  | cons v rest ih =>
    intro seen idx he
    rw [validateScan] at he
    by_cases hr : 255 < v
    · rw [if_pos hr] at he
      simp at he
    · rw [if_neg hr] at he
      by_cases hdup : seen.contains v
      · rw [if_pos hdup] at he
        simp at he
      · rw [if_neg hdup] at he
        rcases ih (v :: seen) (idx + 1) he with ⟨hnd, hnotin⟩
        constructor
        · rw [List.nodup_cons]
          refine ⟨fun hmem => ?_, hnd⟩
          have := hnotin v hmem
          simp at this
        · intro u hu
          rcases List.mem_cons.mp hu with rfl | hu2
          · exact fun h => hdup h
          · intro h
            have := hnotin u hu2
            simp at this
            exact this.2 (by simpa using h)

/-- 256 in-range values with a repeat fail validation with a
`NotAPermutation`-kind error. -/
theorem validate_dup_notPermutation (values : List Nat)
    (hlen : values.length = 256) (hb : ∀ v ∈ values, v < 256)
    (hdup : ¬ values.Nodup) :
    ∃ e, validateSBoxValues values = Except.error e
      ∧ e.isNotAPermutation = true := by
  rcases hscan : validateScan [] 0 values with _ | e
  · exact absurd (validateScan_none_nodup values [] 0 hscan).1 hdup
  · rcases validateScan_some_dup values [] 0 hb e hscan with ⟨i, v, rfl⟩
    refine ⟨ValidationError.duplicateValue i v, ?_, rfl⟩
    rw [validateSBoxValues, dif_pos hlen, hscan]

/-! ### The analyzer constructor (analyzer.js lines 5-19)

The constructor checks only that the array has length 256 (it throws
`'S-box must be an array of exactly 256 values'` otherwise) and stores a
copy; values are not validated. -/

def sboxAnalyzerInit (sboxArray : List Nat) : Option (List Nat) :=
  if sboxArray.length = 256 then some sboxArray else none

theorem isBijection_false_of_dup (values : List Nat)
    (hlen : values.length = 256) (hdup : ¬ values.Nodup) :
    isBijection values = false := by
  rw [isBijection]
  have hne : values.dedup.length ≠ 256 := by
    intro h
    have heq : values.dedup = values :=
      (List.dedup_sublist values).eq_of_length (by rw [h, hlen])
    exact hdup (heq ▸ List.nodup_dedup values)
  exact beq_eq_false_iff_ne.mpr hne

theorem isBalanced_false_of_dup (values : List Nat)
    (hb : ∀ v ∈ values, v < 256) (hdup : ¬ values.Nodup) :
    isBalanced values = false := by
  have hex : ∃ v, 2 ≤ values.count v := by
    by_contra hall
    push_neg at hall
    exact hdup (List.nodup_iff_count_le_one.mpr (fun a => by have := hall a; omega))
  rcases hex with ⟨v, hv⟩
  have hmem : v ∈ values := List.count_pos_iff.mp (by omega)
  rw [isBalanced]
  refine List.all_eq_false.mpr ⟨v, List.mem_range.mpr (hb v hmem), ?_⟩
  have hne : ¬ values.count v = 1 := by omega
  simp [hne]

/-- A list of 256 distinct bytes is a permutation of `0 .. 255`. -/
theorem perm_of_nodup_lt (l : List Nat) (hlen : l.length = 256)
    (hnd : l.Nodup) (hb : ∀ v ∈ l, v < 256) : l.Perm (List.range 256) := by
  refine List.perm_of_nodup_nodup_toFinset_eq hnd (List.nodup_range 256) ?_
  have hsub : l.toFinset ⊆ (List.range 256).toFinset := by
    intro v hv
    rw [List.mem_toFinset] at hv
    rw [List.mem_toFinset, List.mem_range]
    exact hb v hv
  refine Finset.eq_of_subset_of_card_le hsub ?_
  rw [List.toFinset_card_of_nodup hnd, List.toFinset_card_of_nodup (List.nodup_range 256),
    hlen, List.length_range]

/-! ### Evaluated metric values for the concrete S-boxes -/

theorem hrangeAes : ∀ x, x < 256 → sboxLk aesSBox x < 256 := by
  intro x hx
  rw [aesLk x hx]
  exact land255_lt _

theorem hrangeGdg : ∀ x, x < 256 → sboxLk gdgSBox x < 256 := by
  intro x hx
  rw [gdgLk x hx]
  exact land255_lt _

theorem hrangeIdent : ∀ x, x < 256 → sboxLk identitySBox x < 256 := by
  intro x hx
  rw [identityLk x hx]
  exact hx

theorem hF8ident : ∀ j, j < 8 → ∀ x, x < 256 →
    (bMask j).testBit x = (sboxLk identitySBox x).testBit j := by
  intro j hj x hx
  rw [identityLk x hx]
  exact bMask_testBit j hj x hx

theorem aesF8 : ∀ j, j < 8 → ∀ x, x < 256 →
    (aesF j).testBit x = (sboxLk aesSBox x).testBit j := by
  intro j hj x hx
  rw [aesLk x hx]
  exact aesF_testBit j hj x hx

theorem gdgF8 : ∀ j, j < 8 → ∀ x, x < 256 →
    (gdgF j).testBit x = (sboxLk gdgSBox x).testBit j := by
  intro j hj x hx
  rw [gdgLk x hx]
  exact gdgF_testBit j hj x hx

set_option maxRecDepth 100000 in
theorem aes_nl : calculateNonlinearity aesSBox = 112 := by
  rw [calculateNonlinearity_fast aesSBox aesF hrangeAes aesF8 aesF_lt]
  decide!

set_option maxRecDepth 100000 in
set_option maxHeartbeats 4000000 in
theorem aes_lat_rows : ∀ b, b < 255 → latRowOk (rowV aesF (b + 1)) = true := by
  decide!

set_option maxRecDepth 100000 in
theorem aes_lap : lapMaxBias aesSBox = 16 := by
  have hbound : ∀ a b, a < 256 → b < 256 →
      (if a = 0 ∧ b = 0 then 0 else (latEntry aesSBox a b).natAbs) ≤ 16 := by
    intro a b ha hb
    by_cases h0 : a = 0 ∧ b = 0
    · rw [if_pos h0]
      omega
    · rw [if_neg h0]
      by_cases hb0 : b = 0
      · subst hb0
        have ha0 : a ≠ 0 := fun h => h0 ⟨h, rfl⟩
        rw [latEntry_col0 aesSBox a ha ha0]
        omega
      · obtain ⟨b', rfl⟩ : ∃ b', b = b' + 1 := ⟨b - 1, by omega⟩
        have hf := latRowOk_bound (rowV aesF (b' + 1))
          (rowV_lt aesF aesF_lt (b' + 1)) (aes_lat_rows b' (by omega)) a ha
        rw [latEntry_abs aesSBox aesF hrangeAes aesF8 a (b' + 1) ha hb,
          ← rowV_field aesF aesF_lt (b' + 1) a ha, dist128]
        exact max_le (by omega) (by omega)
  refine Nat.le_antisymm ?_ ?_
  · refine maxTo_le fun a ha => ?_
    refine maxTo_le fun b hb => ?_
    exact hbound a b ha hb
  · have hval : (if (45 = 0 ∧ 1 = 0) then 0
        else (latEntry aesSBox 45 1).natAbs) = 16 := by
      rw [if_neg (by simp),
        latEntry_abs aesSBox aesF hrangeAes aesF8 45 1 (by omega) (by omega),
        ← rowV_field aesF aesF_lt 1 45 (by omega)]
      decide!
    have hin := le_maxTo
      (fun b => if 45 = 0 ∧ b = 0 then 0 else (latEntry aesSBox 45 b).natAbs)
      (show 1 < 256 by omega)
    have hin2 : (if (45 = 0 ∧ 1 = 0) then 0 else (latEntry aesSBox 45 1).natAbs)
        ≤ maxTo 256 (fun b => if 45 = 0 ∧ b = 0 then 0
          else (latEntry aesSBox 45 b).natAbs) := hin
    rw [hval] at hin2
    have hout := le_maxTo
      (fun a => maxTo 256 (fun b => if a = 0 ∧ b = 0 then 0
        else (latEntry aesSBox a b).natAbs))
      (show 45 < 256 by omega)
    exact le_trans hin2 hout

theorem aes_lapValue : lapValue aesSBox = 1 / 64 := by
  rw [lapValue, aes_lap]
  norm_num

set_option maxRecDepth 100000 in
set_option maxHeartbeats 8000000 in
theorem aes_ddt_rows : ∀ i, i < 255 →
    duRowOk (ddtRowF (fun x => (aesPk >>> (8 * x)) &&& 255) (i + 1)) = true := by
  decide!

set_option maxRecDepth 100000 in
theorem aes_du : dapMaxDiff aesSBox = 4 := by
  refine Nat.le_antisymm ?_ ?_
  · refine maxTo_le fun i hi => ?_
    refine maxTo_le fun j hj => ?_
    exact duRowOk_bound aesSBox _ aesLk hrangeAes (i + 1) (by omega)
      (aes_ddt_rows i hi) j hj
  · have hval : ddtEntry aesSBox (0 + 1) 31 = 4 := by
      rw [ddt_digit aesSBox _ aesLk hrangeAes (0 + 1) 31 (by omega) (by omega)]
      decide!
    have hin := le_maxTo (fun j => ddtEntry aesSBox (0 + 1) j)
      (show 31 < 256 by omega)
    have hin2 : ddtEntry aesSBox (0 + 1) 31
        ≤ maxTo 256 (fun j => ddtEntry aesSBox (0 + 1) j) := hin
    rw [hval] at hin2
    have hout := le_maxTo
      (fun i => maxTo 256 (fun j => ddtEntry aesSBox (i + 1) j))
      (show 0 < 255 by omega)
    exact le_trans hin2 hout

set_option maxRecDepth 100000 in
theorem aes_deg : calculateAlgebraicDegree aesSBox = 7 := by
  rw [calculateAlgebraicDegree_fast aesSBox _ aesLk]
  decide!

set_option maxRecDepth 100000 in
theorem aes_sac : sacScore aesSBox = 27 / 1024 := by
  rw [sacScore_fast aesSBox _ aesLk]
  decide!

set_option maxRecDepth 100000 in
theorem aes_inv_lk : ∀ x, x < 256 →
    (invAesPk >>> (8 * ((aesPk >>> (8 * x)) &&& 255))) &&& 255 = x := by
  decide!

theorem aes_nodup : aesSBox.Nodup := by
  rw [aes_eq_map]
  refine List.Nodup.map_on ?_ (List.nodup_range 256)
  intro x hx y hy hf
  have hx2 := List.mem_range.mp hx
  have hy2 := List.mem_range.mp hy
  have h1 := aes_inv_lk x hx2
  have h2 := aes_inv_lk y hy2
  rw [← h1, ← h2, hf]

theorem aes_range : ∀ v ∈ aesSBox, v < 256 := by
  rw [aes_eq_map]
  intro v hv
  rcases List.mem_map.mp hv with ⟨x, _, rfl⟩
  exact land255_lt _

theorem aes_len : aesSBox.length = 256 := by
  rw [aes_eq_map, List.length_map, List.length_range]

theorem aes_perm : aesSBox.Perm (List.range 256) :=
  perm_of_nodup_lt aesSBox aes_len aes_nodup aes_range

theorem aes_bal : isBalanced aesSBox = true := by
  rw [isBalanced]
  refine List.all_eq_true.mpr ?_
  intro v hv
  rw [beq_iff_eq, List.Perm.count_eq aes_perm]
  exact List.count_eq_one_of_mem (List.nodup_range 256) hv

theorem aes_bij : isBijection aesSBox = true := by
  rw [isBijection, List.dedup_eq_self.mpr aes_nodup, aes_len]
  rfl

set_option maxRecDepth 100000 in
theorem ident_nl : calculateNonlinearity identitySBox = 0 := by
  rw [calculateNonlinearity_fast identitySBox bMask hrangeIdent hF8ident bMask_lt]
  decide!

theorem ident_latCount11 : latCount identitySBox 1 1 = 256 := by
  rw [latCount]
  have hcongr : ∀ x, x < 256 →
      (dotParity 1 x == dotParity 1 (sboxLk identitySBox x)) = true := by
    intro x hx
    rw [identityLk x hx]
    simp
  rw [countTo_congr hcongr, countTo_true]

theorem ident_lap : lapMaxBias identitySBox = 128 := by
  have hval : (if (1 = 0 ∧ 1 = 0) then 0 else (latEntry identitySBox 1 1).natAbs)
      = 128 := by
    rw [if_neg (by simp), latEntry, ident_latCount11]
    rfl
  refine Nat.le_antisymm ?_ ?_
  · refine maxTo_le fun a _ => ?_
    refine maxTo_le fun b _ => ?_
    by_cases h : a = 0 ∧ b = 0
    · rw [if_pos h]
      omega
    · rw [if_neg h]
      exact latEntry_natAbs_le identitySBox a b
  · have hin := le_maxTo
      (fun b => if 1 = 0 ∧ b = 0 then 0 else (latEntry identitySBox 1 b).natAbs)
      (show 1 < 256 by omega)
    have hin2 : (if (1 = 0 ∧ 1 = 0) then 0 else (latEntry identitySBox 1 1).natAbs)
        ≤ maxTo 256 (fun b => if 1 = 0 ∧ b = 0 then 0
          else (latEntry identitySBox 1 b).natAbs) := hin
    rw [hval] at hin2
    have hout := le_maxTo
      (fun a => maxTo 256 (fun b => if a = 0 ∧ b = 0 then 0
        else (latEntry identitySBox a b).natAbs))
      (show 1 < 256 by omega)
    exact le_trans hin2 hout

theorem ident_ddt11 : ddtEntry identitySBox 1 1 = 256 := by
  rw [ddtEntry_eq_count identitySBox 1 1 (by omega)]
  have hcongr : ∀ x, x < 256 →
      (sboxLk identitySBox x ^^^ sboxLk identitySBox (x ^^^ 1) == 1) = true := by
    intro x hx
    rw [identityLk x hx, identityLk (x ^^^ 1) (xor_lt_256 hx (by omega)),
      Nat.xor_cancel_left]
    rfl
  rw [countTo_congr hcongr, countTo_true]

theorem ident_du : dapMaxDiff identitySBox = 256 := by
  refine Nat.le_antisymm ?_ ?_
  · refine maxTo_le fun i hi => ?_
    refine maxTo_le fun j _ => ?_
    exact ddtEntry_le identitySBox (i + 1) j (by omega)
  · have hin := le_maxTo (fun j => ddtEntry identitySBox (0 + 1) j)
      (show 1 < 256 by omega)
    have hin2 : ddtEntry identitySBox (0 + 1) 1
        ≤ maxTo 256 (fun j => ddtEntry identitySBox (0 + 1) j) := hin
    rw [show (0 + 1 : Nat) = 1 from rfl, ident_ddt11] at hin2
    have hout := le_maxTo (fun i => maxTo 256 (fun j => ddtEntry identitySBox (i + 1) j))
      (show 0 < 255 by omega)
    exact le_trans hin2 hout

set_option maxRecDepth 100000 in
theorem ident_deg : calculateAlgebraicDegree identitySBox = 1 := by
  rw [calculateAlgebraicDegree_fast identitySBox (fun x => x)
    (fun x hx => identityLk x hx)]
  decide!

set_option maxRecDepth 100000 in
theorem ident_sac : sacScore identitySBox = 1 / 2 := by
  rw [sacScore_fast identitySBox (fun x => x) (fun x hx => identityLk x hx)]
  decide!

set_option maxRecDepth 100000 in
theorem ident_ci : calculateCorrelationImmunity identitySBox = 8 := by
  rw [calculateCorrelationImmunity_fast identitySBox bMask hrangeIdent hF8ident,
    ciFastW_eq bMask bMask_lt]
  decide!

set_option maxRecDepth 100000 in
theorem gdg_inv_lk : ∀ x, x < 256 →
    (invGdgPk >>> (8 * ((gdgPk >>> (8 * x)) &&& 255))) &&& 255 = x := by
  decide!

theorem gdg_nodup : gdgSBox.Nodup := by
  rw [gdg_eq_map]
  refine List.Nodup.map_on ?_ (List.nodup_range 256)
  intro x hx y hy hf
  have hx2 := List.mem_range.mp hx
  have hy2 := List.mem_range.mp hy
  have h1 := gdg_inv_lk x hx2
  have h2 := gdg_inv_lk y hy2
  rw [← h1, ← h2, hf]

theorem gdg_range : ∀ v ∈ gdgSBox, v < 256 := by
  rw [gdg_eq_map]
  intro v hv
  rcases List.mem_map.mp hv with ⟨x, _, rfl⟩
  exact land255_lt _

theorem gdg_len : gdgSBox.length = 256 := by
  rw [gdg_eq_map, List.length_map, List.length_range]

theorem gdg_perm : gdgSBox.Perm (List.range 256) :=
  perm_of_nodup_lt gdgSBox gdg_len gdg_nodup gdg_range

set_option maxRecDepth 100000 in
theorem gdg_nl : calculateNonlinearity gdgSBox = 64 := by
  rw [calculateNonlinearity_fast gdgSBox gdgF hrangeGdg gdgF8 gdgF_lt]
  decide!

set_option maxRecDepth 100000 in
theorem gdg_lat33 : (latEntry gdgSBox 3 3).natAbs = 128 := by
  rw [latEntry_abs gdgSBox gdgF hrangeGdg gdgF8 3 3 (by omega) (by omega)]
  decide!

theorem script_len : scriptStandardSBox.length = 256 := by
  rw [script_eq_map, List.length_map, List.length_range]

theorem script_range : ∀ v ∈ scriptStandardSBox, v < 256 := by
  rw [script_eq_map]
  intro v hv
  rcases List.mem_map.mp hv with ⟨x, _, rfl⟩
  exact land255_lt _

theorem script_dup : ¬ scriptStandardSBox.Nodup := by
  intro h
  have h1 : scriptStandardSBox.get ⟨10, by rw [script_len]; omega⟩
      = scriptStandardSBox.get ⟨103, by rw [script_len]; omega⟩ := rfl
  have h2 := List.nodup_iff_injective_get.mp h h1
  have h3 : (10 : Nat) = 103 := congrArg Fin.val h2
  omega

/-! ## The claims -/

theorem findGreatest_congr (P Q : Nat → Prop) [DecidablePred P] [DecidablePred Q]
    (h : ∀ k, P k ↔ Q k) : ∀ n, Nat.findGreatest P n = Nat.findGreatest Q n := by
  intro n
  induction n with
  | zero => rfl
  | succ n ih =>
    rw [Nat.findGreatest_succ, Nat.findGreatest_succ, ih]
    by_cases hp : P (n + 1)
    · rw [if_pos hp, if_pos ((h (n + 1)).mp hp)]
    · rw [if_neg hp, if_neg (fun hq => hp ((h (n + 1)).mpr hq))]

theorem ciHasZero_iff (f : Nat → Nat) (w : Nat) :
    ciHasZero f w = true
      ↔ ∃ m, m < 256 ∧ hammingWeight m = w ∧ walshAt f m = 0 := by
  rw [ciHasZero, anyTo_eq_any]
  constructor
  · rintro ⟨i, hi, hp⟩
    rw [Bool.and_eq_true, beq_iff_eq, beq_iff_eq] at hp
    exact ⟨i, hi, hp.1, hp.2⟩
  · rintro ⟨m, hm, h1, h2⟩
    refine ⟨m, hm, ?_⟩
    rw [Bool.and_eq_true, beq_iff_eq, beq_iff_eq]
    exact ⟨h1, h2⟩

instance (f : Nat → Nat) (w : Nat) :
    Decidable (∃ m, m < 256 ∧ hammingWeight m = w ∧ walshAt f m = 0) :=
  decidable_of_iff (ciHasZero f w = true) (ciHasZero_iff f w)

/-- C1 (amended): the reported correlation immunity is the maximum over the
eight output bits of the greatest `k ≤ 8` such that every weight `1 .. k`
has SOME mask of that weight with a zero Walsh coefficient (the source
loop only asks for existence per weight, not for all masks of the weight
to vanish). -/
theorem c1_correlation_immunity_streak (sbox : List Nat) :
    calculateCorrelationImmunity sbox
      = (Finset.range 8).sup (fun j => Nat.findGreatest
          (fun k => ∀ w, w ≤ k → 1 ≤ w → ∃ m, m < 256
            ∧ hammingWeight m = w
            ∧ walshAt (getBooleanFunction sbox j) m = 0) 8) := by
  rw [calculateCorrelationImmunity, maxTo_eq_sup]
  refine Finset.sup_congr rfl fun j _ => ?_
  rw [ciBit_eq_findGreatest]
  refine findGreatest_congr _ _ (fun k => ?_) 8
  constructor
  · intro h w hw h1
    exact (ciHasZero_iff _ w).mp (h w hw h1)
  · intro h w hw h1
    exact (ciHasZero_iff _ w).mpr (h w hw h1)

/-- C1 counterexample: on the identity permutation the source reports
correlation immunity 8, yet every output bit has a weight-1 mask with a
non-zero Walsh coefficient, so the claimed all-masks definition gives 0. -/
theorem c1_counterexample :
    calculateCorrelationImmunity identitySBox = 8
      ∧ ∀ j, j < 8 → hammingWeight (2 ^ j) = 1
        ∧ walshAt (getBooleanFunction identitySBox j) (2 ^ j) ≠ 0 := by
  have hw : ∀ j, j < 8 → hammingWeight (2 ^ j) = 1 := by decide!
  have hbc : ∀ j, j < 8 → ¬ bitCard 256 (patIn (2 ^ j) ^^^ bMask j) = 128 := by
    decide!
  refine ⟨ident_ci, fun j hj => ⟨hw j hj, ?_⟩⟩
  rw [walshAt_pattern identitySBox bMask hrangeIdent hF8ident j (2 ^ j) hj
    (two_pow_lt_256 hj)]
  have h1 := hbc j hj
  omega

/-- C2: validating a 256-length byte sequence with a repeated value fails
with a `NotAPermutation`-kind error, a sequence of the wrong length fails
with `InvalidSBoxLength`, and in both cases `analyze` returns an error, so
no report is delivered. -/
theorem c2_validation_errors :
    (∀ values : List Nat, values.length = 256 → (∀ v ∈ values, v < 256) →
      ¬ values.Nodup →
      ∃ e, analyze values = Except.error e ∧ e.isNotAPermutation = true)
    ∧ ∀ values : List Nat, values.length ≠ 256 →
      analyze values = Except.error (ValidationError.invalidLength values.length) := by
  constructor
  · intro values hlen hb hdup
    rcases validate_dup_notPermutation values hlen hb hdup with ⟨e, he, hkind⟩
    refine ⟨e, ?_, hkind⟩
    simp only [analyze, he]
  · intro values hlen
    simp only [analyze, validateSBoxValues, dif_neg hlen]

theorem c2_witness :
    (∃ e, analyze scriptStandardSBox = Except.error e ∧ e.isNotAPermutation = true)
    ∧ analyze (List.range 255)
      = Except.error (ValidationError.invalidLength (List.range 255).length) :=
  ⟨c2_validation_errors.1 scriptStandardSBox script_len script_range script_dup,
   c2_validation_errors.2 (List.range 255) (by decide)⟩

/-- C3 (modelled from the spec, §4.8): decrypting the encryption of a
16-byte plaintext with the same 16-byte key and 256-permutation S-box
returns the plaintext byte-for-byte. -/
theorem c3_encrypt_decrypt_roundtrip :
    ∀ sbox key pt : List Nat, sbox.Perm (List.range 256) →
      key.length = 16 → (∀ v ∈ key, v < 256) →
      pt.length = 16 → (∀ v ∈ pt, v < 256) →
      decryptBlock (encryptBlock pt key sbox) key sbox = pt :=
  fun _ _ _ hperm hkl hkb hpl hpb => decrypt_encrypt hperm hkl hkb hpl hpb

theorem c3_witness :
    decryptBlock (encryptBlock
        [0, 1, 2, 3, 4, 5, 6, 7, 8, 9, 10, 11, 12, 13, 14, 15]
        (List.replicate 16 7) identitySBox)
      (List.replicate 16 7) identitySBox
      = [0, 1, 2, 3, 4, 5, 6, 7, 8, 9, 10, 11, 12, 13, 14, 15] :=
  c3_encrypt_decrypt_roundtrip identitySBox (List.replicate 16 7)
    [0, 1, 2, 3, 4, 5, 6, 7, 8, 9, 10, 11, 12, 13, 14, 15]
    (List.Perm.refl _) (by decide) (by decide) (by decide) (by decide)

/-- C4 (amended): for every 256-permutation, every LAT entry is even, and
the bound `|LAT[a][b]| ≤ 128 - NL` holds for every non-zero input mask `a`
when the output mask is a single bit `b = 2^j` (the bound fails for
general output masks). -/
theorem c4_lat_parity_bound :
    ∀ sbox : List Nat, sbox.Perm (List.range 256) →
      (∀ a b, a < 256 → b < 256 → Even (latEntry sbox a b))
      ∧ ∀ a j, 1 ≤ a → a < 256 → j < 8 →
          (latEntry sbox a (2 ^ j)).natAbs ≤ 128 - calculateNonlinearity sbox :=
  fun _ hperm =>
    ⟨fun a b ha hb => latEntry_even hperm a b ha hb,
     fun a j ha1 ha hj => lat_single_bit_bound hperm a j ha1 ha hj⟩

theorem c4_witness :
    Even (latEntry identitySBox 3 5)
    ∧ (latEntry identitySBox 3 (2 ^ 1)).natAbs
        ≤ 128 - calculateNonlinearity identitySBox :=
  ⟨(c4_lat_parity_bound identitySBox (List.Perm.refl _)).1 3 5 (by decide) (by decide),
   (c4_lat_parity_bound identitySBox (List.Perm.refl _)).2 3 1 (by decide) (by decide)
     (by decide)⟩

/-- C4 counterexample: a 256-permutation with nonlinearity 64 whose LAT
entry at `(3, 3)` has absolute value 128 > 128 - 64, refuting the claimed
bound for general `(a, b) ≠ (0, 0)`. -/
theorem c4_counterexample :
    gdgSBox.Perm (List.range 256)
    ∧ 128 - calculateNonlinearity gdgSBox < (latEntry gdgSBox 3 3).natAbs := by
  refine ⟨gdg_perm, ?_⟩
  rw [gdg_nl, gdg_lat33]
  omega

/-- C5 (amended): the true AES S-box analyses to nonlinearity 112,
differential uniformity 4, LAP max bias 16 with LAP value 1/64, algebraic
degree 7, SAC score 27/1024 (not 0.125), and is balanced and a bijection. -/
theorem c5_standard_aes_metrics :
    (runFullAnalysis aesSBox).nonlinearity = 112
    ∧ (runFullAnalysis aesSBox).differentialUniformity = 4
    ∧ (runFullAnalysis aesSBox).lapMaxBias = 16
    ∧ (runFullAnalysis aesSBox).lapValue = 1 / 64
    ∧ (runFullAnalysis aesSBox).algebraicDegree = 7
    ∧ (runFullAnalysis aesSBox).sacScore = 27 / 1024
    ∧ (runFullAnalysis aesSBox).isBalanced = true
    ∧ (runFullAnalysis aesSBox).isBijection = true :=
  ⟨aes_nl, aes_du, aes_lap, aes_lapValue, aes_deg, aes_sac, aes_bal, aes_bij⟩

/-- C5 counterexample: the table `loadStandardAESSBox` actually installs
is not even a bijection (it repeats 0x67 and omits 0x16), and the true AES
S-box's SAC score 27/1024 is not within 1e-9 of the claimed 0.125. -/
theorem c5_counterexample :
    isBijection scriptStandardSBox = false
    ∧ ¬ |sacScore aesSBox - 1 / 8| ≤ 1 / 1000000000 := by
  refine ⟨isBijection_false_of_dup scriptStandardSBox script_len script_dup, ?_⟩
  have h : sacScore aesSBox - 1 / 8 = -(101 / 1024 : Rat) := by
    rw [aes_sac]
    norm_num
  rw [h, abs_neg, abs_of_nonneg (by norm_num : (0:Rat) ≤ 101 / 1024)]
  norm_num

/-- C6: the identity permutation analyses to nonlinearity 0, differential
uniformity 256 and algebraic degree 1. -/
theorem c6_identity_metrics :
    (runFullAnalysis identitySBox).nonlinearity = 0
    ∧ (runFullAnalysis identitySBox).differentialUniformity = 256
    ∧ (runFullAnalysis identitySBox).algebraicDegree = 1 :=
  ⟨ident_nl, ident_du, ident_deg⟩

theorem ddt00 (sbox : List Nat) : ddtEntry sbox 0 0 = 256 := by
  rw [ddtEntry_eq_count sbox 0 0 (by omega)]
  have hcongr : ∀ x, x < 256 →
      (sboxLk sbox x ^^^ sboxLk sbox (x ^^^ 0) == 0) = true := by
    intro x _
    rw [Nat.xor_zero, Nat.xor_self]
    rfl
  rw [countTo_congr hcongr, countTo_true]

/-- C7: for every 256-permutation, every DDT entry is even, every DDT row
sums to 256, `DDT[0][0] = 256` and `LAT[0][0] = 128`. -/
theorem c7_table_invariants :
    ∀ sbox : List Nat, sbox.Perm (List.range 256) →
      (∀ i j, i < 256 → j < 256 → Even (ddtEntry sbox i j))
      ∧ (∀ i, i < 256 → ∑ j ∈ Finset.range 256, ddtEntry sbox i j = 256)
      ∧ ddtEntry sbox 0 0 = 256
      ∧ latEntry sbox 0 0 = 128 :=
  fun sbox hperm =>
    ⟨fun i j hi _ => ddtEntry_even sbox i j hi,
     fun i hi => ddt_row_sum sbox (perm_lk_lt hperm) i hi,
     ddt00 sbox,
     latEntry_zero_zero sbox⟩

theorem c7_witness :
    Even (ddtEntry identitySBox 1 2)
    ∧ (∑ j ∈ Finset.range 256, ddtEntry identitySBox 1 j = 256)
    ∧ ddtEntry identitySBox 0 0 = 256
    ∧ latEntry identitySBox 0 0 = 128 :=
  ⟨(c7_table_invariants identitySBox (List.Perm.refl _)).1 1 2 (by decide) (by decide),
   (c7_table_invariants identitySBox (List.Perm.refl _)).2.1 1 (by decide),
   (c7_table_invariants identitySBox (List.Perm.refl _)).2.2.1,
   (c7_table_invariants identitySBox (List.Perm.refl _)).2.2.2⟩

/-- C8: for every 256-permutation, every output bit and every mask, the
Walsh coefficient is an even integer in `[-256, 256]`. -/
theorem c8_walsh_range :
    ∀ sbox : List Nat, sbox.Perm (List.range 256) →
      ∀ i w, i < 8 → w < 256 →
        Even (walshAt (getBooleanFunction sbox i) w)
        ∧ -256 ≤ walshAt (getBooleanFunction sbox i) w
        ∧ walshAt (getBooleanFunction sbox i) w ≤ 256 :=
  fun sbox _ i w _ _ =>
    ⟨walshAt_even _ w, neg_le_walshAt _ w, walshAt_le _ w⟩

theorem c8_witness :
    Even (walshAt (getBooleanFunction identitySBox 0) 1)
    ∧ -256 ≤ walshAt (getBooleanFunction identitySBox 0) 1
    ∧ walshAt (getBooleanFunction identitySBox 0) 1 ≤ 256 :=
  c8_walsh_range identitySBox (List.Perm.refl _) 0 1 (by decide) (by decide)

/-- C9: the summary uses thresholds NL ≥ 100, DU ≤ 4, max bias ≤ 32 and
SAC ≤ 0.1, with level High at zero weaknesses, Medium at one or two and
Low otherwise; on the identity permutation's metrics the level is Low
with "Low nonlinearity" and "High differential uniformity" among the
weaknesses. -/
theorem c9_summary_thresholds :
    (∀ (nl du maxBias : Nat) (sac : Rat),
      (SummaryItem.highNonlinearity ∈ (generateSummary nl du maxBias sac).strengths
        ↔ 100 ≤ nl)
      ∧ (SummaryItem.lowNonlinearity ∈ (generateSummary nl du maxBias sac).weaknesses
        ↔ ¬ 100 ≤ nl)
      ∧ (SummaryItem.goodDifferentialUniformity
          ∈ (generateSummary nl du maxBias sac).strengths ↔ du ≤ 4)
      ∧ (SummaryItem.highDifferentialUniformity
          ∈ (generateSummary nl du maxBias sac).weaknesses ↔ ¬ du ≤ 4)
      ∧ (SummaryItem.goodLinearResistance
          ∈ (generateSummary nl du maxBias sac).strengths ↔ maxBias ≤ 32)
      ∧ (SummaryItem.vulnerableToLinearCryptanalysis
          ∈ (generateSummary nl du maxBias sac).weaknesses ↔ ¬ maxBias ≤ 32)
      ∧ (SummaryItem.satisfiesSAC ∈ (generateSummary nl du maxBias sac).strengths
        ↔ sac ≤ 1 / 10)
      ∧ (SummaryItem.poorAvalancheProperties
          ∈ (generateSummary nl du maxBias sac).weaknesses ↔ ¬ sac ≤ 1 / 10)
      ∧ ((generateSummary nl du maxBias sac).securityLevel = SecurityLevel.high
        ↔ (generateSummary nl du maxBias sac).weaknesses.length = 0)
      ∧ ((generateSummary nl du maxBias sac).securityLevel = SecurityLevel.medium
        ↔ 1 ≤ (generateSummary nl du maxBias sac).weaknesses.length
          ∧ (generateSummary nl du maxBias sac).weaknesses.length ≤ 2)
      ∧ ((generateSummary nl du maxBias sac).securityLevel = SecurityLevel.low
        ↔ 3 ≤ (generateSummary nl du maxBias sac).weaknesses.length))
    ∧ ((generateSummary (runFullAnalysis identitySBox).nonlinearity
          (runFullAnalysis identitySBox).differentialUniformity
          (runFullAnalysis identitySBox).lapMaxBias
          (runFullAnalysis identitySBox).sacScore).securityLevel = SecurityLevel.low
      ∧ SummaryItem.lowNonlinearity
          ∈ (generateSummary (runFullAnalysis identitySBox).nonlinearity
              (runFullAnalysis identitySBox).differentialUniformity
              (runFullAnalysis identitySBox).lapMaxBias
              (runFullAnalysis identitySBox).sacScore).weaknesses
      ∧ SummaryItem.highDifferentialUniformity
          ∈ (generateSummary (runFullAnalysis identitySBox).nonlinearity
              (runFullAnalysis identitySBox).differentialUniformity
              (runFullAnalysis identitySBox).lapMaxBias
              (runFullAnalysis identitySBox).sacScore).weaknesses) := by
  constructor
  · intro nl du maxBias sac
    by_cases h1 : 100 ≤ nl <;> by_cases h2 : du ≤ 4 <;>
      by_cases h3 : maxBias ≤ 32 <;> by_cases h4 : sac ≤ (10:Rat)⁻¹ <;>
      simp [generateSummary, h1, h2, h3, h4]
  · have e1 : (runFullAnalysis identitySBox).nonlinearity = 0 := ident_nl
    have e2 : (runFullAnalysis identitySBox).differentialUniformity = 256 := ident_du
    have e3 : (runFullAnalysis identitySBox).lapMaxBias = 128 := ident_lap
    have e4 : (runFullAnalysis identitySBox).sacScore = 1 / 2 := ident_sac
    rw [e1, e2, e3, e4]
    refine ⟨?_, ?_, ?_⟩ <;> decide

/-- C10: construction checks only the length, so any 256-length byte
array — permutation or not — is accepted, the full analysis (total in
this embedding, as every loop body is) produces a report, and on a
non-permutation the report's balanced and bijection flags are false. -/
theorem c10_total_on_non_permutations :
    ∀ values : List Nat, values.length = 256 → (∀ v ∈ values, v < 256) →
      ¬ values.Nodup →
      sboxAnalyzerInit values = some values
      ∧ (runFullAnalysis values).isBalanced = false
      ∧ (runFullAnalysis values).isBijection = false :=
  fun values hlen hb hdup =>
    ⟨by rw [sboxAnalyzerInit, if_pos hlen],
     isBalanced_false_of_dup values hb hdup,
     isBijection_false_of_dup values hlen hdup⟩

theorem c10_witness :
    sboxAnalyzerInit scriptStandardSBox = some scriptStandardSBox
    ∧ (runFullAnalysis scriptStandardSBox).isBalanced = false
    ∧ (runFullAnalysis scriptStandardSBox).isBijection = false :=
  c10_total_on_non_permutations scriptStandardSBox script_len script_range script_dup
